import Mathlib

/-!
# Dynamic Go function provider

A shallow embedding of `main.go`: the provider registry (`FunctionProvider`), the type
mapper (`GoTypeToTFType`), the value codec (`TfToGoValue`, `GoToTfValue`, `ProtoToGo`),
the function adapter (`GoFunctionToTFFunction`) and the configure pipeline.

Conventions of the embedding.

* A Go `string` is its sequence of bytes (`GoString`); `str` writes a literal in UTF-8.
* A Go function returning `(T, error)` returns a `Res T`: a value, an error, or a
  run-time panic.
* `reflect.Type` is the inductive `GoType`; a defined (named) type is identified with
  its underlying type, except for the predeclared interface `error`.
* `tftypes.Type` and `tftypes.Value` are the inductives `TfType` and `TfValue`, limited
  to the types the type mapper can produce.
* Go maps are association lists; `range` visits the entries in list order. The catalogs
  of the provider are `AList`s, whose keys are pairwise distinct.
* `int` has 64 bits.
-/

namespace TfGo

set_option linter.dupNamespace false

/-! ## Strings -/

/-- A Go string: a sequence of bytes. -/
abbrev GoString := List Nat

/-- UTF-8 encoding of one code point. -/
def utf8EncodeRune (r : Nat) : List Nat :=
  if r < 0x80 then [r]
  else if r < 0x800 then [0xC0 + r / 0x40, 0x80 + r % 0x40]
  else if r < 0x10000 then [0xE0 + r / 0x1000, 0x80 + r / 0x40 % 0x40, 0x80 + r % 0x40]
  else [0xF0 + r / 0x40000, 0x80 + r / 0x1000 % 0x40, 0x80 + r / 0x40 % 0x40,
        0x80 + r % 0x40]

/-- The bytes of a string literal of the source. -/
def str (s : String) : GoString :=
  s.data.flatMap fun c => utf8EncodeRune c.toNat

/-- The call `strings.ToLower(s)` for a string `s` of exactly one byte `c`. An ASCII byte
takes the ASCII path of `strings.ToLower`. A byte `≥ 0x80` standing alone is not valid
UTF-8: `strings.ToLower` then maps runes with `strings.Map`, which reads the byte as
`utf8.RuneError` and writes the encoding of `U+FFFD`. -/
def toLowerByte (c : Nat) : GoString :=
  if c < 0x80 then
    (if 0x41 ≤ c ∧ c ≤ 0x5A then [c + 0x20] else [c])
  else [0xEF, 0xBF, 0xBD]

/-! ## Go maps as association lists -/

/-- Reading `m[k]` with the comma-ok form. -/
def mapGet {β : Type} : List (GoString × β) → GoString → Option β
  | [], _ => none
  | (k, v) :: rest, key => if k = key then some v else mapGet rest key

/-- The assignment `m[k] = v`: overwrite the entry of `k`, or add one. -/
def mapSet {β : Type} : List (GoString × β) → GoString → β → List (GoString × β)
  | [], key, val => [(key, val)]
  | (k, v) :: rest, key, val =>
      if k = key then (k, val) :: rest else (k, v) :: mapSet rest key val

/-- The keys of a map. -/
def mapKeys {β : Type} (m : List (GoString × β)) : List GoString :=
  m.map Prod.fst

/-- The map obtained by assigning the pairs of a list in order. -/
def mapOfPairs {β : Type} (pairs : List (GoString × β)) : List (GoString × β) :=
  pairs.foldl (fun m p => mapSet m p.1 p.2) []

/-! ## Types of the two type systems -/

/-- The values of `reflect.Kind`. -/
inductive Kind where
  | Invalid | Bool | Int | Int8 | Int16 | Int32 | Int64
  | Uint | Uint8 | Uint16 | Uint32 | Uint64 | Uintptr
  | Float32 | Float64 | Complex64 | Complex128
  | Array | Chan | Func | Interface | Map | Pointer | Slice | String | Struct
  | UnsafePointer
  deriving DecidableEq, Repr

/-- The predeclared scalar types that the type mapper does not accept. -/
inductive Scalar where
  | int8 | int16 | int32 | int64
  | uint | uint8 | uint16 | uint32 | uint64 | uintptr
  | float32 | complex64 | complex128 | rawPointer
  deriving DecidableEq, Repr

/-- The kind of a scalar type. -/
def Scalar.Kind : Scalar → Kind
  | .int8 => .Int8 | .int16 => .Int16 | .int32 => .Int32 | .int64 => .Int64
  | .uint => .Uint | .uint8 => .Uint8 | .uint16 => .Uint16 | .uint32 => .Uint32
  | .uint64 => .Uint64 | .uintptr => .Uintptr
  | .float32 => .Float32 | .complex64 => .Complex64 | .complex128 => .Complex128
  | .rawPointer => .UnsafePointer

/-- The predeclared types that the type mapper accepts, as the underlying type of a
defined type. -/
inductive Basic where
  | string | bool | int | float64
  deriving DecidableEq, Repr

/-- The kind of a predeclared type that the type mapper accepts. -/
def Basic.Kind : Basic → Kind
  | .string => .String
  | .bool => .Bool
  | .int => .Int
  | .float64 => .Float64

/-- A `reflect.StructField`: its name, the value of the key `tf` in its tag (empty when
the tag has no such key), its type, and whether it is exported. -/
structure Field (τ : Type) where
  Name : GoString
  TfTag : GoString
  Typ : τ
  Exported : Bool

/-- A `reflect.Type`. `iface methods` is an interface type with the given method names
(`iface []` is `interface{}`), `error` the predeclared interface `error`, and
`defined name underlying` the defined type `name` whose underlying type is the
predeclared type `underlying` (`time.Month` is `defined "time.Month" int`): it has the
kind of its underlying type and is a type of its own. The other types are type literals
over these. The types are finite trees: none is recursive (`TypeExpr` has the types that
name a declaration), and no defined type has a composite underlying type. -/
inductive GoType where
  | string | bool | int | float64
  | scalar (s : Scalar)
  | defined (name : GoString) (underlying : Basic)
  | ptr (elem : GoType)
  | slice (elem : GoType)
  | array (len : Nat) (elem : GoType)
  | chan (elem : GoType)
  | map (key elem : GoType)
  | struct (fields : List (Field GoType))
  | iface (methods : List GoString)
  | error
  | func (ins outs : List GoType) (variadic : Bool)

/-- A field of a struct type. -/
abbrev StructField := Field GoType

/-- The method `reflect.Type.Kind`. -/
def GoType.Kind : GoType → Kind
  | .string => .String
  | .bool => .Bool
  | .int => .Int
  | .float64 => .Float64
  | .scalar s => s.Kind
  | .defined _ underlying => underlying.Kind
  | .ptr _ => .Pointer
  | .slice _ => .Slice
  | .array _ _ => .Array
  | .chan _ => .Chan
  | .map _ _ => .Map
  | .struct _ => .Struct
  | .iface _ => .Interface
  | .error => .Interface
  | .func _ _ _ => .Func

/-- A `tftypes.Type`, among those the type mapper produces. -/
inductive TfType where
  | string | bool | number | dynamic
  | list (ElementType : TfType)
  | map (ElementType : TfType)
  | object (AttributeTypes : List (GoString × TfType))

/-! ## Errors and outcomes -/

/-- The text of a Go error. A text that embeds the rendering of a type (`%s` of
`t.String()`, `%T` of a value) keeps the type itself; an error raised inside a library
keeps the name of the call that raised it; `argument i cause` is the text
`argument <i>: <cause>`. -/
inductive ErrText where
  | text (s : GoString)
  | withGoType (pre : GoString) (t : Option GoType) (post : GoString)
  | withTfType (pre : GoString) (t : TfType)
  | argument (i : Nat) (cause : ErrText)
  | lib (call : String) (what : String)

/-- The outcome of a Go call that returns `(T, error)` and may panic. -/
inductive Res (α : Type) where
  | ok (v : α)
  | error (e : ErrText)
  | panic (why : String)

/-- Sequencing of outcomes: the first error or panic ends the computation. -/
def Res.bind {α β : Type} : Res α → (α → Res β) → Res β
  | .ok v, f => f v
  | .error e, _ => .error e
  | .panic w, _ => .panic w

/-- Apply a function to the value of a successful outcome. -/
def Res.map {α β : Type} (f : α → β) : Res α → Res β
  | .ok v => .ok (f v)
  | .error e => .error e
  | .panic w => .panic w

/-! ## Type mapper -/

/-- The function `uncapitalize` (main.go:371). The slice `s[:1]` of the empty string
panics. -/
def uncapitalize (s : GoString) : Res GoString :=
  match s with
  | [] => .panic "slice bounds out of range [:1] with length 0"
  | [c] => .ok (toLowerByte c)
  | c :: rest => .ok (toLowerByte c ++ rest)

/-- The function `getTfObjectGoFieldName` (main.go:364). -/
def getTfObjectGoFieldName (field : StructField) : Res GoString :=
  if field.TfTag ≠ [] then .ok field.TfTag else uncapitalize field.Name

mutual
/-- The function `GoTypeToTFType` (main.go:311). -/
def GoTypeToTFType : GoType → Res TfType
  | .string => .ok .string
  | .bool => .ok .bool
  | .int => .ok .number
  | .float64 => .ok .number
  | .defined _ .string => .ok .string
  | .defined _ .bool => .ok .bool
  | .defined _ .int => .ok .number
  | .defined _ .float64 => .ok .number
  | .ptr elem => GoTypeToTFType elem
  | .iface methods =>
      if methods = [] then .ok .dynamic
      else .error (.withGoType (str "unsupported interface type ") (some (.iface methods))
        (str ", only interface\x7b\x7d/any interface type is supported"))
  | .error =>
      .error (.withGoType (str "unsupported interface type ") (some .error)
        (str ", only interface\x7b\x7d/any interface type is supported"))
  | .slice elem =>
      match GoTypeToTFType elem with
      | .ok elementType => .ok (.list elementType)
      | .error e => .error e
      | .panic w => .panic w
  | .map key elem =>
      if key.Kind ≠ Kind.String then
        .error (.withGoType (str "unsupported map key type ") (some key)
          (str ", only string keys are supported"))
      else
        match GoTypeToTFType elem with
        | .ok valueType => .ok (.map valueType)
        | .error e => .error e
        | .panic w => .panic w
  | .struct fields =>
      match structAttributeTypes fields [] with
      | .ok attributeTypes => .ok (.object attributeTypes)
      | .error e => .error e
      | .panic w => .panic w
  | .scalar s => .error (.withGoType (str "unsupported type ") (some (.scalar s)) [])
  | .array n elem =>
      .error (.withGoType (str "unsupported type ") (some (.array n elem)) [])
  | .chan elem => .error (.withGoType (str "unsupported type ") (some (.chan elem)) [])
  | .func ins outs v =>
      .error (.withGoType (str "unsupported type ") (some (.func ins outs v)) [])
/-- The loop over the fields in the `reflect.Struct` case of `GoTypeToTFType`
(main.go:348), started with the attribute map built so far. -/
def structAttributeTypes :
    List (Field GoType) → List (GoString × TfType) → Res (List (GoString × TfType))
  | [], attributeTypes => .ok attributeTypes
  | field :: rest, attributeTypes =>
      match GoTypeToTFType field.Typ with
      | .ok fieldType =>
          match getTfObjectGoFieldName field with
          | .ok name => structAttributeTypes rest (mapSet attributeTypes name fieldType)
          | .error e => .error e
          | .panic w => .panic w
      | .error e => .error e
      | .panic w => .panic w
end

/-! ## Type mapper on declared types -/

/-- A type as a program declares it: a type literal whose leaves are types of `GoType`
or names of declared types, so that the declaration of a type may mention the type
itself (`type Node struct { Next *Node }`). -/
inductive TypeExpr where
  | closed (t : GoType)
  | named (name : GoString)
  | ptr (elem : TypeExpr)
  | slice (elem : TypeExpr)
  | map (key : GoType) (elem : TypeExpr)
  | struct (fields : List (Field TypeExpr))

/-- The loop over the fields in the `reflect.Struct` case of `GoTypeToTFType`
(main.go:348), the recursive call being `recur`; `none` when that call does not
return. -/
def declaredAttributeTypes (recur : TypeExpr → Option (Res TfType)) :
    List (Field TypeExpr) → List (GoString × TfType) → Option (Res (List (GoString × TfType)))
  | [], attributeTypes => some (.ok attributeTypes)
  | field :: rest, attributeTypes =>
      match recur field.Typ with
      | none => none
      | some (.ok fieldType) =>
          match getTfObjectGoFieldName ⟨field.Name, field.TfTag, .string, field.Exported⟩ with
          | .ok name => declaredAttributeTypes recur rest (mapSet attributeTypes name fieldType)
          | .error e => some (.error e)
          | .panic w => some (.panic w)
      | some (.error e) => some (.error e)
      | some (.panic w) => some (.panic w)

/-- The function `GoTypeToTFType` (main.go:311) on the types of a program with the
declarations `decls`, run with a bound on the depth of its nested calls: `none` when the
bound is reached before the function returns. A name stands for the type it declares. -/
def GoTypeToTFTypeDeclared (decls : List (GoString × TypeExpr)) :
    Nat → TypeExpr → Option (Res TfType)
  | 0, _ => none
  | depth + 1, e =>
      match e with
      | .closed t => some (GoTypeToTFType t)
      | .named name =>
          match mapGet decls name with
          | some declared => GoTypeToTFTypeDeclared decls depth declared
          | none => some (.panic "undeclared type")
      | .ptr elem => GoTypeToTFTypeDeclared decls depth elem
      | .slice elem =>
          match GoTypeToTFTypeDeclared decls depth elem with
          | none => none
          | some (.ok elementType) => some (.ok (.list elementType))
          | some (.error e) => some (.error e)
          | some (.panic w) => some (.panic w)
      | .map key elem =>
          if key.Kind ≠ Kind.String then
            some (.error (.withGoType (str "unsupported map key type ") (some key)
              (str ", only string keys are supported")))
          else
            match GoTypeToTFTypeDeclared decls depth elem with
            | none => none
            | some (.ok valueType) => some (.ok (.map valueType))
            | some (.error e) => some (.error e)
            | some (.panic w) => some (.panic w)
      | .struct fields =>
          match declaredAttributeTypes (GoTypeToTFTypeDeclared decls depth) fields [] with
          | none => none
          | some (.ok attributeTypes) => some (.ok (.object attributeTypes))
          | some (.error e) => some (.error e)
          | some (.panic w) => some (.panic w)

mutual
/-- The type of `GoType` that a type expression without names is. -/
def TypeExpr.toGoType : TypeExpr → Option GoType
  | .closed t => some t
  | .named _ => none
  | .ptr elem => (TypeExpr.toGoType elem).map .ptr
  | .slice elem => (TypeExpr.toGoType elem).map .slice
  | .map key elem => (TypeExpr.toGoType elem).map (.map key)
  | .struct fields => (TypeExpr.toGoFields fields).map .struct
/-- The fields of a struct type expression without names. -/
def TypeExpr.toGoFields : List (Field TypeExpr) → Option (List (Field GoType))
  | [] => some []
  | field :: rest =>
      match TypeExpr.toGoType field.Typ, TypeExpr.toGoFields rest with
      | some t, some fields => some (⟨field.Name, field.TfTag, t, field.Exported⟩ :: fields)
      | _, _ => none
end

/-! ## Values of the two type systems -/

/-- A `math/big.Float`: the number `m * 2 ^ e`, or an infinity. -/
inductive BigFloat where
  | fin (m e : Int)
  | inf (neg : Bool)
  deriving DecidableEq

/-- A Go `float64`: the number `m * 2 ^ e`, an infinity, or a NaN. -/
inductive F64 where
  | fin (m e : Int)
  | inf (neg : Bool)
  | nan
  deriving DecidableEq

/-- The constant `math.MinInt64`. -/
def minInt64 : Int := -(2 ^ 63)

/-- The constant `math.MaxInt64`. -/
def maxInt64 : Int := 2 ^ 63 - 1

/-- The method `(*big.Float).Int64`: truncation toward zero, saturating at the bounds
of `int64`. -/
def BigFloat.Int64 : BigFloat → Int
  | .inf true => minInt64
  | .inf false => maxInt64
  | .fin m e =>
      let t := if 0 ≤ e then m * 2 ^ e.toNat else Int.tdiv m (2 ^ (-e).toNat)
      if t < minInt64 then minInt64 else if maxInt64 < t then maxInt64 else t

/-- A `tftypes.Value`. `untypedNull` is the value with neither type nor content
(`tftypes.Value{}`); the other constructors carry their type. -/
inductive TfValue where
  | null (t : TfType)
  | untypedNull
  | unknown (t : TfType)
  | string (s : GoString)
  | bool (b : Bool)
  | number (n : BigFloat)
  | list (ElementType : TfType) (items : List TfValue)
  | map (ElementType : TfType) (entries : List (GoString × TfValue))
  | object (AttributeTypes : List (GoString × TfType)) (attrs : List (GoString × TfValue))

/-- A Go value held in an `any`: `nil` is the nil interface, every other constructor is
a value with a dynamic type. The slot of a slice, map or struct holds the value that
`Interface()` returns for it. Map values have string keys. `other t id` is a value of a
type `t` of any kind not listed before it (`id = 0` being the zero value). -/
inductive GoValue where
  | nil
  | string (s : GoString)
  | bool (b : Bool)
  | int (i : Int)
  | int64 (i : Int)
  | float64 (f : F64)
  | nilPtr (elem : GoType)
  | ptr (elem : GoType) (target : GoValue)
  | nilSlice (elem : GoType)
  | slice (elem : GoType) (items : List GoValue)
  | nilMap (key elem : GoType)
  | map (key elem : GoType) (entries : List (GoString × GoValue))
  | struct (fields : List StructField) (vals : List GoValue)
  | other (t : GoType) (id : Nat)

/-- The function `reflect.TypeOf`; `none` is the nil type of the nil interface. -/
def typeOf : GoValue → Option GoType
  | .nil => none
  | .string _ => some .string
  | .bool _ => some .bool
  | .int _ => some .int
  | .int64 _ => some (.scalar .int64)
  | .float64 _ => some .float64
  | .nilPtr elem => some (.ptr elem)
  | .ptr elem _ => some (.ptr elem)
  | .nilSlice elem => some (.slice elem)
  | .slice elem _ => some (.slice elem)
  | .nilMap key elem => some (.map key elem)
  | .map key elem _ => some (.map key elem)
  | .struct fields _ => some (.struct fields)
  | .other t _ => some t

mutual
/-- Identity of two `reflect.Type`s. -/
def goTypeEq : GoType → GoType → Bool
  | .string, b => match b with
      | .string => true
      | _ => false
  | .bool, b => match b with
      | .bool => true
      | _ => false
  | .int, b => match b with
      | .int => true
      | _ => false
  | .float64, b => match b with
      | .float64 => true
      | _ => false
  | .scalar s, b => match b with
      | .scalar t => s == t
      | _ => false
  | .defined n u, b => match b with
      | .defined m w => n == m && u == w
      | _ => false
  | .ptr a, b => match b with
      | .ptr c => goTypeEq a c
      | _ => false
  | .slice a, b => match b with
      | .slice c => goTypeEq a c
      | _ => false
  | .array n a, b => match b with
      | .array m c => n == m && goTypeEq a c
      | _ => false
  | .chan a, b => match b with
      | .chan c => goTypeEq a c
      | _ => false
  | .map k a, b => match b with
      | .map l c => goTypeEq k l && goTypeEq a c
      | _ => false
  | .struct fs, b => match b with
      | .struct gs => fieldsEq fs gs
      | _ => false
  | .iface ms, b => match b with
      | .iface ns => ms == ns
      | _ => false
  | .error, b => match b with
      | .error => true
      | _ => false
  | .func i o v, b => match b with
      | .func j p w => goTypesEq i j && goTypesEq o p && v == w
      | _ => false
/-- Identity of two field lists. -/
def fieldsEq : List (Field GoType) → List (Field GoType) → Bool
  | [], gs => gs.isEmpty
  | f :: fs, gs => match gs with
      | g :: gs =>
          f.Name == g.Name && f.TfTag == g.TfTag && goTypeEq f.Typ g.Typ &&
            f.Exported == g.Exported && fieldsEq fs gs
      | [] => false
/-- Identity of two type lists. -/
def goTypesEq : List GoType → List GoType → Bool
  | [], bs => bs.isEmpty
  | a :: as, bs => match bs with
      | b :: bs => goTypeEq a b && goTypesEq as bs
      | [] => false
end

mutual
/-- The value `reflect.Zero(t).Interface()`. The zero value of an interface type is
the nil interface. -/
def zeroValue : GoType → GoValue
  | .string => .string []
  | .bool => .bool false
  | .int => .int 0
  | .float64 => .float64 (.fin 0 0)
  | .scalar .int64 => .int64 0
  | .scalar s => .other (.scalar s) 0
  | .defined name underlying => .other (.defined name underlying) 0
  | .ptr elem => .nilPtr elem
  | .slice elem => .nilSlice elem
  | .array n elem => .other (.array n elem) 0
  | .chan elem => .other (.chan elem) 0
  | .map key elem => .nilMap key elem
  | .struct fields => .struct fields (zeroFields fields)
  | .iface _ => .nil
  | .error => .nil
  | .func ins outs v => .other (.func ins outs v) 0
/-- The zero values of the fields of a struct. -/
def zeroFields : List (Field GoType) → List GoValue
  | [] => []
  | field :: rest => zeroValue field.Typ :: zeroFields rest
end

/-- Whether `reflect.ValueOf(v)` may be stored in a slot of type `slot` (by
`reflect.Value.Set`, `SetMapIndex` or as an argument of `Call`): `v` is not the nil
interface and its type is `slot`, or `slot` is `interface{}`. -/
def assignable (slot : GoType) (v : GoValue) : Bool :=
  match typeOf v with
  | none => false
  | some t => goTypeEq t slot || (match slot with | .iface [] => true | _ => false)

/-! ## Decoding: host values to Go values -/

/-- The method `tftypes.Value.IsNull`. -/
def TfValue.IsNull : TfValue → Bool
  | .null _ => true
  | .untypedNull => true
  | _ => false

/-- The call `tfValue.As(&str)` with `str` a `string`. -/
def asString : TfValue → Res GoString
  | .unknown _ => .error (.lib "tftypes.Value.As" "unknown value")
  | .null _ => .ok []
  | .untypedNull => .ok []
  | .string s => .ok s
  | _ => .error (.lib "tftypes.Value.As" "not a string")

/-- The call `tfValue.As(&b)` with `b` a `bool`. -/
def asBool : TfValue → Res Bool
  | .unknown _ => .error (.lib "tftypes.Value.As" "unknown value")
  | .null _ => .ok false
  | .untypedNull => .ok false
  | .bool b => .ok b
  | _ => .error (.lib "tftypes.Value.As" "not a bool")

/-- The call `tfValue.As(&bigFloat)` with `bigFloat` a `big.Float`. -/
def asBigFloat : TfValue → Res BigFloat
  | .unknown _ => .error (.lib "tftypes.Value.As" "unknown value")
  | .null _ => .ok (.fin 0 0)
  | .untypedNull => .ok (.fin 0 0)
  | .number n => .ok n
  | _ => .error (.lib "tftypes.Value.As" "not a number")

/-- The call `tfValue.As(&tfValues)` with `tfValues` a `[]tftypes.Value`. -/
def asValues : TfValue → Res (List TfValue)
  | .unknown _ => .error (.lib "tftypes.Value.As" "unknown value")
  | .null _ => .ok []
  | .untypedNull => .ok []
  | .list _ items => .ok items
  | _ => .error (.lib "tftypes.Value.As" "not a list")

/-- The call `tfValue.As(&tfMap)` with `tfMap` a `map[string]tftypes.Value`; maps and
objects both hold one. -/
def asValueMap : TfValue → Res (List (GoString × TfValue))
  | .unknown _ => .error (.lib "tftypes.Value.As" "unknown value")
  | .null _ => .ok []
  | .untypedNull => .ok []
  | .map _ entries => .ok entries
  | .object _ attrs => .ok attrs
  | _ => .error (.lib "tftypes.Value.As" "not a map or object")

/-- Removing a key from a map. -/
def mapErase {β : Type} : List (GoString × β) → GoString → List (GoString × β)
  | [], _ => []
  | (k, v) :: rest, key => if k = key then mapErase rest key else (k, v) :: mapErase rest key

/-- The loop of the `reflect.Slice` case of `TfToGoValue` (main.go:457): decode each
element with `decode` and store it with `out.Index(i).Set`, which panics on a value that
is not assignable to the element type. -/
def decodeElems (decode : TfValue → Res GoValue) (elemType : GoType) :
    List TfValue → Res (List GoValue)
  | [] => .ok []
  | tfElement :: rest =>
      match decode tfElement with
      | .ok elem =>
          if assignable elemType elem then
            match decodeElems decode elemType rest with
            | .ok items => .ok (elem :: items)
            | .error e => .error e
            | .panic w => .panic w
          else .panic "reflect.Set: value is not assignable to the element type"
      | .error e => .error e
      | .panic w => .panic w

/-- The loop of the `reflect.Map` case of `TfToGoValue` (main.go:471): decode each
element and store it with `out.SetMapIndex`, which panics when the string key or the
element is not assignable, and deletes the key when the element is the nil interface. -/
def decodeEntries (decode : TfValue → Res GoValue) (keyType elemType : GoType) :
    List (GoString × TfValue) → List (GoString × GoValue) → Res (List (GoString × GoValue))
  | [], out => .ok out
  | (key, tfElement) :: rest, out =>
      match decode tfElement with
      | .ok elem =>
          if assignable keyType (.string key) then
            match elem with
            | .nil => decodeEntries decode keyType elemType rest (mapErase out key)
            | _ =>
                if assignable elemType elem then
                  decodeEntries decode keyType elemType rest (mapSet out key elem)
                else .panic "reflect.SetMapIndex: value is not assignable to the element type"
          else .panic "reflect.SetMapIndex: key is not assignable to the key type"
      | .error e => .error e
      | .panic w => .panic w

mutual
/-- The function `TfToGoValue` (main.go:400). -/
def TfToGoValue : GoType → TfValue → Res GoValue
  | .string, tfValue =>
      if tfValue.IsNull then .ok .nil else
      match asString tfValue with
      | .ok s => .ok (.string s)
      | .error e => .error e
      | .panic w => .panic w
  | .bool, tfValue =>
      if tfValue.IsNull then .ok .nil else
      match asBool tfValue with
      | .ok b => .ok (.bool b)
      | .error e => .error e
      | .panic w => .panic w
  | .int, tfValue =>
      if tfValue.IsNull then .ok .nil else
      match asBigFloat tfValue with
      | .ok bigFloat => .ok (.int bigFloat.Int64)
      | .error e => .error e
      | .panic w => .panic w
  | .float64, tfValue =>
      if tfValue.IsNull then .ok .nil else
      match asBigFloat tfValue with
      | .ok bigFloat => .ok (.int64 bigFloat.Int64)
      | .error e => .error e
      | .panic w => .panic w
  | .defined _ .string, tfValue =>
      if tfValue.IsNull then .ok .nil else
      match asString tfValue with
      | .ok s => .ok (.string s)
      | .error e => .error e
      | .panic w => .panic w
  | .defined _ .bool, tfValue =>
      if tfValue.IsNull then .ok .nil else
      match asBool tfValue with
      | .ok b => .ok (.bool b)
      | .error e => .error e
      | .panic w => .panic w
  | .defined _ .int, tfValue =>
      if tfValue.IsNull then .ok .nil else
      match asBigFloat tfValue with
      | .ok bigFloat => .ok (.int bigFloat.Int64)
      | .error e => .error e
      | .panic w => .panic w
  | .defined _ .float64, tfValue =>
      if tfValue.IsNull then .ok .nil else
      match asBigFloat tfValue with
      | .ok bigFloat => .ok (.int64 bigFloat.Int64)
      | .error e => .error e
      | .panic w => .panic w
  | .ptr elem, tfValue =>
      if tfValue.IsNull then .ok .nil else
      match TfToGoValue elem tfValue with
      | .ok value =>
          match typeOf value with
          | some t => .ok (.ptr t value)
          | none => .panic "reflect.New(nil)"
      | .error e => .error e
      | .panic w => .panic w
  | .iface _, tfValue =>
      if tfValue.IsNull then .ok .nil else .panic "implement interface\x7b\x7d"
  | .error, tfValue =>
      if tfValue.IsNull then .ok .nil else .panic "implement interface\x7b\x7d"
  | .slice elem, tfValue =>
      if tfValue.IsNull then .ok .nil else
      match asValues tfValue with
      | .ok tfValues =>
          match decodeElems (TfToGoValue elem) elem tfValues with
          | .ok items => .ok (.slice elem items)
          | .error e => .error e
          | .panic w => .panic w
      | .error e => .error e
      | .panic w => .panic w
  | .map key elem, tfValue =>
      if tfValue.IsNull then .ok .nil else
      match asValueMap tfValue with
      | .ok tfMap =>
          match decodeEntries (TfToGoValue elem) key elem tfMap [] with
          | .ok entries => .ok (.map key elem entries)
          | .error e => .error e
          | .panic w => .panic w
      | .error e => .error e
      | .panic w => .panic w
  | .struct fields, tfValue =>
      if tfValue.IsNull then .ok .nil else
      match asValueMap tfValue with
      | .ok tfMap =>
          match decodeFields fields tfMap with
          | .ok vals => .ok (.struct fields vals)
          | .error e => .error e
          | .panic w => .panic w
      | .error e => .error e
      | .panic w => .panic w
  | .scalar s, tfValue =>
      if tfValue.IsNull then .ok .nil else
      .error (.withGoType (str "unsupported type ") (some (.scalar s)) [])
  | .array n elem, tfValue =>
      if tfValue.IsNull then .ok .nil else
      .error (.withGoType (str "unsupported type ") (some (.array n elem)) [])
  | .chan elem, tfValue =>
      if tfValue.IsNull then .ok .nil else
      .error (.withGoType (str "unsupported type ") (some (.chan elem)) [])
  | .func ins outs v, tfValue =>
      if tfValue.IsNull then .ok .nil else
      .error (.withGoType (str "unsupported type ") (some (.func ins outs v)) [])
/-- The loop over the fields in the `reflect.Struct` case of `TfToGoValue`
(main.go:489). `out.Field(i).Set` panics on an unexported field and on a value that is
not assignable to the field type. -/
def decodeFields : List (Field GoType) → List (GoString × TfValue) → Res (List GoValue)
  | [], _ => .ok []
  | field :: rest, tfMap =>
      match getTfObjectGoFieldName field with
      | .ok tfName =>
          match mapGet tfMap tfName with
          | none => .error (.text (str "missing object field " ++ tfName))
          | some tfElement =>
              match TfToGoValue field.Typ tfElement with
              | .ok elem =>
                  if field.Exported && assignable field.Typ elem then
                    match decodeFields rest tfMap with
                    | .ok vals => .ok (elem :: vals)
                    | .error e => .error e
                    | .panic w => .panic w
                  else .panic "reflect.Set: field is not settable or value is not assignable"
              | .error e => .error e
              | .panic w => .panic w
      | .error e => .error e
      | .panic w => .panic w
end

/-! ## Encoding: Go values to host values -/

/-- The call `tftypes.NewValue(tftypes.String, value)` for a `value` that is not the nil
interface: it accepts a `string` and a `*string` and panics on anything else. -/
def newStringValue : GoValue → Res TfValue
  | .string s => .ok (.string s)
  | .nilPtr .string => .ok (.null .string)
  | .ptr .string (.string s) => .ok (.string s)
  | _ => .panic "tftypes.NewValue: the value cannot be a tftypes.String"

/-- The call `tftypes.NewValue(tftypes.Bool, value)` for a `value` that is not the nil
interface: it accepts a `bool` and a `*bool` and panics on anything else. -/
def newBoolValue : GoValue → Res TfValue
  | .bool b => .ok (.bool b)
  | .nilPtr .bool => .ok (.null .bool)
  | .ptr .bool (.bool b) => .ok (.bool b)
  | _ => .panic "tftypes.NewValue: the value cannot be a tftypes.Bool"

/-- The call `tftypes.NewValue(tftypes.Number, value)` for a `float64`: `big.NewFloat`
panics on a NaN. -/
def newFloatValue : F64 → Res TfValue
  | .fin m e => .ok (.number (.fin m e))
  | .inf neg => .ok (.number (.inf neg))
  | .nan => .panic "big.NewFloat(NaN)"

/-- The call `tftypes.NewValue(tfType, out)` for an object type: it panics unless the
keys of `out` are exactly the attribute names of the type. The attribute values are
built against the attribute types, so its check of their types is not represented. -/
def newObjectValue (attributeTypes : List (GoString × TfType))
    (out : List (GoString × TfValue)) : Res TfValue :=
  if (mapKeys attributeTypes).all (fun k => (mapGet out k).isSome) &&
      (mapKeys out).all (fun k => (mapGet attributeTypes k).isSome) then
    .ok (.object attributeTypes out)
  else .panic "tftypes.NewValue: attributes do not match the object type"

mutual
/-- The function `GoToTfValue` (main.go:580). The host types are those of `TfType`, so
the final `default` of the source is not reached. `tftypes.NewValue` on a list or a map
checks the types of the elements; they are built against the element type, so this check
is not represented. -/
def GoToTfValue (tfType : TfType) (value : GoValue) : Res TfValue :=
  match value with
  | .nil => .ok (.null tfType)
  | value =>
    match tfType with
    | .string => newStringValue value
    | .bool => newBoolValue value
    | .number =>
        match value with
        | .int i => .ok (.number (.fin i 0))
        | .float64 f => newFloatValue f
        | other => .error (.withGoType (str "expected number, got ") (typeOf other) [])
    | .dynamic => .panic "implement interface\x7b\x7d"
    | .list elementType =>
        match value with
        | .nilSlice _ => .ok (.list elementType [])
        | .slice _ items =>
            match encodeItems elementType items with
            | .ok out => .ok (.list elementType out)
            | .error e => .error e
            | .panic w => .panic w
        | other => .error (.withGoType (str "expected slice, got ") (typeOf other) [])
    | .map elementType =>
        match value with
        | .nilMap _ _ => .ok (.map elementType [])
        | .map _ _ entries =>
            match encodeEntries elementType entries [] with
            | .ok out => .ok (.map elementType out)
            | .error e => .error e
            | .panic w => .panic w
        | other => .error (.withGoType (str "expected map, got ") (typeOf other) [])
    | .object attributeTypes =>
        match value with
        | .struct fields vals =>
            match encodeFields attributeTypes fields vals [] with
            | .ok out => newObjectValue attributeTypes out
            | .error e => .error e
            | .panic w => .panic w
        | other => .error (.withGoType (str "expected struct, got ") (typeOf other) [])
/-- The loop of the `tftypes.List` case of `GoToTfValue` (main.go:612). -/
def encodeItems (elementType : TfType) : List GoValue → Res (List TfValue)
  | [] => .ok []
  | item :: rest =>
      match GoToTfValue elementType item with
      | .ok elem =>
          match encodeItems elementType rest with
          | .ok out => .ok (elem :: out)
          | .error e => .error e
          | .panic w => .panic w
      | .error e => .error e
      | .panic w => .panic w
/-- The loop of the `tftypes.Map` case of `GoToTfValue` (main.go:626). -/
def encodeEntries (elementType : TfType) :
    List (GoString × GoValue) → List (GoString × TfValue) → Res (List (GoString × TfValue))
  | [], out => .ok out
  | (key, item) :: rest, out =>
      match GoToTfValue elementType item with
      | .ok elem => encodeEntries elementType rest (mapSet out key elem)
      | .error e => .error e
      | .panic w => .panic w
/-- The loop of the `tftypes.Object` case of `GoToTfValue` (main.go:639), over the
fields of the struct value and their values. `Field(i).Interface()` panics on an
unexported field. An attribute name that the object type lacks gives the nil
`tftypes.Type`: encoding the nil interface against it gives the value without type,
encoding anything else panics. -/
def encodeFields (attributeTypes : List (GoString × TfType)) :
    List StructField → List GoValue → List (GoString × TfValue) →
    Res (List (GoString × TfValue))
  | field :: fields, item :: vals, out =>
      match getTfObjectGoFieldName field with
      | .ok tfName =>
          if field.Exported then
            match mapGet attributeTypes tfName with
            | some attributeType =>
                match GoToTfValue attributeType item with
                | .ok elem => encodeFields attributeTypes fields vals (mapSet out tfName elem)
                | .error e => .error e
                | .panic w => .panic w
            | none =>
                match item with
                | .nil => encodeFields attributeTypes fields vals (mapSet out tfName .untypedNull)
                | _ => .panic "method call on the nil tftypes.Type"
          else .panic "reflect.Value.Interface: unexported field"
      | .error e => .error e
      | .panic w => .panic w
  | _, _, out => .ok out
end

/-! ## Wire payloads -/

/-- A `tfprotov6.DynamicValue`. -/
structure DynamicValue where
  MsgPack : List Nat
  JSON : List Nat
  deriving DecidableEq

/-- The outcome of a Go call that returns no `error` and may panic. -/
inductive Run (α : Type) where
  | done (v : α)
  | panic (why : String)

/-- The `reflect.Value` of an exported symbol: its type and, for a function, the
outcome of `Call` on a list of arguments that passed the checks of `reflect`. -/
structure Export where
  Typ : GoType
  Call : List GoValue → Run (List GoValue)

/-- The external collaborators of the provider: the wire codec of the transport library
(`DynamicValue.Unmarshal`, `tfprotov6.NewDynamicValue`), `strings.ToLower`, the method
`Error` of a value held in an `error`, and the interpreter (the result of
`interpreter.Use(stdlib.Symbols)`, and `interpreter.Eval(code)` followed by
`interpreter.Symbols("lib")["lib"]`). -/
structure Lib where
  Unmarshal : DynamicValue → TfType → Res TfValue
  NewDynamicValue : TfType → TfValue → Res DynamicValue
  ToLower : GoString → GoString
  ErrorText : GoValue → ErrText
  Use : Option ErrText
  Eval : GoString → Res (List (GoString × Export))

/-- The function `ProtoToGo` (main.go:382). -/
def ProtoToGo (lib : Lib) (argumentTfType : TfType) (argumentGoType : GoType)
    (arg : DynamicValue) : Res GoValue :=
  if arg.JSON.length = 0 ∧ arg.MsgPack.length = 0 then
    .ok (zeroValue argumentGoType)
  else
    match lib.Unmarshal arg argumentTfType with
    | .ok argTf => TfToGoValue argumentGoType argTf
    | .error e => .error e
    | .panic p => .panic p

/-- The function `TfValueToProto` (main.go:293). -/
def TfValueToProto (lib : Lib) (tfType : TfType) (tfVal : TfValue) : Res DynamicValue :=
  lib.NewDynamicValue tfType tfVal

/-- The function `GoToProto` (main.go:572). -/
def GoToProto (lib : Lib) (tfType : TfType) (value : GoValue) : Res DynamicValue :=
  match GoToTfValue tfType value with
  | .ok tfValue => TfValueToProto lib tfType tfValue
  | .error e => .error e
  | .panic p => .panic p

/-! ## Function adapter -/

/-- A `tfprotov6.FunctionError`. -/
structure FunctionError where
  Text : ErrText

/-- A `tfprotov6.FunctionParameter`. -/
structure FunctionParameter where
  AllowUnknownValues : Bool
  AllowNullValue : Bool
  Typ : TfType

/-- A `tfprotov6.FunctionReturn`. -/
structure FunctionReturn where
  Typ : TfType

/-- A `tfprotov6.Function`: the descriptor of a function. -/
structure TfFunction where
  Parameters : List FunctionParameter
  Return : FunctionReturn

/-- The struct `Function` (main.go:18): a descriptor and its implementation. -/
structure Function where
  Function : TfFunction
  Impl : List DynamicValue → Run (Option DynamicValue × Option FunctionError)

/-- The values of `tfprotov6.DiagnosticSeverity`. -/
inductive DiagnosticSeverity where
  | Invalid | Error | Warning
  deriving DecidableEq

/-- A `tfprotov6.Diagnostic`; the detail is the text of an error (the empty text when
the source sets none). -/
structure Diagnostic where
  Severity : DiagnosticSeverity
  Summary : GoString
  Detail : ErrText

/-- The function `GoTypeToTFFunctionParam` (main.go:298). -/
def GoTypeToTFFunctionParam (t : GoType) : Res FunctionParameter :=
  match GoTypeToTFType t with
  | .ok outType =>
      .ok { AllowUnknownValues := false, AllowNullValue := t.Kind = Kind.Pointer, Typ := outType }
  | .error e => .error e
  | .panic w => .panic w

/-- The loop over the inputs in `GoFunctionToTFFunction` (main.go:215), from index `i`;
its error is the detail of the diagnostic. -/
def adaptParameters : Nat → List GoType → Res (List FunctionParameter)
  | _, [] => .ok []
  | i, t :: rest =>
      match GoTypeToTFFunctionParam t with
      | .ok functionParameter =>
          match adaptParameters (i + 1) rest with
          | .ok parameters => .ok (functionParameter :: parameters)
          | .error e => .error e
          | .panic w => .panic w
      | .error err => .error (.argument i err)
      | .panic w => .panic w

/-- The loop over the arguments in `Impl` (main.go:262): `parameters[i]` and
`exportType.In(i)` panic when there are more arguments than parameters. -/
def decodeArgs (lib : Lib) :
    List FunctionParameter → List GoType → List DynamicValue → Res (List GoValue)
  | _, _, [] => .ok []
  | parameter :: parameters, t :: ins, arg :: args =>
      match ProtoToGo lib parameter.Typ t arg with
      | .ok goArg =>
          match decodeArgs lib parameters ins args with
          | .ok goArgs => .ok (goArg :: goArgs)
          | .error e => .error e
          | .panic w => .panic w
      | .error e => .error e
      | .panic w => .panic w
  | _, _, _ :: _ => .panic "index out of range"

/-- Whether each argument may be stored in the parameter at its position, and there are
as many arguments as parameters. -/
def argsAssignable : List GoType → List GoValue → Bool
  | [], [] => true
  | t :: ts, v :: vs => assignable t v && argsAssignable ts vs
  | _, _ => false

/-- The call `fn.Call(goArgs)` of `reflect`: it panics unless the arguments match the
inputs of the function type (for a variadic function, the arguments after the fixed
ones must each match the element type of the last input), then runs the function. -/
def reflectCall (fn : Export) (goArgs : List GoValue) : Run (List GoValue) :=
  match fn.Typ with
  | .func ins _ false =>
      if argsAssignable ins goArgs then fn.Call goArgs
      else .panic "reflect: Call with mismatched arguments"
  | .func ins _ true =>
      match ins.getLast? with
      | some (.slice elem) =>
          if ins.length - 1 ≤ goArgs.length &&
              argsAssignable ins.dropLast (goArgs.take (ins.length - 1)) &&
              (goArgs.drop (ins.length - 1)).all (assignable elem) then fn.Call goArgs
          else .panic "reflect: Call with mismatched arguments"
      | _ => .panic "reflect: Call with mismatched arguments"
  | _ => .panic "reflect: Call of a value that is not a function"

/-- The closure `Impl` built by `GoFunctionToTFFunction` (main.go:260). -/
def adaptedImpl (lib : Lib) (fn : Export) (parameters : List FunctionParameter)
    (ins : List GoType) (outputType : TfType) (args : List DynamicValue) :
    Run (Option DynamicValue × Option FunctionError) :=
  match decodeArgs lib parameters ins args with
  | .error err => .done (none, some { Text := err })
  | .panic w => .panic w
  | .ok goArgs =>
      match reflectCall fn goArgs with
      | .panic w => .panic w
      | .done [] => .panic "index out of range"
      | .done (first :: more) =>
          let failed : Option GoValue :=
            match more with
            | [] => none
            | .nil :: _ => none
            | second :: _ => some second
          match failed with
          | some err => .done (none, some { Text := lib.ErrorText err })
          | none =>
              match GoToProto lib outputType first with
              | .ok out => .done (some out, none)
              | .error err => .done (none, some { Text := err })
              | .panic w => .panic w

/-- A diagnostic of severity `Error`. -/
def errorDiagnostic (summary : GoString) (detail : ErrText) : Diagnostic :=
  { Severity := .Error, Summary := summary, Detail := detail }

/-- The function `GoFunctionToTFFunction` (main.go:212); its interpreter argument is not
used by the source. `NumIn` panics on a type that is not a function type. -/
def GoFunctionToTFFunction (lib : Lib) (fn : Export) :
    Run (Option Function × List Diagnostic) :=
  match fn.Typ with
  | .func ins outs _ =>
      match adaptParameters 0 ins with
      | .panic w => .panic w
      | .error detail =>
          .done (none, [errorDiagnostic (str "Failed to convert Argument type to TF type") detail])
      | .ok parameters =>
          match outs with
          | [] => .done (none, [errorDiagnostic (str "Function must return a value") (.text [])])
          | output :: more =>
              if more.length + 1 > 2 then
                .done (none,
                  [errorDiagnostic (str "Function must return at most two values") (.text [])])
              else if more.length + 1 = 2 ∧ (more.head?.map (goTypeEq · .error)) ≠ some true then
                .done (none,
                  [errorDiagnostic (str "Second return value, if exists, must be an error")
                    (.text [])])
              else
                match GoTypeToTFType output with
                | .panic w => .panic w
                | .error err =>
                    .done (none,
                      [errorDiagnostic (str "Failed to convert Function output type to TF type")
                        err])
                | .ok outputType =>
                    .done (some
                      { Function := { Parameters := parameters, Return := { Typ := outputType } },
                        Impl := adaptedImpl lib fn parameters ins outputType }, [])
  | _ => .panic "reflect: NumIn of non-func type"

/-- The function `GoNameToTFName` (main.go:378). -/
def GoNameToTFName (lib : Lib) (name : GoString) : GoString :=
  lib.ToLower name

/-! ## Provider registry and configure pipeline -/

/-- A Go map with string keys: an association list with pairwise distinct keys. -/
abbrev GoMap (α : Type) := AList (fun _ : GoString => α)

/-- The loop over the exported symbols in `Configure` (main.go:190), started with the
map built so far. -/
def adaptExports (lib : Lib) :
    List (GoString × Export) → GoMap Function → Run (Option (GoMap Function) × List Diagnostic)
  | [], functions => .done (some functions, [])
  | (name, symbol) :: rest, functions =>
      if symbol.Typ.Kind ≠ Kind.Func then adaptExports lib rest functions
      else
        match GoFunctionToTFFunction lib symbol with
        | .panic w => .panic w
        | .done (fn, diags) =>
            if diags.length > 0 then .done (none, diags)
            else
              match fn with
              | some fn => adaptExports lib rest (functions.insert (GoNameToTFName lib name) fn)
              | none => adaptExports lib rest functions

/-- The diagnostics of a configure payload that cannot be read. -/
def invalidPayload (err : ErrText) : List Diagnostic :=
  [errorDiagnostic (str "Invalid configure payload") err]

/-- The closure `Configure` of `main` (main.go:138). -/
def Configure (lib : Lib) (config : DynamicValue) :
    Run (Option (GoMap Function) × List Diagnostic) :=
  match lib.Unmarshal config (.map .string) with
  | .panic w => .panic w
  | .error err => .done (none, invalidPayload err)
  | .ok res =>
      match asValueMap res with
      | .panic w => .panic w
      | .error err => .done (none, invalidPayload err)
      | .ok cfg =>
          let codeVal := (mapGet cfg (str "go")).getD .untypedNull
          match asString codeVal with
          | .panic w => .panic w
          | .error err => .done (none, invalidPayload err)
          | .ok code =>
              match lib.Use with
              | some err =>
                  .done (none, [errorDiagnostic (str "Failed to load Go standard library") err])
              | none =>
                  match lib.Eval code with
                  | .panic w => .panic w
                  | .error err =>
                      .done (none, [errorDiagnostic (str "Failed to evaluate Go code") err])
                  | .ok libExports => adaptExports lib libExports ∅

/-- The struct `FunctionProvider` (main.go:23); the provider schema plays no part in the
operations below. -/
structure FunctionProvider where
  StaticFunctions : GoMap Function
  dynamicFunctions : Option (GoMap Function)
  Configure : DynamicValue → Run (Option (GoMap Function) × List Diagnostic)

/-- A `tfprotov6.ConfigureProviderRequest`. -/
structure ConfigureProviderRequest where
  Config : DynamicValue

/-- A `tfprotov6.ConfigureProviderResponse`. -/
structure ConfigureProviderResponse where
  Diagnostics : List Diagnostic

/-- A `tfprotov6.CallFunctionRequest`. -/
structure CallFunctionRequest where
  Name : GoString
  Arguments : List DynamicValue

/-- A `tfprotov6.CallFunctionResponse`. -/
structure CallFunctionResponse where
  Result : Option DynamicValue
  Error : Option FunctionError

/-- The method `ConfigureProvider` (main.go:57): the provider after the call, and the
response. When `Configure` panics the assignment is not reached. -/
def FunctionProvider.ConfigureProvider (f : FunctionProvider) (req : ConfigureProviderRequest) :
    FunctionProvider × Run ConfigureProviderResponse :=
  match f.Configure req.Config with
  | .done (funcs, diags) => ({ f with dynamicFunctions := funcs }, .done { Diagnostics := diags })
  | .panic w => (f, .panic w)

/-- The method `CallFunction` (main.go:91). -/
def FunctionProvider.CallFunction (f : FunctionProvider) (req : CallFunctionRequest) :
    Res CallFunctionResponse :=
  match f.StaticFunctions.lookup req.Name with
  | some fn =>
      match fn.Impl req.Arguments with
      | .done (ret, err) => .ok { Result := ret, Error := err }
      | .panic w => .panic w
  | none =>
      match f.dynamicFunctions with
      | some dynamicFunctions =>
          match dynamicFunctions.lookup req.Name with
          | some fn =>
              match fn.Impl req.Arguments with
              | .done (ret, err) => .ok { Result := ret, Error := err }
              | .panic w => .panic w
          | none => .error (.text (str "unknown function " ++ req.Name))
      | none => .error (.text (str "unknown function " ++ req.Name))

/-- The method `GetFunctions` (main.go:110): the map `Functions` of the response. -/
def FunctionProvider.GetFunctions (f : FunctionProvider) : GoMap TfFunction :=
  let functions : GoMap TfFunction :=
    f.StaticFunctions.entries.foldl (fun m e => m.insert e.1 e.2.Function) ∅
  match f.dynamicFunctions with
  | some dynamicFunctions =>
      dynamicFunctions.entries.foldl (fun m e => m.insert e.1 e.2.Function) functions
  | none => functions

/-- The dynamic catalog of a provider, the nil map counting as empty. -/
def FunctionProvider.dynamicCatalog (f : FunctionProvider) : GoMap Function :=
  f.dynamicFunctions.getD ∅

/-- What `CallFunction` returns for the outcome of an implementation: the response made
of its result and error, or its panic. -/
def respond : Run (Option DynamicValue × Option FunctionError) → Res CallFunctionResponse
  | .done (ret, err) => .ok { Result := ret, Error := err }
  | .panic w => .panic w

/-- The provider that `main` builds (main.go:126), before any configure. -/
def mainProvider (lib : Lib) : FunctionProvider :=
  { StaticFunctions := ∅, dynamicFunctions := none, Configure := Configure lib }

/-! ## The reference statements of the specification -/

/-- The pairs `(attribute name, mapping of the type)` that the loop of the Struct case
of `GoTypeToTFType` computes for the fields of a record in declaration order, the
attribute name being that of `getTfObjectGoFieldName`; the first field that fails
decides the failure. The pairs of the specification are those of `etToHtFields`. -/
def fieldPairs : List StructField → Res (List (GoString × TfType))
  | [] => .ok []
  | field :: rest =>
      (GoTypeToTFType field.Typ).bind fun fieldType =>
      (getTfObjectGoFieldName field).bind fun name =>
      (fieldPairs rest).map fun pairs => (name, fieldType) :: pairs

/-- The kinds of the rows of the type-map table. -/
def tableKinds : List Kind :=
  [.String, .Bool, .Int, .Float64, .Pointer, .Slice, .Map, .Struct, .Interface]

mutual
/-- A type built only from what the type mapper accepts: string, bool, int, float64 and
the defined types of these kinds, pointer, slice, map with a key of kind string, struct
whose fields have a `tf` tag or a name that is not empty, and `interface{}`. -/
def supportedType : GoType → Bool
  | .string => true
  | .bool => true
  | .int => true
  | .float64 => true
  | .ptr elem => supportedType elem
  | .slice elem => supportedType elem
  | .map key elem => key.Kind = Kind.String && supportedType elem
  | .struct fields => supportedFields fields
  | .iface methods => methods = []
  | .defined _ _ => true
  | _ => false
/-- The fields of a supported struct type. -/
def supportedFields : List (Field GoType) → Bool
  | [] => true
  | field :: rest =>
      supportedType field.Typ && (field.TfTag ≠ [] || field.Name ≠ []) && supportedFields rest
end

/-- The attribute names of the fields of a struct, `none` where the name panics. -/
def fieldNames (fields : List StructField) : List (Option GoString) :=
  fields.map fun field =>
    match getTfObjectGoFieldName field with
    | .ok name => some name
    | _ => none

/-- Whether every field has an attribute name and no two fields share one. -/
def distinctNames (fields : List StructField) : Bool :=
  (fieldNames fields).all Option.isSome && decide (fieldNames fields).Nodup

mutual
/-- A type built from the predeclared types string, bool and int by slice, map with keys
of type string, and struct whose fields are exported and have pairwise distinct attribute
names. -/
def plainType : GoType → Bool
  | .string => true
  | .bool => true
  | .int => true
  | .slice elem => plainType elem
  | .map key elem => goTypeEq key .string && plainType elem
  | .struct fields => distinctNames fields && plainFields fields
  | _ => false
/-- The fields of a plain struct type. -/
def plainFields : List (Field GoType) → Bool
  | [] => true
  | field :: rest => field.Exported && plainType field.Typ && plainFields rest
end

mutual
/-- A value of the type `t` that contains no nil slice and no nil map; an `int` lies in
the range of 64 bits, and the keys of a map are pairwise distinct. -/
def plainValue (t : GoType) (v : GoValue) : Bool :=
  match v with
  | .string _ => goTypeEq t .string
  | .bool _ => goTypeEq t .bool
  | .int i => goTypeEq t .int && decide (minInt64 ≤ i) && decide (i ≤ maxInt64)
  | .slice elem items => goTypeEq t (.slice elem) && plainItems elem items
  | .map key elem entries =>
      goTypeEq t (.map key elem) && decide (mapKeys entries).Nodup && plainEntries elem entries
  | .struct fields vals => goTypeEq t (.struct fields) && plainVals fields vals
  | _ => false
/-- The elements of a plain slice. -/
def plainItems (elem : GoType) : List GoValue → Bool
  | [] => true
  | item :: rest => plainValue elem item && plainItems elem rest
/-- The entries of a plain map. -/
def plainEntries (elem : GoType) : List (GoString × GoValue) → Bool
  | [] => true
  | (_, item) :: rest => plainValue elem item && plainEntries elem rest
/-- The field values of a plain struct. -/
def plainVals : List (Field GoType) → List GoValue → Bool
  | fields, [] => fields.isEmpty
  | fields, item :: vals =>
      match fields with
      | field :: rest => plainValue field.Typ item && plainVals rest vals
      | [] => false
end

/-- The method `tftypes.Value.Type`; `none` is the nil type. -/
def TfValue.Typ : TfValue → Option TfType
  | .null t => some t
  | .untypedNull => none
  | .unknown t => some t
  | .string _ => some .string
  | .bool _ => some .bool
  | .number _ => some .number
  | .list elementType _ => some (.list elementType)
  | .map elementType _ => some (.map elementType)
  | .object attributeTypes _ => some (.object attributeTypes)

/-- Whether the value that a successful decoding at the type returns has another type:
the type is `float64` (decoded to an `int64`), a defined type (decoded to a value of its
underlying type), or a chain of pointers that ends in one of these. -/
def decodesToOtherType : GoType → Bool
  | .float64 => true
  | .defined _ _ => true
  | .ptr elem => decodesToOtherType elem
  | _ => false

/-- The `big.Float` that `big.NewFloat` makes of a `float64` that is not a NaN. -/
def F64.toBigFloat : F64 → Option BigFloat
  | .fin m e => some (.fin m e)
  | .inf neg => some (.inf neg)
  | .nan => none

/-- A field whose attribute is present in `tfMap` and decodes to the value `x`, which
`reflect.Value.Set` accepts for the field: the field is exported and `x` is assignable
to its type. -/
def fieldStored (tfMap : List (GoString × TfValue)) (field : StructField) (x : GoValue) : Prop :=
  field.Exported = true ∧
  ∃ name tfElement, getTfObjectGoFieldName field = .ok name ∧
    mapGet tfMap name = some tfElement ∧ TfToGoValue field.Typ tfElement = .ok x ∧
    assignable field.Typ x = true

/-- The pair a field and its value contribute to an object of the given attribute
types: the field is exported, the name of the pair is the attribute name of the field,
and the value of the pair is the encoding of the value of the field against the type the
object type declares for that name. -/
def fieldEncoded (attributeTypes : List (GoString × TfType)) (fv : StructField × GoValue)
    (p : GoString × TfValue) : Prop :=
  fv.1.Exported = true ∧ getTfObjectGoFieldName fv.1 = .ok p.1 ∧
  ∃ attributeType, mapGet attributeTypes p.1 = some attributeType ∧
    GoToTfValue attributeType fv.2 = .ok p.2

/-- What `GoTypeToTFFunctionParam` makes of an input type `t`: the parameter `p` has the
mapped type, allows null exactly when `t` is a pointer, and does not allow unknown
values. -/
def parameterOf (t : GoType) (p : FunctionParameter) : Prop :=
  GoTypeToTFType t = .ok p.Typ ∧ (p.AllowNullValue = true ↔ t.Kind = Kind.Pointer) ∧
    p.AllowUnknownValues = false

mutual
/-- A type in which every struct field that the type mapper visits has a name, as the
Go language requires of every field. -/
def validType : GoType → Bool
  | .ptr elem => validType elem
  | .slice elem => validType elem
  | .map _ elem => validType elem
  | .struct fields => validFields fields
  | _ => true
/-- The fields of a valid struct type. -/
def validFields : List (Field GoType) → Bool
  | [] => true
  | field :: rest => decide (field.Name ≠ []) && validType field.Typ && validFields rest
end

/-- A symbol whose type, when it is a function type, has valid inputs and outputs. -/
def validSignature : GoType → Bool
  | .func ins outs _ => ins.all validType && outs.all validType
  | _ => true

/-- The outcome of the adapter on a symbol that `Configure` takes for a failure: the
diagnostics are not empty. -/
def adaptFails (lib : Lib) (fn : Export) : Prop :=
  ∃ diags, diags ≠ [] ∧ GoFunctionToTFFunction lib fn = .done (none, diags)

/-- The part of `Configure` after the source is read from the payload (main.go:168):
load the standard library, evaluate the source, adapt the symbols exported under
`lib`. -/
def evaluateSource (lib : Lib) (code : GoString) :
    Run (Option (GoMap Function) × List Diagnostic) :=
  match lib.Use with
  | some err => .done (none, [errorDiagnostic (str "Failed to load Go standard library") err])
  | none =>
      match lib.Eval code with
      | .panic w => .panic w
      | .error err => .done (none, [errorDiagnostic (str "Failed to evaluate Go code") err])
      | .ok libExports => adaptExports lib libExports ∅

/-- The rational number `m * 2 ^ e` that a finite `big.Float` stands for. -/
def finValue (m e : Int) : ℚ := m * (2 : ℚ) ^ e

/-- Truncation toward zero: the fractional part is discarded. -/
def truncate (q : ℚ) : Int := if 0 ≤ q then ⌊q⌋ else ⌈q⌉

mutual
/-- A type built from the predeclared types string, bool and int by pointer, slice, map
with keys of type string, and record whose fields are exported and have a `tf` tag or a
name. -/
def decodableType : GoType → Bool
  | .string => true
  | .bool => true
  | .int => true
  | .ptr elem => decodableType elem
  | .slice elem => decodableType elem
  | .map key elem => goTypeEq key .string && decodableType elem
  | .struct fields => decodableFields fields
  | _ => false
/-- The fields of a decodable record type. -/
def decodableFields : List (Field GoType) → Bool
  | [] => true
  | field :: rest =>
      field.Exported && (field.TfTag ≠ [] || field.Name ≠ []) && decodableType field.Typ &&
        decodableFields rest
end

mutual
/-- Whether, reading the host value along the type, no element of a list and no
attribute of a record field is null: a null occurs only as the whole value or as the
element of a map. -/
def storableValue : GoType → TfValue → Bool
  | .ptr elem, v => v.IsNull || storableValue elem v
  | .slice elem, v =>
      match v with
      | .list _ items => items.all fun item => !item.IsNull && storableValue elem item
      | _ => true
  | .map _ elem, v =>
      match v with
      | .map _ entries => entries.all fun entry => storableValue elem entry.2
      | .object _ entries => entries.all fun entry => storableValue elem entry.2
      | _ => true
  | .struct fields, v =>
      match v with
      | .map _ entries => storableFields fields entries
      | .object _ entries => storableFields fields entries
      | _ => true
  | .string, _ => true
  | .bool, _ => true
  | .int, _ => true
  | .float64, _ => true
  | .scalar _, _ => true
  | .defined _ _, _ => true
  | .array _ _, _ => true
  | .chan _, _ => true
  | .iface _, _ => true
  | .error, _ => true
  | .func _ _ _, _ => true
/-- The attributes of the fields of a record: each one that is present is not null and
is storable at the type of its field. -/
def storableFields : List (Field GoType) → List (GoString × TfValue) → Bool
  | [], _ => true
  | field :: rest, entries =>
      (match getTfObjectGoFieldName field with
        | .ok name =>
            match mapGet entries name with
            | some tfElement => !tfElement.IsNull && storableValue field.Typ tfElement
            | none => true
        | _ => true) && storableFields rest entries
end

/-- The first character of a string in UTF-8: its code point and the bytes after it;
`none` when the string is empty or does not start with a lead byte followed by the
continuation bytes it announces. -/
def firstRune : GoString → Option (Nat × GoString)
  | [] => none
  | b0 :: rest =>
      if b0 < 0x80 then some (b0, rest)
      else if 0xC0 ≤ b0 ∧ b0 < 0xE0 then
        match rest with
        | b1 :: rest =>
            if 0x80 ≤ b1 ∧ b1 < 0xC0 then some ((b0 - 0xC0) * 0x40 + (b1 - 0x80), rest)
            else none
        | _ => none
      else if 0xE0 ≤ b0 ∧ b0 < 0xF0 then
        match rest with
        | b1 :: b2 :: rest =>
            if 0x80 ≤ b1 ∧ b1 < 0xC0 ∧ 0x80 ≤ b2 ∧ b2 < 0xC0 then
              some ((b0 - 0xE0) * 0x1000 + (b1 - 0x80) * 0x40 + (b2 - 0x80), rest)
            else none
        | _ => none
      else if 0xF0 ≤ b0 ∧ b0 < 0xF8 then
        match rest with
        | b1 :: b2 :: b3 :: rest =>
            if 0x80 ≤ b1 ∧ b1 < 0xC0 ∧ 0x80 ≤ b2 ∧ b2 < 0xC0 ∧ 0x80 ≤ b3 ∧ b3 < 0xC0 then
              some ((b0 - 0xF0) * 0x40000 + (b1 - 0x80) * 0x1000 + (b2 - 0x80) * 0x40 +
                (b3 - 0x80), rest)
            else none
        | _ => none
      else none

/-- The function `nameOf` of the specification (§4.1): the `tf` tag if it is not empty,
otherwise the name of the field with its first character lowercased. `lower` is the
lower-case mapping of characters (`unicode.ToLower`); `none` when the name does not start
with a character. -/
def nameOf (lower : Nat → Nat) (field : StructField) : Option GoString :=
  if field.TfTag ≠ [] then some field.TfTag
  else
    match firstRune field.Name with
    | some (r, rest) => some (utf8EncodeRune (lower r) ++ rest)
    | none => none

mutual
/-- The reference mapping `etToHt` of the specification (§4.1), row by row; `none` is
the failure `UnsupportedType`. -/
def etToHt (lower : Nat → Nat) : GoType → Option TfType
  | .string => some .string
  | .bool => some .bool
  | .int => some .number
  | .float64 => some .number
  | .defined _ .string => some .string
  | .defined _ .bool => some .bool
  | .defined _ .int => some .number
  | .defined _ .float64 => some .number
  | .ptr elem => etToHt lower elem
  | .slice elem => (etToHt lower elem).map .list
  | .map key elem => if key.Kind = Kind.String then (etToHt lower elem).map .map else none
  | .struct fields => (etToHtFields lower fields).map fun pairs => .object (mapOfPairs pairs)
  | .iface methods => if methods = [] then some .dynamic else none
  | .scalar _ => none
  | .array _ _ => none
  | .chan _ => none
  | .error => none
  | .func _ _ _ => none
/-- The attributes `nameOf(f) -> etToHt(type of f)` of the record row. -/
def etToHtFields (lower : Nat → Nat) : List (Field GoType) → Option (List (GoString × TfType))
  | [] => some []
  | field :: rest =>
      match nameOf lower field, etToHt lower field.Typ, etToHtFields lower rest with
      | some name, some fieldType, some pairs => some ((name, fieldType) :: pairs)
      | _, _, _ => none
end

/-! ## Sample inputs -/

/-- An entry that echoes its first argument. -/
def echoFunction : Function :=
  { Function := { Parameters := [⟨false, false, .string⟩], Return := ⟨.string⟩ },
    Impl := fun args => .done (args.head?, none) }

/-- An entry whose implementation panics. -/
def panickingFunction : Function :=
  { Function := { Parameters := [], Return := ⟨.bool⟩ },
    Impl := fun _ => .panic "implement interface\x7b\x7d" }

/-- A provider with the name `f` in both catalogs. -/
def collidingProvider : FunctionProvider :=
  { StaticFunctions := AList.singleton (str "f") echoFunction,
    dynamicFunctions := some (AList.singleton (str "f") panickingFunction),
    Configure := fun _ => .done (none, []) }

/-- Collaborators for the samples. A payload decodes to the string of its bytes, a
configuration payload to the map with these bytes under `go`, and an empty configuration
payload fails to decode. The source `echo` exports `Echo(s string) string`, the source
`any` exports `F(x interface\x7b\x7d) string`, any other source fails to evaluate. -/
def stubLib : Lib :=
  { Unmarshal := fun dv t =>
      match t with
      | .map _ =>
          if dv.MsgPack = [] then .error (.lib "DynamicValue.Unmarshal" "no payload")
          else .ok (.map .string [(str "go", .string dv.MsgPack)])
      | _ => .ok (.string dv.MsgPack),
    NewDynamicValue := fun _ v =>
      match v with
      | .string s => .ok ⟨s, []⟩
      | _ => .ok ⟨[0xc0], []⟩,
    ToLower := fun s => s.map fun c => if 0x41 ≤ c ∧ c ≤ 0x5A then c + 0x20 else c,
    ErrorText := fun _ => .text [],
    Use := none,
    Eval := fun code =>
      if code = str "any" then
        .ok [(str "F", ⟨.func [.iface []] [.string] false, fun _ => .done [.string []]⟩)]
      else if code = str "echo" then
        .ok [(str "Echo", ⟨.func [.string] [.string] false, fun args => .done args⟩)]
      else .error (.lib "interp.Eval" "syntax error") }

/-- Collaborators whose wire codec panics whenever it is asked to decode. -/
def deafLib : Lib :=
  { stubLib with Unmarshal := fun _ _ => .panic "Unmarshal was called" }

/-- The provider of `main` after a configure with the source `any`. -/
def anyProvider : FunctionProvider :=
  ((mainProvider stubLib).ConfigureProvider ⟨⟨str "any", []⟩⟩).1

/-- The provider of `main` after a configure with the source `echo`. -/
def echoProvider : FunctionProvider :=
  ((mainProvider stubLib).ConfigureProvider ⟨⟨str "echo", []⟩⟩).1

/-- A record type with a tagged field, a slice and a map. -/
def personType : GoType :=
  .struct [⟨str "FirstName", str "first", .string, true⟩, ⟨str "Age", [], .int, true⟩,
    ⟨str "Tags", [], .slice .string, true⟩, ⟨str "Flags", [], .map .string .bool, true⟩]

/-- A value of `personType`. -/
def personValue : GoValue :=
  .struct [⟨str "FirstName", str "first", .string, true⟩, ⟨str "Age", [], .int, true⟩,
    ⟨str "Tags", [], .slice .string, true⟩, ⟨str "Flags", [], .map .string .bool, true⟩]
    [.string (str "ada"), .int 36, .slice .string [.string (str "a"), .string (str "b")],
      .map .string .bool [(str "x", .bool true), (str "y", .bool false)]]

/-- A record type with a pointer field and a map of slices. -/
def taggedType : GoType :=
  .struct [⟨str "FirstName", str "first", .ptr .string, true⟩,
    ⟨str "Tags", [], .map .string (.slice .int), true⟩]

/-- A record type with a tagged string field and an int field. -/
def greetType : List StructField :=
  [⟨str "FirstName", str "first", .string, true⟩, ⟨str "Age", [], .int, true⟩]

/-- A record type in which two fields share one attribute name. -/
def twinType : List StructField :=
  [⟨str "A", str "x", .string, true⟩, ⟨str "B", str "x", .int, true⟩]

/-- Collaborators for the samples of the adapter and of the configure pipeline. The
payload `0xc0` (the nil of MessagePack) decodes to the null of the asked type; otherwise
a payload decodes against a map type to the map with its bytes under `go` (the payload
`0x80`, the empty map of MessagePack, to the empty map), against the number type to the
number of its bytes, and against any other type to the string of its bytes. The empty
source exports nothing. -/
def wireLib : Lib :=
  { stubLib with
    Unmarshal := fun dv t =>
      if dv.MsgPack = [0xc0] then .ok (.null t)
      else
        match t with
        | .map _ =>
            if dv.MsgPack = [0x80] then .ok (.map .string [])
            else .ok (.map .string [(str "go", .string dv.MsgPack)])
        | .number => .ok (.number (.fin dv.MsgPack.length 0))
        | _ => .ok (.string dv.MsgPack),
    ErrorText := fun v =>
      match v with
      | .other _ _ => .text (str "div by zero")
      | _ => .text [],
    Eval := fun code =>
      if code = [] then .ok []
      else if code = str "mixed" then
        .ok [(str "Echo", ⟨.func [.string] [.string] false, fun args => .done args⟩),
          (str "Version", ⟨.string, fun _ => .panic "call of a value that is not a function"⟩),
          (str "NoReturn", ⟨.func [] [] false, fun _ => .done []⟩)]
      else if code = str "echo" then
        .ok [(str "Version", ⟨.string, fun _ => .panic "call of a value that is not a function"⟩),
          (str "Echo", ⟨.func [.string] [.string] false, fun args => .done args⟩)]
      else .error (.lib "interp.Eval" "syntax error") }

/-- The exported function `func Echo(s string) string`, which returns its argument. -/
def echoExport : Export :=
  ⟨.func [.string] [.string] false, fun args => .done args⟩

/-- The entry that the adapter builds for `echoExport`. -/
def echoEntry : Function :=
  { Function := { Parameters := [⟨false, false, .string⟩], Return := ⟨.string⟩ },
    Impl := adaptedImpl wireLib echoExport [⟨false, false, .string⟩] [.string] .string }

/-- The exported function `func Fail(i int) (string, error)`, which returns an error. -/
def failExport : Export :=
  ⟨.func [.int] [.string, .error] false, fun _ => .done [.string [], .other .error 0]⟩

/-- The entry that the adapter builds for `failExport`. -/
def failEntry : Function :=
  { Function := { Parameters := [⟨false, false, .number⟩], Return := ⟨.string⟩ },
    Impl := adaptedImpl wireLib failExport [⟨false, false, .number⟩] [.int] .string }

/-- The exported function `func Half(x float64) float64`, which returns its argument. -/
def halfExport : Export :=
  ⟨.func [.float64] [.float64] false, fun args => .done args⟩

/-- The exported function `func Deref(p *string) string`, which returns the empty
string. -/
def derefExport : Export :=
  ⟨.func [.ptr .string] [.string] false, fun _ => .done [.string []]⟩

/-- Collaborators whose configuration payload holds an unknown value under `go`. -/
def unknownLib : Lib :=
  { wireLib with Unmarshal := fun _ _ => .ok (.map .string [(str "go", .unknown .string)]) }

/-- Collaborators whose interpreter rejects every source. -/
def strictLib : Lib :=
  { wireLib with Eval := fun _ => .error (.lib "interp.Eval" "rejected") }

/-- An object for `taggedType` whose map has a null element. -/
def taggedObject : TfValue :=
  .object [(str "first", .string), (str "tags", .map (.list .number))]
    [(str "first", .string (str "ada")),
      (str "tags", .map (.list .number)
        [(str "a", .list .number [.number (.fin 1 0)]), (str "b", .null (.list .number))])]

/-- The provider of `main` with a static entry `echo` whose implementation panics, after
a configure with the source `echo`. -/
def shadowedProvider : FunctionProvider :=
  ({ mainProvider stubLib with StaticFunctions := AList.singleton (str "echo") panickingFunction
    }.ConfigureProvider ⟨⟨str "echo", []⟩⟩).1

/-- Collaborators whose wire codec decodes every payload to the list of the one string
`a`. -/
def listLib : Lib :=
  { wireLib with Unmarshal := fun _ _ => .ok (.list .string [.string (str "a")]) }

/-- The exported variadic function `func Join(parts ...string) string`, whose type has
the one input `[]string`. -/
def joinExport : Export :=
  ⟨.func [.slice .string] [.string] true, fun _ => .done [.string []]⟩

/-- The declaration `type Node struct { Next *Node }`. -/
def nodeDecls : List (GoString × TypeExpr) :=
  [(str "Node", .struct [⟨str "Next", [], .ptr (.named (str "Node")), true⟩])]

/-- The declaration `type Tree struct { Kids []Tree }`. -/
def treeDecls : List (GoString × TypeExpr) :=
  [(str "Tree", .struct [⟨str "Kids", [], .slice (.named (str "Tree")), true⟩])]

/-- The defined type `time.Month`, whose underlying type is `int`. -/
def monthType : GoType :=
  .defined (str "time.Month") .int

/-! ## Lemmas on maps -/

theorem mapSet_of_not_mem {β : Type} (m : List (GoString × β)) (k : GoString) (v : β)
    (h : k ∉ mapKeys m) : mapSet m k v = m ++ [(k, v)] := by
  induction m with
  | nil => rfl
  | cons e rest ih =>
    obtain ⟨a, b⟩ := e
    simp only [mapKeys, List.map_cons, List.mem_cons, not_or] at h
    have ha : ¬ a = k := fun h' => h.1 h'.symm
    simp only [mapSet, if_neg ha, List.cons_append]
    rw [ih h.2]

theorem mapKeys_append {β : Type} (m n : List (GoString × β)) :
    mapKeys (m ++ n) = mapKeys m ++ mapKeys n := by
  simp [mapKeys]

theorem mapGet_of_mem {β : Type} (m : List (GoString × β)) (k : GoString) (v : β)
    (hn : (mapKeys m).Nodup) (h : (k, v) ∈ m) : mapGet m k = some v := by
  induction m with
  | nil => cases h
  | cons e rest ih =>
    obtain ⟨a, b⟩ := e
    simp only [mapKeys, List.map_cons, List.nodup_cons] at hn
    rcases List.mem_cons.1 h with h | h
    · cases h
      simp [mapGet]
    · have : a ≠ k := by
        intro hak
        apply hn.1
        rw [hak]
        exact List.mem_map_of_mem Prod.fst h
      simp only [mapGet, if_neg this]
      exact ih hn.2 h

theorem mapGet_isSome {β : Type} (m : List (GoString × β)) (k : GoString) :
    (mapGet m k).isSome = true ↔ k ∈ mapKeys m := by
  induction m with
  | nil => simp [mapGet, mapKeys]
  | cons e rest ih =>
    obtain ⟨a, b⟩ := e
    by_cases h : a = k
    · simp [mapGet, mapKeys, h]
    · have h' : ¬ k = a := fun e => h e.symm
      simp only [mapGet, if_neg h, ih, mapKeys, List.map_cons, List.mem_cons, h', false_or]

theorem fresh_after_append {β : Type} (key : GoString) (x : β) (keys : List GoString)
    (out : List (GoString × β)) (hk : key ∉ keys)
    (hout : ∀ k ∈ key :: keys, k ∉ mapKeys out) :
    ∀ k ∈ keys, k ∉ mapKeys (out ++ [(key, x)]) := by
  intro k hkm
  rw [mapKeys_append]
  simp only [mapKeys, List.map_cons, List.map_nil, List.mem_append, List.mem_singleton, not_or]
  exact ⟨hout k (List.mem_cons_of_mem _ hkm), fun hkk => hk (hkk ▸ hkm)⟩

theorem foldl_mapSet_of_nodup {β : Type} (pairs acc : List (GoString × β))
    (hn : (mapKeys pairs).Nodup) (hd : ∀ k ∈ mapKeys pairs, k ∉ mapKeys acc) :
    pairs.foldl (fun m p => mapSet m p.1 p.2) acc = acc ++ pairs := by
  induction pairs generalizing acc with
  | nil => simp
  | cons p rest ih =>
    simp only [mapKeys, List.map_cons, List.nodup_cons] at hn hd
    rw [List.foldl_cons, mapSet_of_not_mem _ _ _ (hd _ (List.mem_cons_self _ _)), ih _ hn.2]
    · simp
    · exact fresh_after_append p.1 p.2 _ acc hn.1 hd

theorem mapOfPairs_of_nodup {β : Type} (pairs : List (GoString × β))
    (hn : (mapKeys pairs).Nodup) : mapOfPairs pairs = pairs := by
  unfold mapOfPairs
  rw [foldl_mapSet_of_nodup pairs [] hn (by simp [mapKeys])]
  rfl

theorem lookup_foldl_insert {α β : Type} (g : α → β)
    (l : List (Sigma fun _ : GoString => α)) (hl : l.NodupKeys) (m : GoMap β) (k : GoString) :
    (l.foldl (fun m e => m.insert e.1 (g e.2)) m).lookup k =
      match l.dlookup k with
      | some v => some (g v)
      | none => m.lookup k := by
  induction l generalizing m with
  | nil => simp
  | cons e rest ih =>
    obtain ⟨a, b⟩ := e
    rw [List.nodupKeys_cons] at hl
    rw [List.foldl_cons, ih hl.2]
    by_cases hk : a = k
    · subst hk
      have : List.dlookup a rest = none := by
        rw [List.dlookup_eq_none]; exact hl.1
      simp [this, AList.lookup_insert]
    · have hk2 : k ≠ a := fun h => hk h.symm
      rw [List.dlookup_cons_ne _ _ hk2]
      cases h : List.dlookup k rest with
      | none => simp [AList.lookup_insert_ne hk2]
      | some v => simp

/-! ## Lemmas on the registry -/

theorem getFunctions_lookup (f : FunctionProvider) (name : GoString) :
    f.GetFunctions.lookup name =
      match f.dynamicCatalog.lookup name with
      | some fn => some fn.Function
      | none => (f.StaticFunctions.lookup name).map (·.Function) := by
  have hs : (f.StaticFunctions.entries.foldl (fun m e => m.insert e.1 e.2.Function)
      (∅ : GoMap TfFunction)).lookup name = (f.StaticFunctions.lookup name).map (·.Function) := by
    rw [lookup_foldl_insert (fun fn : Function => fn.Function) _ f.StaticFunctions.nodupKeys]
    simp only [AList.lookup, AList.lookup_empty]
    cases List.dlookup name f.StaticFunctions.entries <;> rfl
  unfold FunctionProvider.GetFunctions FunctionProvider.dynamicCatalog
  cases hd : f.dynamicFunctions with
  | none => simpa using hs
  | some d =>
    simp only [Option.getD_some]
    rw [lookup_foldl_insert (fun fn : Function => fn.Function) _ d.nodupKeys, hs]
    simp only [AList.lookup]
    cases List.dlookup name d.entries <;> rfl

theorem callFunction_of_static (f : FunctionProvider) (req : CallFunctionRequest) (fn : Function)
    (h : f.StaticFunctions.lookup req.Name = some fn) :
    f.CallFunction req = respond (fn.Impl req.Arguments) := by
  simp only [FunctionProvider.CallFunction, h, respond]

theorem callFunction_of_dynamic (f : FunctionProvider) (req : CallFunctionRequest)
    (fn : Function) (hs : f.StaticFunctions.lookup req.Name = none)
    (hd : f.dynamicCatalog.lookup req.Name = some fn) :
    f.CallFunction req = respond (fn.Impl req.Arguments) := by
  unfold FunctionProvider.dynamicCatalog at hd
  cases hdf : f.dynamicFunctions with
  | none => simp [hdf] at hd
  | some d =>
    simp only [hdf, Option.getD_some] at hd
    simp only [FunctionProvider.CallFunction, hs, hdf, hd, respond]

theorem callFunction_of_absent (f : FunctionProvider) (req : CallFunctionRequest)
    (hs : req.Name ∉ f.StaticFunctions) (hd : req.Name ∉ f.dynamicCatalog) :
    f.CallFunction req = .error (.text (str "unknown function " ++ req.Name)) := by
  rw [← AList.lookup_eq_none] at hs hd
  unfold FunctionProvider.dynamicCatalog at hd
  cases hdf : f.dynamicFunctions with
  | none => simp only [FunctionProvider.CallFunction, hs, hdf]
  | some d =>
    simp only [hdf, Option.getD_some] at hd
    simp only [FunctionProvider.CallFunction, hs, hdf, hd]

theorem respond_ne_error (r : Run (Option DynamicValue × Option FunctionError)) (e : ErrText) :
    respond r ≠ .error e := by
  cases r <;> simp [respond]

theorem adaptExports_diags (lib : Lib) (symbols : List (GoString × Export))
    (functions : GoMap Function) (funcs : Option (GoMap Function)) (diags : List Diagnostic)
    (h : adaptExports lib symbols functions = .done (funcs, diags)) (hd : diags ≠ []) :
    funcs = none := by
  induction symbols generalizing functions with
  | nil =>
    simp only [adaptExports, Run.done.injEq, Prod.mk.injEq] at h
    exact absurd h.2.symm hd
  | cons s rest ih =>
    obtain ⟨name, symbol⟩ := s
    rw [adaptExports] at h
    split at h
    · exact ih _ h
    · split at h
      · cases h
      · split at h
        · simp only [Run.done.injEq, Prod.mk.injEq] at h
          exact h.1.symm
        · split at h
          · exact ih _ h
          · exact ih _ h

theorem configure_diags (lib : Lib) (config : DynamicValue)
    (funcs : Option (GoMap Function)) (diags : List Diagnostic)
    (h : Configure lib config = .done (funcs, diags)) (hd : diags ≠ []) :
    funcs = none := by
  unfold Configure at h
  dsimp only at h
  repeat' split at h
  all_goals first
    | (simp only [Run.done.injEq, Prod.mk.injEq] at h; exact h.1.symm)
    | cases h
    | exact adaptExports_diags lib _ _ _ _ h hd

theorem configureProvider_static (f : FunctionProvider) (req : ConfigureProviderRequest) :
    (f.ConfigureProvider req).1.StaticFunctions = f.StaticFunctions := by
  unfold FunctionProvider.ConfigureProvider
  cases f.Configure req.Config with
  | panic w => rfl
  | done r => rfl

theorem configureProvider_static_foldl (f : FunctionProvider)
    (reqs : List ConfigureProviderRequest) :
    (reqs.foldl (fun p r => (p.ConfigureProvider r).1) f).StaticFunctions =
      f.StaticFunctions := by
  induction reqs generalizing f with
  | nil => rfl
  | cons r rest ih => rw [List.foldl_cons, ih, configureProvider_static]

/-! ## Lemmas on the type mapper -/

theorem structAttributeTypes_eq (fields : List StructField) (acc : List (GoString × TfType)) :
    structAttributeTypes fields acc =
      (fieldPairs fields).map fun pairs => pairs.foldl (fun m p => mapSet m p.1 p.2) acc := by
  induction fields generalizing acc with
  | nil => rfl
  | cons field rest ih =>
    rw [structAttributeTypes, fieldPairs]
    cases h1 : GoTypeToTFType field.Typ with
    | ok fieldType =>
      cases h2 : getTfObjectGoFieldName field with
      | ok name =>
        simp only [Res.bind, ih]
        cases fieldPairs rest <;> rfl
      | error e => rfl
      | panic w => rfl
    | error e => rfl
    | panic w => rfl

theorem GoTypeToTFType_struct (fields : List StructField) :
    GoTypeToTFType (.struct fields) =
      (fieldPairs fields).map fun pairs => .object (mapOfPairs pairs) := by
  rw [GoTypeToTFType, structAttributeTypes_eq]
  cases fieldPairs fields <;> rfl

theorem fieldPairs_cons (field : StructField) (rest : List StructField)
    (pairs : List (GoString × TfType)) (h : fieldPairs (field :: rest) = .ok pairs) :
    ∃ ft name pairs', GoTypeToTFType field.Typ = .ok ft ∧
      getTfObjectGoFieldName field = .ok name ∧ fieldPairs rest = .ok pairs' ∧
      pairs = (name, ft) :: pairs' := by
  rw [fieldPairs] at h
  cases hft : GoTypeToTFType field.Typ with
  | error e => rw [hft] at h; cases h
  | panic w => rw [hft] at h; cases h
  | ok ft =>
    cases hname : getTfObjectGoFieldName field with
    | error e => rw [hft, hname] at h; cases h
    | panic w => rw [hft, hname] at h; cases h
    | ok name =>
      cases hrest : fieldPairs rest with
      | error e => rw [hft, hname, hrest] at h; cases h
      | panic w => rw [hft, hname, hrest] at h; cases h
      | ok pairs' =>
        rw [hft, hname, hrest] at h
        simp only [Res.bind, Res.map, Res.ok.injEq] at h
        exact ⟨ft, name, pairs', rfl, rfl, rfl, h.symm⟩

theorem fieldNames_of_fieldPairs (fields : List StructField) (pairs : List (GoString × TfType))
    (h : fieldPairs fields = .ok pairs) : fieldNames fields = (mapKeys pairs).map some := by
  induction fields generalizing pairs with
  | nil => cases h; rfl
  | cons field rest ih =>
    obtain ⟨ft, name, pairs', _, hname, hrest, rfl⟩ := fieldPairs_cons field rest pairs h
    simp only [fieldNames, List.map_cons, hname, mapKeys, List.cons.injEq, true_and]
    exact ih pairs' hrest

theorem getTfObjectGoFieldName_ok (field : StructField)
    (h : (decide (field.TfTag ≠ []) || decide (field.Name ≠ [])) = true) :
    ∃ name, getTfObjectGoFieldName field = .ok name := by
  unfold getTfObjectGoFieldName
  by_cases ht : field.TfTag ≠ []
  · rw [if_pos ht]; exact ⟨_, rfl⟩
  · rw [if_neg ht]
    simp only [ht, decide_False, Bool.false_or, decide_eq_true_eq] at h
    unfold uncapitalize
    cases hn : field.Name with
    | nil => exact absurd hn h
    | cons c rest => cases rest <;> exact ⟨_, rfl⟩

mutual
theorem supportedType_ok : ∀ (t : GoType), supportedType t = true →
    ∃ ht, GoTypeToTFType t = .ok ht
  | .string, _ => ⟨_, rfl⟩
  | .bool, _ => ⟨_, rfl⟩
  | .int, _ => ⟨_, rfl⟩
  | .float64, _ => ⟨_, rfl⟩
  | .defined _ .string, _ => ⟨_, rfl⟩
  | .defined _ .bool, _ => ⟨_, rfl⟩
  | .defined _ .int, _ => ⟨_, rfl⟩
  | .defined _ .float64, _ => ⟨_, rfl⟩
  | .ptr elem, h => by
      rw [supportedType] at h
      rw [GoTypeToTFType]
      exact supportedType_ok elem h
  | .slice elem, h => by
      rw [supportedType] at h
      obtain ⟨ht, hh⟩ := supportedType_ok elem h
      exact ⟨.list ht, by rw [GoTypeToTFType, hh]⟩
  | .map key elem, h => by
      rw [supportedType, Bool.and_eq_true, decide_eq_true_eq] at h
      obtain ⟨ht, hh⟩ := supportedType_ok elem h.2
      refine ⟨.map ht, ?_⟩
      rw [GoTypeToTFType, if_neg (by simp [h.1]), hh]
  | .struct fields, h => by
      rw [supportedType] at h
      obtain ⟨attrs, hh⟩ := supportedFields_ok fields h []
      exact ⟨.object attrs, by rw [GoTypeToTFType, hh]⟩
  | .iface methods, h => by
      rw [supportedType, decide_eq_true_eq] at h
      exact ⟨.dynamic, by rw [GoTypeToTFType, if_pos h]⟩
  | .scalar _, h => by simp [supportedType] at h
  | .array _ _, h => by simp [supportedType] at h
  | .chan _, h => by simp [supportedType] at h
  | .error, h => by simp [supportedType] at h
  | .func _ _ _, h => by simp [supportedType] at h
theorem supportedFields_ok : ∀ (fields : List (Field GoType)), supportedFields fields = true →
    ∀ acc, ∃ attrs, structAttributeTypes fields acc = .ok attrs
  | [], _, acc => ⟨acc, rfl⟩
  | field :: rest, h, acc => by
      rw [supportedFields, Bool.and_eq_true, Bool.and_eq_true] at h
      obtain ⟨ht, hh⟩ := supportedType_ok field.Typ h.1.1
      obtain ⟨name, hn⟩ := getTfObjectGoFieldName_ok field h.1.2
      obtain ⟨attrs, ha⟩ := supportedFields_ok rest h.2 (mapSet acc name ht)
      exact ⟨attrs, by rw [structAttributeTypes, hh, hn]; exact ha⟩
end

/-! ## Lemmas on the codec -/

mutual
theorem goTypeEq_iff : ∀ (a b : GoType), goTypeEq a b = true ↔ a = b
  | .string, b => by cases b <;> simp [goTypeEq]
  | .bool, b => by cases b <;> simp [goTypeEq]
  | .int, b => by cases b <;> simp [goTypeEq]
  | .float64, b => by cases b <;> simp [goTypeEq]
  | .scalar s, b => by cases b <;> simp [goTypeEq]
  | .defined n u, b => by cases b <;> simp [goTypeEq]
  | .ptr a, b => by cases b <;> simp [goTypeEq, goTypeEq_iff a]
  | .slice a, b => by cases b <;> simp [goTypeEq, goTypeEq_iff a]
  | .array n a, b => by cases b <;> simp [goTypeEq, goTypeEq_iff a]
  | .chan a, b => by cases b <;> simp [goTypeEq, goTypeEq_iff a]
  | .map k a, b => by cases b <;> simp [goTypeEq, goTypeEq_iff a, goTypeEq_iff k]
  | .struct fs, b => by cases b <;> simp [goTypeEq, fieldsEq_iff fs]
  | .iface ms, b => by cases b <;> simp [goTypeEq]
  | .error, b => by cases b <;> simp [goTypeEq]
  | .func i o v, b => by
      cases b <;> simp [goTypeEq, goTypesEq_iff i, goTypesEq_iff o, and_assoc]
theorem fieldsEq_iff : ∀ (a b : List (Field GoType)), fieldsEq a b = true ↔ a = b
  | [], b => by cases b <;> simp [fieldsEq]
  | ⟨n, t, ty, e⟩ :: fs, b => by
      cases b with
      | nil => simp [fieldsEq]
      | cons g gs =>
        obtain ⟨m, u, tz, d⟩ := g
        simp [fieldsEq, goTypeEq_iff ty, fieldsEq_iff fs, and_assoc]
theorem goTypesEq_iff : ∀ (a b : List GoType), goTypesEq a b = true ↔ a = b
  | [], b => by cases b <;> simp [goTypesEq]
  | a :: as, b => by
      cases b with
      | nil => simp [goTypesEq]
      | cons g gs => simp [goTypesEq, goTypeEq_iff a, goTypesEq_iff as]
end

theorem goTypeEq_refl (a : GoType) : goTypeEq a a = true := (goTypeEq_iff a a).2 rfl

theorem zeroValue_typeOf (t : GoType) (h : t.Kind ≠ Kind.Interface) :
    typeOf (zeroValue t) = some t := by
  cases t <;> simp [GoType.Kind] at h <;> try rfl
  case scalar s => cases s <;> rfl

theorem typeOf_of_plainValue (t : GoType) (v : GoValue) (h : plainValue t v = true) :
    typeOf v = some t := by
  cases v with
  | string s => rw [plainValue, goTypeEq_iff] at h; rw [h]; rfl
  | bool b => rw [plainValue, goTypeEq_iff] at h; rw [h]; rfl
  | int i =>
    simp only [plainValue, Bool.and_eq_true, goTypeEq_iff] at h
    rw [h.1.1]; rfl
  | slice elem items =>
    simp only [plainValue, Bool.and_eq_true, goTypeEq_iff] at h
    rw [h.1]; rfl
  | map key elem entries =>
    simp only [plainValue, Bool.and_eq_true, goTypeEq_iff] at h
    rw [h.1.1]; rfl
  | struct fields vals =>
    simp only [plainValue, Bool.and_eq_true, goTypeEq_iff] at h
    rw [h.1]; rfl
  | nil => simp [plainValue] at h
  | int64 i => simp [plainValue] at h
  | float64 f => simp [plainValue] at h
  | nilPtr e => simp [plainValue] at h
  | ptr e x => simp [plainValue] at h
  | nilSlice e => simp [plainValue] at h
  | nilMap k e => simp [plainValue] at h
  | other t n => simp [plainValue] at h

theorem assignable_of_plainValue (t : GoType) (v : GoValue) (h : plainValue t v = true) :
    assignable t v = true := by
  unfold assignable
  rw [typeOf_of_plainValue t v h]
  simp [goTypeEq_refl]

theorem int64_of_int (i : Int) (h1 : minInt64 ≤ i) (h2 : i ≤ maxInt64) :
    (BigFloat.fin i 0).Int64 = i := by
  have h1' : ¬ i < minInt64 := not_lt.2 h1
  have h2' : ¬ maxInt64 < i := not_lt.2 h2
  simp [BigFloat.Int64, h1', h2']

theorem decodeEntries_cons (decode : TfValue → Res GoValue) (keyType elemType : GoType)
    (key : GoString) (tfElement : TfValue) (rest : List (GoString × TfValue))
    (out : List (GoString × GoValue)) (elem : GoValue)
    (hd : decode tfElement = .ok elem) (hk : assignable keyType (.string key) = true)
    (he : assignable elemType elem = true) :
    decodeEntries decode keyType elemType ((key, tfElement) :: rest) out =
      decodeEntries decode keyType elemType rest (mapSet out key elem) := by
  rw [decodeEntries, hd]
  simp only [hk, if_true]
  cases elem <;> simp_all [assignable, typeOf]

mutual
theorem plainType_ok : ∀ (t : GoType), plainType t = true → ∃ ht, GoTypeToTFType t = .ok ht
  | .string, _ => ⟨_, rfl⟩
  | .bool, _ => ⟨_, rfl⟩
  | .int, _ => ⟨_, rfl⟩
  | .slice elem, h => by
      rw [plainType] at h
      obtain ⟨ht, hh⟩ := plainType_ok elem h
      exact ⟨.list ht, by rw [GoTypeToTFType, hh]⟩
  | .map key elem, h => by
      simp only [plainType, Bool.and_eq_true, goTypeEq_iff] at h
      obtain ⟨rfl, he⟩ := h
      obtain ⟨ht, hh⟩ := plainType_ok elem he
      refine ⟨.map ht, ?_⟩
      rw [GoTypeToTFType, if_neg (by simp [GoType.Kind]), hh]
  | .struct fields, h => by
      simp only [plainType, Bool.and_eq_true, distinctNames] at h
      obtain ⟨pairs, hp⟩ := plainFields_ok fields h.2 h.1.1
      refine ⟨.object (mapOfPairs pairs), ?_⟩
      rw [GoTypeToTFType_struct fields, hp]
      rfl
  | .float64, h => by simp [plainType] at h
  | .ptr _, h => by simp [plainType] at h
  | .iface _, h => by simp [plainType] at h
  | .scalar _, h => by simp [plainType] at h
  | .array _ _, h => by simp [plainType] at h
  | .chan _, h => by simp [plainType] at h
  | .error, h => by simp [plainType] at h
  | .func _ _ _, h => by simp [plainType] at h
theorem plainFields_ok : ∀ (fields : List (Field GoType)), plainFields fields = true →
    (fieldNames fields).all Option.isSome = true → ∃ pairs, fieldPairs fields = .ok pairs
  | [], _, _ => ⟨[], rfl⟩
  | field :: rest, h, hn => by
      simp only [plainFields, Bool.and_eq_true] at h
      simp only [fieldNames, List.map_cons, List.all_cons, Bool.and_eq_true] at hn
      obtain ⟨ht, hh⟩ := plainType_ok field.Typ h.1.2
      obtain ⟨pairs, hp⟩ := plainFields_ok rest h.2 hn.2
      cases hname : getTfObjectGoFieldName field with
      | ok name => exact ⟨(name, ht) :: pairs, by rw [fieldPairs, hh, hname, hp]; rfl⟩
      | error e => rw [hname] at hn; simp at hn
      | panic w => rw [hname] at hn; simp at hn
end

mutual
theorem roundTrip_value : ∀ (v : GoValue) (t : GoType) (ht : TfType),
    plainType t = true → plainValue t v = true → GoTypeToTFType t = .ok ht →
    ∃ w, GoToTfValue ht v = .ok w ∧ TfToGoValue t w = .ok v
  | .string s, t, ht, _, hv, hht => by
      rw [plainValue, goTypeEq_iff] at hv
      subst hv
      cases hht
      exact ⟨.string s, rfl, rfl⟩
  | .bool b, t, ht, _, hv, hht => by
      rw [plainValue, goTypeEq_iff] at hv
      subst hv
      cases hht
      exact ⟨.bool b, rfl, rfl⟩
  | .int i, t, ht, _, hv, hht => by
      simp only [plainValue, Bool.and_eq_true, goTypeEq_iff, decide_eq_true_eq] at hv
      obtain ⟨⟨rfl, h1⟩, h2⟩ := hv
      cases hht
      refine ⟨.number (.fin i 0), rfl, ?_⟩
      show Res.ok (GoValue.int (BigFloat.fin i 0).Int64) = _
      rw [int64_of_int i h1 h2]
  | .slice elem items, t, ht, hp, hv, hht => by
      simp only [plainValue, Bool.and_eq_true, goTypeEq_iff] at hv
      obtain ⟨rfl, hitems⟩ := hv
      rw [plainType] at hp
      rw [GoTypeToTFType] at hht
      cases hel : GoTypeToTFType elem with
      | error e => rw [hel] at hht; cases hht
      | panic w => rw [hel] at hht; cases hht
      | ok het =>
        rw [hel] at hht
        cases hht
        obtain ⟨ws, hen, hde⟩ := roundTrip_items items elem het hp hitems hel
        refine ⟨.list het ws, ?_, ?_⟩
        · rw [GoToTfValue]
          simp only [hen]
        · rw [TfToGoValue]
          simp only [TfValue.IsNull, asValues, hde]
          rfl
  | .map key elem entries, t, ht, hp, hv, hht => by
      simp only [plainValue, Bool.and_eq_true, goTypeEq_iff, decide_eq_true_eq] at hv
      obtain ⟨⟨rfl, hnd⟩, hentries⟩ := hv
      simp only [plainType, Bool.and_eq_true, goTypeEq_iff] at hp
      obtain ⟨rfl, hpe⟩ := hp
      rw [GoTypeToTFType] at hht
      simp only [GoType.Kind, ne_eq, not_true_eq_false, if_false] at hht
      cases hel : GoTypeToTFType elem with
      | error e => rw [hel] at hht; cases hht
      | panic w => rw [hel] at hht; cases hht
      | ok het =>
        rw [hel] at hht
        cases hht
        obtain ⟨ws, _, hen, hde⟩ := roundTrip_entries entries elem het hpe hentries hel hnd
        refine ⟨.map het ws, ?_, ?_⟩
        · rw [GoToTfValue]
          simp only [hen [] (by simp [mapKeys]), List.nil_append]
        · rw [TfToGoValue]
          simp only [TfValue.IsNull, asValueMap, hde [] (by simp [mapKeys]), List.nil_append]
          rfl
  | .struct fields vals, t, ht, hp, hv, hht => by
      simp only [plainValue, Bool.and_eq_true, goTypeEq_iff] at hv
      obtain ⟨rfl, hvals⟩ := hv
      simp only [plainType, Bool.and_eq_true] at hp
      obtain ⟨hdn, hpf⟩ := hp
      rw [GoTypeToTFType_struct fields] at hht
      cases hfp : fieldPairs fields with
      | error e => rw [hfp] at hht; cases hht
      | panic w => rw [hfp] at hht; cases hht
      | ok pairs =>
        rw [hfp] at hht
        simp only [Res.map, Res.ok.injEq] at hht
        have hnd : (mapKeys pairs).Nodup := by
          have := fieldNames_of_fieldPairs fields pairs hfp
          simp only [distinctNames, Bool.and_eq_true, decide_eq_true_eq] at hdn
          rw [this] at hdn
          exact (List.nodup_map_iff (Option.some_injective _)).1 hdn.2
        rw [mapOfPairs_of_nodup pairs hnd] at hht
        subst hht
        obtain ⟨ws, hkeys, hen, hde⟩ := roundTrip_vals vals fields pairs hpf hvals hfp hnd
        have hwn : (mapKeys ws).Nodup := hkeys ▸ hnd
        refine ⟨.object pairs ws, ?_, ?_⟩
        · rw [GoToTfValue]
          simp only [hen pairs [] (fun p hp => mapGet_of_mem pairs p.1 p.2 hnd hp)
            (by simp [mapKeys]), List.nil_append]
          unfold newObjectValue
          rw [if_pos]
          simp only [Bool.and_eq_true, List.all_eq_true, mapGet_isSome, hkeys]
          exact ⟨fun _ h => h, fun _ h => h⟩
        · rw [TfToGoValue]
          simp only [TfValue.IsNull, asValueMap,
            hde ws (fun p hp => mapGet_of_mem ws p.1 p.2 hwn hp)]
          rfl
  | .nil, _, _, _, hv, _ => by simp [plainValue] at hv
  | .int64 _, _, _, _, hv, _ => by simp [plainValue] at hv
  | .float64 _, _, _, _, hv, _ => by simp [plainValue] at hv
  | .nilPtr _, _, _, _, hv, _ => by simp [plainValue] at hv
  | .ptr _ _, _, _, _, hv, _ => by simp [plainValue] at hv
  | .nilSlice _, _, _, _, hv, _ => by simp [plainValue] at hv
  | .nilMap _ _, _, _, _, hv, _ => by simp [plainValue] at hv
  | .other _ _, _, _, _, hv, _ => by simp [plainValue] at hv
theorem roundTrip_items : ∀ (items : List GoValue) (elem : GoType) (ht : TfType),
    plainType elem = true → plainItems elem items = true → GoTypeToTFType elem = .ok ht →
    ∃ ws, encodeItems ht items = .ok ws ∧ decodeElems (TfToGoValue elem) elem ws = .ok items
  | [], _, _, _, _, _ => ⟨[], rfl, rfl⟩
  | item :: rest, elem, ht, hp, hv, hht => by
      simp only [plainItems, Bool.and_eq_true] at hv
      obtain ⟨w, hen, hde⟩ := roundTrip_value item elem ht hp hv.1 hht
      obtain ⟨ws, hens, hdes⟩ := roundTrip_items rest elem ht hp hv.2 hht
      refine ⟨w :: ws, ?_, ?_⟩
      · rw [encodeItems, hen]
        simp only [hens]
      · rw [decodeElems, hde]
        simp only [assignable_of_plainValue elem item hv.1, if_true, hdes]
theorem roundTrip_entries : ∀ (entries : List (GoString × GoValue)) (elem : GoType)
    (ht : TfType),
    plainType elem = true → plainEntries elem entries = true → GoTypeToTFType elem = .ok ht →
    (mapKeys entries).Nodup →
    ∃ ws : List (GoString × TfValue), mapKeys ws = mapKeys entries ∧
      (∀ out, (∀ k ∈ mapKeys entries, k ∉ mapKeys out) →
        encodeEntries ht entries out = .ok (out ++ ws)) ∧
      (∀ out, (∀ k ∈ mapKeys entries, k ∉ mapKeys out) →
        decodeEntries (TfToGoValue elem) .string elem ws out = .ok (out ++ entries))
  | [], _, _, _, _, _, _ =>
      ⟨[], rfl, fun out _ => by simp [encodeEntries], fun out _ => by simp [decodeEntries]⟩
  | (key, item) :: rest, elem, ht, hp, hv, hht, hnd => by
      simp only [plainEntries, Bool.and_eq_true] at hv
      simp only [mapKeys, List.map_cons, List.nodup_cons] at hnd
      obtain ⟨w, hen, hde⟩ := roundTrip_value item elem ht hp hv.1 hht
      obtain ⟨ws, hkeys, hens, hdes⟩ := roundTrip_entries rest elem ht hp hv.2 hht hnd.2
      refine ⟨(key, w) :: ws, ?_, ?_, ?_⟩
      · simp only [mapKeys, List.map_cons] at hkeys ⊢
        rw [hkeys]
      · intro out hout
        rw [encodeEntries, hen]
        simp only []
        rw [mapSet_of_not_mem _ _ _ (hout key (by simp [mapKeys])),
          hens _ (fresh_after_append key w _ out hnd.1 hout)]
        simp
      · intro out hout
        rw [decodeEntries_cons (TfToGoValue elem) .string elem key w ws out item hde rfl
            (assignable_of_plainValue elem item hv.1),
          mapSet_of_not_mem _ _ _ (hout key (by simp [mapKeys])),
          hdes _ (fresh_after_append key item _ out hnd.1 hout)]
        simp
theorem roundTrip_vals : ∀ (vals : List GoValue) (fields : List (Field GoType))
    (pairs : List (GoString × TfType)),
    plainFields fields = true → plainVals fields vals = true → fieldPairs fields = .ok pairs →
    (mapKeys pairs).Nodup →
    ∃ ws : List (GoString × TfValue), mapKeys ws = mapKeys pairs ∧
      (∀ attrs out, (∀ p ∈ pairs, mapGet attrs p.1 = some p.2) →
        (∀ k ∈ mapKeys pairs, k ∉ mapKeys out) →
        encodeFields attrs fields vals out = .ok (out ++ ws)) ∧
      (∀ tfMap, (∀ p ∈ ws, mapGet tfMap p.1 = some p.2) → decodeFields fields tfMap = .ok vals)
  | [], fields, pairs, _, hv, hfp, _ => by
      cases fields with
      | cons f fs => simp [plainVals] at hv
      | nil =>
        cases hfp
        exact ⟨[], rfl, fun attrs out _ _ => by simp [encodeFields],
          fun tfMap _ => by simp [decodeFields]⟩
  | item :: vals, fields, pairs, hp, hv, hfp, hnd => by
      cases fields with
      | nil => simp [plainVals] at hv
      | cons field rest =>
        simp only [plainVals, Bool.and_eq_true] at hv
        simp only [plainFields, Bool.and_eq_true] at hp
        obtain ⟨⟨hex, hpt⟩, hpr⟩ := hp
        obtain ⟨ft, name, pairs', hft, hname, hrest, rfl⟩ := fieldPairs_cons field rest pairs hfp
        simp only [mapKeys, List.map_cons, List.nodup_cons] at hnd
        obtain ⟨w, hen, hde⟩ := roundTrip_value item field.Typ ft hpt hv.1 hft
        obtain ⟨ws, hkeys, hens, hdes⟩ := roundTrip_vals vals rest pairs' hpr hv.2 hrest hnd.2
        refine ⟨(name, w) :: ws, ?_, ?_, ?_⟩
        · simp only [mapKeys, List.map_cons] at hkeys ⊢
          rw [hkeys]
        · intro attrs out hattrs hout
          rw [encodeFields, hname]
          simp only [hex, if_true, hattrs (name, ft) (List.mem_cons_self _ _), hen]
          rw [mapSet_of_not_mem _ _ _ (hout name (by simp [mapKeys])),
            hens attrs _ (fun p hp => hattrs p (List.mem_cons_of_mem _ hp))
              (fresh_after_append name w _ out hnd.1 hout)]
          simp
        · intro tfMap htf
          rw [decodeFields, hname]
          simp only [htf (name, w) (List.mem_cons_self _ _), hde, hex,
            assignable_of_plainValue field.Typ item hv.1, Bool.and_self, if_true,
            hdes tfMap (fun p hp => htf p (List.mem_cons_of_mem _ hp))]
end

/-! ## Lemmas on assignment in maps and on pointer decoding -/

theorem mapGet_mapSet {β : Type} (m : List (GoString × β)) (k a : GoString) (v : β) :
    mapGet (mapSet m k v) a = if k = a then some v else mapGet m a := by
  induction m with
  | nil => rfl
  | cons e rest ih =>
    obtain ⟨c, d⟩ := e
    by_cases hck : c = k
    · subst hck
      by_cases hca : c = a <;> simp [mapSet, mapGet, hca]
    · by_cases hca : c = a
      · subst hca
        have : ¬ k = c := fun h => hck h.symm
        simp [mapSet, mapGet, hck, this]
      · simp [mapSet, mapGet, hck, hca, ih]

theorem mem_mapKeys_mapSet {β : Type} (m : List (GoString × β)) (k a : GoString) (v : β) :
    a ∈ mapKeys (mapSet m k v) ↔ a = k ∨ a ∈ mapKeys m := by
  rw [← mapGet_isSome, ← mapGet_isSome, mapGet_mapSet]
  by_cases h : k = a
  · simp [h]
  · have : ¬ a = k := fun e => h e.symm
    simp [h, this]

theorem mem_mapKeys_foldl {β : Type} (pairs acc : List (GoString × β)) (a : GoString) :
    a ∈ mapKeys (pairs.foldl (fun m p => mapSet m p.1 p.2) acc) ↔
      a ∈ mapKeys pairs ∨ a ∈ mapKeys acc := by
  induction pairs generalizing acc with
  | nil => simp [mapKeys]
  | cons p rest ih =>
    rw [List.foldl_cons, ih, mem_mapKeys_mapSet]
    simp only [mapKeys, List.map_cons, List.mem_cons]
    tauto

theorem mapGet_append {β : Type} (m n : List (GoString × β)) (a : GoString) :
    mapGet (m ++ n) a = (mapGet m a).orElse fun _ => mapGet n a := by
  induction m with
  | nil => rfl
  | cons e rest ih =>
    obtain ⟨c, d⟩ := e
    by_cases h : c = a
    · simp [mapGet, h]
    · simp [mapGet, h, ih]

theorem mapGet_foldl {β : Type} (pairs acc : List (GoString × β)) (a : GoString) :
    mapGet (pairs.foldl (fun m p => mapSet m p.1 p.2) acc) a =
      (mapGet pairs.reverse a).orElse fun _ => mapGet acc a := by
  induction pairs generalizing acc with
  | nil => rfl
  | cons p rest ih =>
    rw [List.foldl_cons, ih, List.reverse_cons, mapGet_append, mapGet_mapSet]
    cases mapGet rest.reverse a with
    | some v => rfl
    | none =>
      by_cases h : p.1 = a <;> simp [mapGet, h]

theorem mapGet_mapOfPairs {β : Type} (pairs : List (GoString × β)) (a : GoString) :
    mapGet (mapOfPairs pairs) a = mapGet pairs.reverse a := by
  unfold mapOfPairs
  rw [mapGet_foldl]
  cases mapGet pairs.reverse a <;> rfl

theorem typeOf_decoded : ∀ (X : GoType) (v : TfValue) (x : GoValue), v.IsNull = false →
    TfToGoValue X v = .ok x → (∃ t, typeOf x = some t) ∧ (decodesToOtherType X = false → typeOf x = some X)
  | .string, v, x, hn, h => by
      rw [TfToGoValue] at h
      simp only [hn, Bool.false_eq_true, if_false] at h
      cases hs : asString v <;> rw [hs] at h <;> cases h
      exact ⟨⟨_, rfl⟩, fun _ => rfl⟩
  | .bool, v, x, hn, h => by
      rw [TfToGoValue] at h
      simp only [hn, Bool.false_eq_true, if_false] at h
      cases hs : asBool v <;> rw [hs] at h <;> cases h
      exact ⟨⟨_, rfl⟩, fun _ => rfl⟩
  | .int, v, x, hn, h => by
      rw [TfToGoValue] at h
      simp only [hn, Bool.false_eq_true, if_false] at h
      cases hs : asBigFloat v <;> rw [hs] at h <;> cases h
      exact ⟨⟨_, rfl⟩, fun _ => rfl⟩
  | .float64, v, x, hn, h => by
      rw [TfToGoValue] at h
      simp only [hn, Bool.false_eq_true, if_false] at h
      cases hs : asBigFloat v <;> rw [hs] at h <;> cases h
      exact ⟨⟨_, rfl⟩, fun hf => by simp [decodesToOtherType] at hf⟩
  | .defined n .string, v, x, hn, h => by
      rw [TfToGoValue] at h
      simp only [hn, Bool.false_eq_true, if_false] at h
      cases hs : asString v <;> rw [hs] at h <;> cases h
      exact ⟨⟨_, rfl⟩, fun hf => by simp [decodesToOtherType] at hf⟩
  | .defined n .bool, v, x, hn, h => by
      rw [TfToGoValue] at h
      simp only [hn, Bool.false_eq_true, if_false] at h
      cases hs : asBool v <;> rw [hs] at h <;> cases h
      exact ⟨⟨_, rfl⟩, fun hf => by simp [decodesToOtherType] at hf⟩
  | .defined n .int, v, x, hn, h => by
      rw [TfToGoValue] at h
      simp only [hn, Bool.false_eq_true, if_false] at h
      cases hs : asBigFloat v <;> rw [hs] at h <;> cases h
      exact ⟨⟨_, rfl⟩, fun hf => by simp [decodesToOtherType] at hf⟩
  | .defined n .float64, v, x, hn, h => by
      rw [TfToGoValue] at h
      simp only [hn, Bool.false_eq_true, if_false] at h
      cases hs : asBigFloat v <;> rw [hs] at h <;> cases h
      exact ⟨⟨_, rfl⟩, fun hf => by simp [decodesToOtherType] at hf⟩
  | .ptr elem, v, x, hn, h => by
      rw [TfToGoValue] at h
      simp only [hn, Bool.false_eq_true, if_false] at h
      cases hs : TfToGoValue elem v with
      | error e => rw [hs] at h; cases h
      | panic w => rw [hs] at h; cases h
      | ok value =>
        rw [hs] at h
        obtain ⟨⟨t, ht⟩, hx⟩ := typeOf_decoded elem v value hn hs
        simp only [ht] at h
        cases h
        refine ⟨⟨_, rfl⟩, fun hf => ?_⟩
        rw [decodesToOtherType] at hf
        have := hx hf
        rw [ht] at this
        cases this
        rfl
  | .iface ms, v, x, hn, h => by
      rw [TfToGoValue] at h
      simp only [hn, Bool.false_eq_true, if_false] at h
      cases h
  | .error, v, x, hn, h => by
      rw [TfToGoValue] at h
      simp only [hn, Bool.false_eq_true, if_false] at h
      cases h
  | .slice elem, v, x, hn, h => by
      rw [TfToGoValue] at h
      simp only [hn, Bool.false_eq_true, if_false] at h
      cases hs : asValues v with
      | error e => rw [hs] at h; cases h
      | panic w => rw [hs] at h; cases h
      | ok vs =>
        rw [hs] at h
        simp only at h
        cases hd : decodeElems (TfToGoValue elem) elem vs <;> rw [hd] at h <;> cases h
        exact ⟨⟨_, rfl⟩, fun _ => rfl⟩
  | .map key elem, v, x, hn, h => by
      rw [TfToGoValue] at h
      simp only [hn, Bool.false_eq_true, if_false] at h
      cases hs : asValueMap v with
      | error e => rw [hs] at h; cases h
      | panic w => rw [hs] at h; cases h
      | ok vs =>
        rw [hs] at h
        simp only at h
        cases hd : decodeEntries (TfToGoValue elem) key elem vs [] <;> rw [hd] at h <;> cases h
        exact ⟨⟨_, rfl⟩, fun _ => rfl⟩
  | .struct fields, v, x, hn, h => by
      rw [TfToGoValue] at h
      simp only [hn, Bool.false_eq_true, if_false] at h
      cases hs : asValueMap v with
      | error e => rw [hs] at h; cases h
      | panic w => rw [hs] at h; cases h
      | ok vs =>
        rw [hs] at h
        simp only at h
        cases hd : decodeFields fields vs <;> rw [hd] at h <;> cases h
        exact ⟨⟨_, rfl⟩, fun _ => rfl⟩
  | .scalar s, v, x, hn, h => by
      rw [TfToGoValue] at h
      simp only [hn, Bool.false_eq_true, if_false] at h
      cases h
  | .array n elem, v, x, hn, h => by
      rw [TfToGoValue] at h
      simp only [hn, Bool.false_eq_true, if_false] at h
      cases h
  | .chan elem, v, x, hn, h => by
      rw [TfToGoValue] at h
      simp only [hn, Bool.false_eq_true, if_false] at h
      cases h
  | .func ins outs vr, v, x, hn, h => by
      rw [TfToGoValue] at h
      simp only [hn, Bool.false_eq_true, if_false] at h
      cases h

theorem TfToGoValue_ptr (X : GoType) (v : TfValue) :
    TfToGoValue (.ptr X) v =
      if v.IsNull then .ok .nil else
      match TfToGoValue X v with
      | .ok value =>
          match typeOf value with
          | some t => .ok (.ptr t value)
          | none => .panic "reflect.New(nil)"
      | .error e => .error e
      | .panic w => .panic w := by
  rw [TfToGoValue]

/-! ## Lemmas on records -/

theorem decodeFields_cons_stored (tfMap : List (GoString × TfValue)) (field : StructField)
    (rest : List StructField) (x : GoValue) (h : fieldStored tfMap field x) :
    decodeFields (field :: rest) tfMap = (decodeFields rest tfMap).map (x :: ·) := by
  obtain ⟨hex, name, tfElement, hname, hget, hdec, hasg⟩ := h
  rw [decodeFields, hname]
  simp only [hget, hdec, hex, hasg, Bool.and_self, if_true]
  cases decodeFields rest tfMap <;> rfl

theorem decodeFields_append_stored (tfMap : List (GoString × TfValue))
    (pre : List StructField) (vals : List GoValue) (rest : List StructField)
    (h : List.Forall₂ (fieldStored tfMap) pre vals) :
    decodeFields (pre ++ rest) tfMap = (decodeFields rest tfMap).map (vals ++ ·) := by
  induction h with
  | nil => rw [List.nil_append]; cases decodeFields rest tfMap <;> rfl
  | cons hx _ ih =>
    rw [List.cons_append, decodeFields_cons_stored tfMap _ _ _ hx, ih]
    cases decodeFields rest tfMap <;> rfl

theorem decodeFields_missing (tfMap : List (GoString × TfValue)) (field : StructField)
    (rest : List StructField) (name : GoString)
    (hname : getTfObjectGoFieldName field = .ok name) (hget : mapGet tfMap name = none) :
    decodeFields (field :: rest) tfMap =
      .error (.text (str "missing object field " ++ name)) := by
  rw [decodeFields, hname]
  simp only [hget]

theorem decodeFields_congr (tfMap tfMap' : List (GoString × TfValue))
    (fields : List StructField)
    (h : ∀ field ∈ fields, ∀ name, getTfObjectGoFieldName field = .ok name →
      mapGet tfMap' name = mapGet tfMap name) :
    decodeFields fields tfMap' = decodeFields fields tfMap := by
  induction fields with
  | nil => rfl
  | cons field rest ih =>
    rw [decodeFields, decodeFields]
    cases hname : getTfObjectGoFieldName field with
    | ok name =>
      simp only [h field (List.mem_cons_self _ _) name hname,
        ih (fun f hf => h f (List.mem_cons_of_mem _ hf))]
    | error e => rfl
    | panic w => rfl

theorem TfToGoValue_struct_object (fields : List StructField)
    (attributeTypes : List (GoString × TfType)) (tfMap : List (GoString × TfValue)) :
    TfToGoValue (.struct fields) (.object attributeTypes tfMap) =
      (decodeFields fields tfMap).map (.struct fields) := by
  rw [TfToGoValue]
  simp only [TfValue.IsNull, asValueMap]
  cases decodeFields fields tfMap <;> rfl

theorem GoToTfValue_number (v : GoValue) :
    GoToTfValue .number v =
      match v with
      | .nil => .ok (.null .number)
      | .int i => .ok (.number (.fin i 0))
      | .float64 f => newFloatValue f
      | other => .error (.withGoType (str "expected number, got ") (typeOf other) []) := by
  cases v <;> rfl

theorem encodeFields_of_encoded (attributeTypes : List (GoString × TfType))
    (fields : List StructField) (vals : List GoValue) (pairs out : List (GoString × TfValue))
    (h : List.Forall₂ (fieldEncoded attributeTypes) (fields.zip vals) pairs) :
    encodeFields attributeTypes fields vals out =
      .ok (pairs.foldl (fun m p => mapSet m p.1 p.2) out) := by
  induction fields generalizing vals pairs out with
  | nil =>
    rw [List.zip_nil_left] at h
    cases h
    cases vals <;> rfl
  | cons field fields ih =>
    cases vals with
    | nil =>
      rw [List.zip_nil_right] at h
      cases h
      rfl
    | cons item vals =>
      rw [List.zip_cons_cons] at h
      cases h with
      | cons hp hrest =>
        obtain ⟨hex, hname, attributeType, hget, henc⟩ := hp
        dsimp only at hex hname
        rw [encodeFields, hname]
        simp only [hex, if_true, hget, henc]
        exact ih vals _ _ hrest

theorem fieldNames_of_encoded (attributeTypes : List (GoString × TfType))
    (fields : List StructField) (vals : List GoValue) (pairs : List (GoString × TfValue))
    (hlen : fields.length = vals.length)
    (h : List.Forall₂ (fieldEncoded attributeTypes) (fields.zip vals) pairs) :
    fieldNames fields = (mapKeys pairs).map some := by
  induction fields generalizing vals pairs with
  | nil =>
    rw [List.zip_nil_left] at h
    cases h
    rfl
  | cons field fields ih =>
    cases vals with
    | nil => cases hlen
    | cons item vals =>
      rw [List.zip_cons_cons] at h
      cases h with
      | cons hp hrest =>
        have := ih vals _ (Nat.succ.inj hlen) hrest
        simp only [fieldNames, List.map_cons, hp.2.1, mapKeys, List.cons.injEq, true_and]
        exact this

theorem mapGet_of_encoded (attributeTypes : List (GoString × TfType))
    (fvs : List (StructField × GoValue)) (pairs : List (GoString × TfValue))
    (h : List.Forall₂ (fieldEncoded attributeTypes) fvs pairs) :
    ∀ a ∈ mapKeys pairs, a ∈ mapKeys attributeTypes := by
  induction h with
  | nil => intro a ha; cases ha
  | cons hp _ ih =>
    intro a ha
    simp only [mapKeys, List.map_cons, List.mem_cons] at ha
    rcases ha with rfl | ha
    · obtain ⟨_, _, t, hget, _⟩ := hp
      rw [← mapGet_isSome, hget]; rfl
    · exact ih a ha

theorem mapKeys_of_own_type (fields : List StructField) (attributeTypes : List (GoString × TfType))
    (h : GoTypeToTFType (.struct fields) = .ok (.object attributeTypes)) :
    ∀ a ∈ mapKeys attributeTypes, some a ∈ fieldNames fields := by
  rw [GoTypeToTFType_struct] at h
  cases hp : fieldPairs fields with
  | error e => rw [hp] at h; cases h
  | panic w => rw [hp] at h; cases h
  | ok tpairs =>
    rw [hp] at h
    simp only [Res.map, Res.ok.injEq, TfType.object.injEq] at h
    subst h
    intro a ha
    rw [fieldNames_of_fieldPairs fields tpairs hp]
    unfold mapOfPairs at ha
    rw [mem_mapKeys_foldl] at ha
    rcases ha with ha | ha
    · exact List.mem_map_of_mem some ha
    · cases ha

/-! ## Lemmas on the adapter -/

theorem GoTypeToTFFunctionParam_ok (t : GoType) (p : FunctionParameter)
    (h : GoTypeToTFFunctionParam t = .ok p) : parameterOf t p := by
  unfold GoTypeToTFFunctionParam at h
  cases ht : GoTypeToTFType t with
  | error e => rw [ht] at h; cases h
  | panic w => rw [ht] at h; cases h
  | ok outType =>
    rw [ht] at h
    simp only [Res.ok.injEq] at h
    subst h
    exact ⟨ht, by simp, rfl⟩

theorem adaptParameters_spec (ins : List GoType) (i : Nat) (parameters : List FunctionParameter)
    (h : adaptParameters i ins = .ok parameters) : List.Forall₂ parameterOf ins parameters := by
  induction ins generalizing i parameters with
  | nil =>
    rw [adaptParameters] at h
    cases h
    exact .nil
  | cons t rest ih =>
    rw [adaptParameters] at h
    cases hp : GoTypeToTFFunctionParam t with
    | error e => rw [hp] at h; cases h
    | panic w => rw [hp] at h; cases h
    | ok p =>
      cases hr : adaptParameters (i + 1) rest with
      | error e => rw [hp, hr] at h; cases h
      | panic w => rw [hp, hr] at h; cases h
      | ok ps =>
        rw [hp, hr] at h
        cases h
        exact .cons (GoTypeToTFFunctionParam_ok t p hp) (ih (i + 1) ps hr)

theorem adaptParameters_ok (ins : List GoType) (i : Nat)
    (h : ∀ t ∈ ins, ∃ ht, GoTypeToTFType t = .ok ht) :
    ∃ parameters, adaptParameters i ins = .ok parameters := by
  induction ins generalizing i with
  | nil => exact ⟨[], rfl⟩
  | cons t rest ih =>
    obtain ⟨ht, hh⟩ := h t (List.mem_cons_self _ _)
    obtain ⟨ps, hps⟩ := ih (i + 1) (fun t ht => h t (List.mem_cons_of_mem _ ht))
    exact ⟨⟨false, t.Kind = Kind.Pointer, ht⟩ :: ps,
      by rw [adaptParameters]; simp only [GoTypeToTFFunctionParam, hh, hps]⟩

/-- The shape of a successful outcome of the adapter. -/
theorem adapted_entry (lib : Lib) (fn : Export) (ins outs : List GoType) (variadic : Bool)
    (entry : Function) (diags : List Diagnostic)
    (hfn : fn.Typ = .func ins outs variadic)
    (h : GoFunctionToTFFunction lib fn = .done (some entry, diags)) :
    ∃ parameters first more outputType, adaptParameters 0 ins = .ok parameters ∧
      outs = first :: more ∧ GoTypeToTFType first = .ok outputType ∧ diags = [] ∧
      entry = { Function := { Parameters := parameters, Return := { Typ := outputType } },
                Impl := adaptedImpl lib fn parameters ins outputType } := by
  unfold GoFunctionToTFFunction at h
  rw [hfn] at h
  dsimp only at h
  cases hp : adaptParameters 0 ins with
  | error e => rw [hp] at h; simp at h
  | panic w => rw [hp] at h; cases h
  | ok parameters =>
    rw [hp] at h
    cases outs with
    | nil => simp at h
    | cons first more =>
      dsimp only at h
      split at h
      · simp at h
      · split at h
        · simp at h
        · cases ho : GoTypeToTFType first with
          | error e => rw [ho] at h; simp at h
          | panic w => rw [ho] at h; cases h
          | ok outputType =>
            rw [ho] at h
            simp only [Run.done.injEq, Prod.mk.injEq, Option.some.injEq] at h
            exact ⟨parameters, first, more, outputType, rfl, rfl, ho, h.2.symm, h.1.symm⟩

theorem adaptedImpl_returns (lib : Lib) (fn : Export) (parameters : List FunctionParameter)
    (ins : List GoType) (outputType : TfType) (args : List DynamicValue)
    (r : Option DynamicValue × Option FunctionError)
    (h : adaptedImpl lib fn parameters ins outputType args = .done r) :
    (r.1.isSome = true ∧ r.2 = none) ∨ (r.1 = none ∧ r.2.isSome = true) := by
  unfold adaptedImpl at h
  dsimp only at h
  repeat' split at h
  all_goals
    cases h
    try first | exact Or.inl ⟨rfl, rfl⟩ | exact Or.inr ⟨rfl, rfl⟩

theorem adaptedImpl_decode_error (lib : Lib) (fn : Export) (parameters : List FunctionParameter)
    (ins : List GoType) (outputType : TfType) (args : List DynamicValue) (err : ErrText)
    (h : decodeArgs lib parameters ins args = .error err) :
    adaptedImpl lib fn parameters ins outputType args = .done (none, some { Text := err }) := by
  unfold adaptedImpl
  rw [h]

theorem adaptedImpl_error_output (lib : Lib) (fn : Export) (parameters : List FunctionParameter)
    (ins : List GoType) (outputType : TfType) (args : List DynamicValue)
    (goArgs : List GoValue) (first second : GoValue) (more : List GoValue)
    (h : decodeArgs lib parameters ins args = .ok goArgs)
    (hc : reflectCall fn goArgs = .done (first :: second :: more)) (hs : second ≠ .nil) :
    adaptedImpl lib fn parameters ins outputType args =
      .done (none, some { Text := lib.ErrorText second }) := by
  unfold adaptedImpl
  rw [h]
  simp only [hc]

theorem adaptedImpl_first_output (lib : Lib) (fn : Export) (parameters : List FunctionParameter)
    (ins : List GoType) (outputType : TfType) (args : List DynamicValue)
    (goArgs : List GoValue) (first : GoValue) (more : List GoValue)
    (h : decodeArgs lib parameters ins args = .ok goArgs)
    (hc : reflectCall fn goArgs = .done (first :: more))
    (hs : more = [] ∨ ∃ rest, more = .nil :: rest) :
    adaptedImpl lib fn parameters ins outputType args =
      match GoToProto lib outputType first with
      | .ok out => .done (some out, none)
      | .error err => .done (none, some { Text := err })
      | .panic w => .panic w := by
  unfold adaptedImpl
  rw [h]
  simp only [hc]
  rcases hs with rfl | ⟨rest, rfl⟩ <;> rfl

theorem adaptedImpl_decode_panic (lib : Lib) (fn : Export) (parameters : List FunctionParameter)
    (ins : List GoType) (outputType : TfType) (args : List DynamicValue) (w : String)
    (h : decodeArgs lib parameters ins args = .panic w) :
    adaptedImpl lib fn parameters ins outputType args = .panic w := by
  unfold adaptedImpl
  rw [h]

theorem adaptedImpl_call_panic (lib : Lib) (fn : Export) (parameters : List FunctionParameter)
    (ins : List GoType) (outputType : TfType) (args : List DynamicValue)
    (goArgs : List GoValue) (w : String)
    (h : decodeArgs lib parameters ins args = .ok goArgs)
    (hc : reflectCall fn goArgs = .panic w) :
    adaptedImpl lib fn parameters ins outputType args = .panic w := by
  unfold adaptedImpl
  rw [h]
  simp only [hc]

theorem adaptedImpl_no_output (lib : Lib) (fn : Export) (parameters : List FunctionParameter)
    (ins : List GoType) (outputType : TfType) (args : List DynamicValue)
    (goArgs : List GoValue)
    (h : decodeArgs lib parameters ins args = .ok goArgs)
    (hc : reflectCall fn goArgs = .done []) :
    adaptedImpl lib fn parameters ins outputType args = .panic "index out of range" := by
  unfold adaptedImpl
  rw [h]
  simp only [hc]

theorem reflectCall_fixed (fn : Export) (ins outs : List GoType) (goArgs : List GoValue)
    (hfn : fn.Typ = .func ins outs false) :
    reflectCall fn goArgs =
      if argsAssignable ins goArgs then fn.Call goArgs
      else .panic "reflect: Call with mismatched arguments" := by
  unfold reflectCall
  rw [hfn]

/-! ## Lemmas on the outcome of the adapter -/

mutual
theorem validType_no_panic : ∀ (t : GoType), validType t = true →
    ∀ w, GoTypeToTFType t ≠ .panic w
  | .string, _, w => by rw [GoTypeToTFType]; exact fun h => by cases h
  | .bool, _, w => by rw [GoTypeToTFType]; exact fun h => by cases h
  | .int, _, w => by rw [GoTypeToTFType]; exact fun h => by cases h
  | .float64, _, w => by rw [GoTypeToTFType]; exact fun h => by cases h
  | .defined _ u, _, w => by cases u <;> (rw [GoTypeToTFType]; exact fun h => by cases h)
  | .scalar _, _, w => by rw [GoTypeToTFType]; exact fun h => by cases h
  | .array _ _, _, w => by rw [GoTypeToTFType]; exact fun h => by cases h
  | .chan _, _, w => by rw [GoTypeToTFType]; exact fun h => by cases h
  | .error, _, w => by rw [GoTypeToTFType]; exact fun h => by cases h
  | .func _ _ _, _, w => by rw [GoTypeToTFType]; exact fun h => by cases h
  | .iface methods, _, w => by
      rw [GoTypeToTFType]
      split <;> exact fun h => by cases h
  | .ptr elem, h, w => by
      rw [validType] at h
      rw [GoTypeToTFType]
      exact validType_no_panic elem h w
  | .slice elem, h, w => by
      rw [validType] at h
      have := validType_no_panic elem h
      rw [GoTypeToTFType]
      cases he : GoTypeToTFType elem with
      | ok t => exact fun h => by cases h
      | error e => exact fun h => by cases h
      | panic v => exact absurd he (this v)
  | .map key elem, h, w => by
      rw [validType] at h
      have := validType_no_panic elem h
      rw [GoTypeToTFType]
      split
      · exact fun h => by cases h
      · cases he : GoTypeToTFType elem with
        | ok t => exact fun h => by cases h
        | error e => exact fun h => by cases h
        | panic v => exact absurd he (this v)
  | .struct fields, h, w => by
      rw [validType] at h
      have := validFields_no_panic fields h []
      rw [GoTypeToTFType]
      cases he : structAttributeTypes fields [] with
      | ok t => exact fun h => by cases h
      | error e => exact fun h => by cases h
      | panic v => exact absurd he (this v)
theorem validFields_no_panic : ∀ (fields : List (Field GoType)), validFields fields = true →
    ∀ acc w, structAttributeTypes fields acc ≠ .panic w
  | [], _, acc, w => by rw [structAttributeTypes]; exact fun h => by cases h
  | field :: rest, h, acc, w => by
      rw [validFields, Bool.and_eq_true, Bool.and_eq_true, decide_eq_true_eq] at h
      have h1 := validType_no_panic field.Typ h.1.2
      rw [structAttributeTypes]
      cases he : GoTypeToTFType field.Typ with
      | error e => exact fun h => by cases h
      | panic v => exact absurd he (h1 v)
      | ok ft =>
        obtain ⟨name, hn⟩ := getTfObjectGoFieldName_ok field (by simp [h.1.1])
        simp only [hn]
        exact validFields_no_panic rest h.2 _ w
end

theorem adaptParameters_no_panic (ins : List GoType) (h : ∀ t ∈ ins, validType t = true)
    (i : Nat) (w : String) : adaptParameters i ins ≠ .panic w := by
  induction ins generalizing i w with
  | nil => rw [adaptParameters]; exact fun h => by cases h
  | cons t rest ih =>
    have h1 := validType_no_panic t (h t (List.mem_cons_self _ _))
    have h2 := fun v => ih (fun t ht => h t (List.mem_cons_of_mem _ ht)) (i + 1) v
    rw [adaptParameters, GoTypeToTFFunctionParam]
    cases he : GoTypeToTFType t with
    | error e => exact fun h => by cases h
    | panic v => exact absurd he (h1 v)
    | ok ft =>
      dsimp only
      cases hr : adaptParameters (i + 1) rest with
      | ok ps => exact fun h => by cases h
      | error e => exact fun h => by cases h
      | panic v => exact absurd hr (h2 v)

theorem kind_func (t : GoType) (h : t.Kind = Kind.Func) : ∃ ins outs v, t = .func ins outs v := by
  cases t with
  | func ins outs v => exact ⟨ins, outs, v, rfl⟩
  | scalar s => cases s <;> cases h
  | defined n u => cases u <;> cases h
  | _ => cases h

/-- On a function symbol with a valid signature the adapter returns, with an entry and
no diagnostic or with no entry and a diagnostic. -/
theorem adapt_outcome (lib : Lib) (fn : Export) (hk : fn.Typ.Kind = Kind.Func)
    (hv : validSignature fn.Typ = true) :
    (∃ entry, GoFunctionToTFFunction lib fn = .done (some entry, [])) ∨ adaptFails lib fn := by
  obtain ⟨ins, outs, v, hfn⟩ := kind_func fn.Typ hk
  rw [hfn, validSignature, Bool.and_eq_true, List.all_eq_true, List.all_eq_true] at hv
  unfold adaptFails GoFunctionToTFFunction
  rw [hfn]
  dsimp only
  cases hp : adaptParameters 0 ins with
  | panic w => exact absurd hp (adaptParameters_no_panic ins hv.1 0 w)
  | error e => exact Or.inr ⟨_, by simp, rfl⟩
  | ok parameters =>
    cases outs with
    | nil => exact Or.inr ⟨_, by simp, rfl⟩
    | cons first more =>
      dsimp only
      split
      · exact Or.inr ⟨_, by simp, rfl⟩
      · split
        · exact Or.inr ⟨_, by simp, rfl⟩
        · cases ho : GoTypeToTFType first with
          | panic w =>
            exact absurd ho (validType_no_panic first (hv.2 first (List.mem_cons_self _ _)) w)
          | error e => exact Or.inr ⟨_, by simp, rfl⟩
          | ok outputType => exact Or.inl ⟨_, rfl⟩

theorem adaptExports_cons_skip (lib : Lib) (name : GoString) (symbol : Export)
    (rest : List (GoString × Export)) (functions : GoMap Function)
    (hk : symbol.Typ.Kind ≠ Kind.Func) :
    adaptExports lib ((name, symbol) :: rest) functions = adaptExports lib rest functions := by
  rw [adaptExports, if_pos hk]

theorem adaptExports_cons_ok (lib : Lib) (name : GoString) (symbol : Export)
    (rest : List (GoString × Export)) (functions : GoMap Function) (entry : Function)
    (hk : symbol.Typ.Kind = Kind.Func)
    (h : GoFunctionToTFFunction lib symbol = .done (some entry, [])) :
    adaptExports lib ((name, symbol) :: rest) functions =
      adaptExports lib rest (functions.insert (GoNameToTFName lib name) entry) := by
  rw [adaptExports, if_neg (by simp [hk]), h]
  rfl

theorem adaptExports_cons_fail (lib : Lib) (name : GoString) (symbol : Export)
    (rest : List (GoString × Export)) (functions : GoMap Function) (diags : List Diagnostic)
    (hk : symbol.Typ.Kind = Kind.Func) (hd : diags ≠ [])
    (h : GoFunctionToTFFunction lib symbol = .done (none, diags)) :
    adaptExports lib ((name, symbol) :: rest) functions = .done (none, diags) := by
  rw [adaptExports, if_neg (by simp [hk]), h]
  dsimp only
  rw [if_pos (List.length_pos.2 hd)]

/-! ## Lemmas on the configure pipeline -/

theorem adaptExports_fail (lib : Lib) (symbols : List (GoString × Export))
    (functions : GoMap Function)
    (hv : ∀ s ∈ symbols, validSignature s.2.Typ = true)
    (hf : ∃ s ∈ symbols, s.2.Typ.Kind = Kind.Func ∧ adaptFails lib s.2) :
    ∃ s ∈ symbols, s.2.Typ.Kind = Kind.Func ∧ ∃ diags, diags ≠ [] ∧
      GoFunctionToTFFunction lib s.2 = .done (none, diags) ∧
      adaptExports lib symbols functions = .done (none, diags) := by
  induction symbols generalizing functions with
  | nil =>
    obtain ⟨s, hs, _⟩ := hf
    cases hs
  | cons s rest ih =>
    obtain ⟨name, symbol⟩ := s
    have hrest : (∃ s ∈ rest, s.2.Typ.Kind = Kind.Func ∧ adaptFails lib s.2) →
        ∀ functions, ∃ s ∈ (name, symbol) :: rest, s.2.Typ.Kind = Kind.Func ∧ ∃ diags,
          diags ≠ [] ∧ GoFunctionToTFFunction lib s.2 = .done (none, diags) ∧
          adaptExports lib rest functions = .done (none, diags) := by
      intro hf' functions
      obtain ⟨s, hs, hk, diags, hd, hg, ha⟩ :=
        ih functions (fun s hs => hv s (List.mem_cons_of_mem _ hs)) hf'
      exact ⟨s, List.mem_cons_of_mem _ hs, hk, diags, hd, hg, ha⟩
    by_cases hk : symbol.Typ.Kind = Kind.Func
    · rcases adapt_outcome lib symbol hk (hv _ (List.mem_cons_self _ _)) with ⟨entry, he⟩ | hfail
      · rw [adaptExports_cons_ok lib name symbol rest functions entry hk he]
        apply hrest
        obtain ⟨s, hs, hsk, hsf⟩ := hf
        rcases List.mem_cons.1 hs with rfl | hs
        · obtain ⟨diags, hd, hg⟩ := hsf
          rw [he] at hg
          cases hg
        · exact ⟨s, hs, hsk, hsf⟩
      · obtain ⟨diags, hd, hg⟩ := hfail
        exact ⟨(name, symbol), List.mem_cons_self _ _, hk, diags, hd, hg,
          adaptExports_cons_fail lib name symbol rest functions diags hk hd hg⟩
    · rw [adaptExports_cons_skip lib name symbol rest functions hk]
      apply hrest
      obtain ⟨s, hs, hsk, hsf⟩ := hf
      rcases List.mem_cons.1 hs with rfl | hs
      · exact absurd hsk hk
      · exact ⟨s, hs, hsk, hsf⟩

theorem adaptExports_ok (lib : Lib) (symbols : List (GoString × Export))
    (functions : GoMap Function)
    (hs : ∀ s ∈ symbols, s.2.Typ.Kind = Kind.Func →
      ∃ entry, GoFunctionToTFFunction lib s.2 = .done (some entry, [])) :
    ∃ catalog, adaptExports lib symbols functions = .done (some catalog, []) ∧
      (∀ key, key ∈ functions → key ∈ catalog) ∧
      (∀ s ∈ symbols, s.2.Typ.Kind = Kind.Func → GoNameToTFName lib s.1 ∈ catalog) ∧
      (∀ key entry, catalog.lookup key = some entry →
        functions.lookup key = some entry ∨
        ∃ s ∈ symbols, s.2.Typ.Kind = Kind.Func ∧ key = GoNameToTFName lib s.1 ∧
          GoFunctionToTFFunction lib s.2 = .done (some entry, [])) := by
  induction symbols generalizing functions with
  | nil =>
    exact ⟨functions, rfl, fun _ h => h, fun s hs => absurd hs (List.not_mem_nil s),
      fun _ _ h => Or.inl h⟩
  | cons s rest ih =>
    obtain ⟨name, symbol⟩ := s
    have hs' := fun s h => hs s (List.mem_cons_of_mem _ h)
    by_cases hk : symbol.Typ.Kind = Kind.Func
    · obtain ⟨entry, he⟩ := hs _ (List.mem_cons_self _ _) hk
      obtain ⟨catalog, hc, hkeep, hall, honly⟩ :=
        ih (functions.insert (GoNameToTFName lib name) entry) hs'
      refine ⟨catalog, ?_, ?_, ?_, ?_⟩
      · rw [adaptExports_cons_ok lib name symbol rest functions entry hk he, hc]
      · intro key hkey
        exact hkeep key ((AList.mem_insert _).2 (Or.inr hkey))
      · intro s hmem hsk
        rcases List.mem_cons.1 hmem with rfl | hmem
        · exact hkeep _ ((AList.mem_insert _).2 (Or.inl rfl))
        · exact hall s hmem hsk
      · intro key e hl
        rcases honly key e hl with hl | ⟨s, hmem, hsk, hkey, hg⟩
        · by_cases hkn : key = GoNameToTFName lib name
          · subst hkn
            rw [AList.lookup_insert] at hl
            cases hl
            exact Or.inr ⟨(name, symbol), List.mem_cons_self _ _, hk, rfl, he⟩
          · rw [AList.lookup_insert_ne hkn] at hl
            exact Or.inl hl
        · exact Or.inr ⟨s, List.mem_cons_of_mem _ hmem, hsk, hkey, hg⟩
    · obtain ⟨catalog, hc, hkeep, hall, honly⟩ := ih functions hs'
      refine ⟨catalog, ?_, hkeep, ?_, ?_⟩
      · rw [adaptExports_cons_skip lib name symbol rest functions hk, hc]
      · intro s hmem hsk
        rcases List.mem_cons.1 hmem with rfl | hmem
        · exact absurd hsk hk
        · exact hall s hmem hsk
      · intro key e hl
        rcases honly key e hl with hl | ⟨s, hmem, hsk, hkey, hg⟩
        · exact Or.inl hl
        · exact Or.inr ⟨s, List.mem_cons_of_mem _ hmem, hsk, hkey, hg⟩

theorem configure_eq_evaluateSource (lib : Lib) (config : DynamicValue) (res : TfValue)
    (cfg : List (GoString × TfValue)) (code : GoString)
    (hres : lib.Unmarshal config (.map .string) = .ok res) (hcfg : asValueMap res = .ok cfg)
    (hcode : asString ((mapGet cfg (str "go")).getD .untypedNull) = .ok code) :
    Configure lib config = evaluateSource lib code := by
  unfold Configure evaluateSource
  simp only [hres, hcfg, hcode]

theorem configure_invalid_entry (lib : Lib) (config : DynamicValue) (res : TfValue)
    (cfg : List (GoString × TfValue)) (err : ErrText)
    (hres : lib.Unmarshal config (.map .string) = .ok res) (hcfg : asValueMap res = .ok cfg)
    (hcode : asString ((mapGet cfg (str "go")).getD .untypedNull) = .error err) :
    Configure lib config = .done (none, invalidPayload err) := by
  unfold Configure
  rw [hres]
  dsimp only
  rw [hcfg]
  dsimp only
  rw [hcode]

/-! ## Lemmas on truncation -/

theorem truncate_intCast (i : Int) : truncate (i : ℚ) = i := by
  unfold truncate
  split <;> simp

theorem truncate_div (m : Int) (k : Nat) :
    truncate ((m : ℚ) / ((2 ^ k : Nat) : ℚ)) = Int.tdiv m (2 ^ k) := by
  have hd : (0 : ℚ) < ((2 ^ k : Nat) : ℚ) := by positivity
  unfold truncate
  by_cases hm : 0 ≤ m
  · have hq : (0 : ℚ) ≤ (m : ℚ) / ((2 ^ k : Nat) : ℚ) :=
      div_nonneg (by exact_mod_cast hm) hd.le
    rw [if_pos hq, Rat.floor_intCast_div_natCast, Int.tdiv_eq_ediv hm (by positivity)]
    push_cast
    rfl
  · have hm' : m < 0 := not_le.1 hm
    have hq : ¬ (0 : ℚ) ≤ (m : ℚ) / ((2 ^ k : Nat) : ℚ) := by
      rw [not_le]
      exact div_neg_of_neg_of_pos (by exact_mod_cast hm') hd
    rw [if_neg hq]
    have h1 : (m : ℚ) / ((2 ^ k : Nat) : ℚ) = -(((-m : Int) : ℚ) / ((2 ^ k : Nat) : ℚ)) := by
      push_cast
      ring
    rw [h1, Int.ceil_neg, Rat.floor_intCast_div_natCast,
      ← Int.tdiv_eq_ediv (by omega) (by positivity), Int.neg_tdiv, neg_neg]
    push_cast
    rfl

theorem truncate_finValue (m e : Int) :
    truncate (finValue m e) =
      if 0 ≤ e then m * 2 ^ e.toNat else Int.tdiv m (2 ^ (-e).toNat) := by
  unfold finValue
  by_cases he : 0 ≤ e
  · rw [if_pos he]
    obtain ⟨k, rfl⟩ := Int.eq_ofNat_of_zero_le he
    rw [zpow_natCast, Int.toNat_natCast]
    have : (m : ℚ) * 2 ^ k = ((m * 2 ^ k : Int) : ℚ) := by push_cast; rfl
    rw [this, truncate_intCast]
  · rw [if_neg he]
    obtain ⟨k, hk⟩ : ∃ k : Nat, e = -(k : Int) := ⟨(-e).toNat, by omega⟩
    subst hk
    rw [neg_neg, Int.toNat_natCast, zpow_neg, zpow_natCast]
    have : (m : ℚ) * (2 ^ k)⁻¹ = (m : ℚ) / ((2 ^ k : Nat) : ℚ) := by
      push_cast
      rfl
    rw [this, truncate_div]

/-! ## Lemmas on decoding without a panic -/

theorem decodable_not_float : ∀ (t : GoType), decodableType t = true → decodesToOtherType t = false
  | .ptr elem, h => by
      rw [decodableType] at h
      rw [decodesToOtherType]
      exact decodable_not_float elem h
  | .float64, h => by simp [decodableType] at h
  | .string, _ => rfl
  | .bool, _ => rfl
  | .int, _ => rfl
  | .scalar _, _ => rfl
  | .slice _, _ => rfl
  | .array _ _, _ => rfl
  | .chan _, _ => rfl
  | .map _ _, _ => rfl
  | .struct _, _ => rfl
  | .iface _, _ => rfl
  | .error, _ => rfl
  | .func _ _ _, _ => rfl

theorem TfToGoValue_null (t : GoType) (v : TfValue) (h : v.IsNull = true) :
    TfToGoValue t v = .ok .nil := by
  cases t with
  | defined n u => cases u <;> rw [TfToGoValue, h] <;> rfl
  | _ => rw [TfToGoValue, h]; rfl

theorem assignable_of_typeOf (t : GoType) (x : GoValue) (h : typeOf x = some t) :
    assignable t x = true := by
  unfold assignable
  rw [h]
  simp [goTypeEq_refl]

/-- A decoded value of a value that is not null is stored without a panic. -/
theorem assignable_decoded (t : GoType) (v : TfValue) (x : GoValue)
    (ht : decodableType t = true) (hn : v.IsNull = false) (h : TfToGoValue t v = .ok x) :
    x ≠ .nil ∧ typeOf x = some t ∧ assignable t x = true := by
  obtain ⟨⟨u, hu⟩, hx⟩ := typeOf_decoded t v x hn h
  have := hx (decodable_not_float t ht)
  refine ⟨?_, this, assignable_of_typeOf t x this⟩
  rintro rfl
  cases hu

theorem decodeElems_no_panic (elem : GoType) (he : decodableType elem = true)
    (items : List TfValue)
    (ih : ∀ item ∈ items, ∀ w, TfToGoValue elem item ≠ .panic w)
    (hn : ∀ item ∈ items, item.IsNull = false) (w : String) :
    decodeElems (TfToGoValue elem) elem items ≠ .panic w := by
  induction items with
  | nil => rw [decodeElems]; exact fun h => by cases h
  | cons item rest ihr =>
    have hrest := ihr (fun i hi => ih i (List.mem_cons_of_mem _ hi))
      (fun i hi => hn i (List.mem_cons_of_mem _ hi))
    rw [decodeElems]
    cases hd : TfToGoValue elem item with
    | error e => exact fun h => by cases h
    | panic p => exact absurd hd (ih item (List.mem_cons_self _ _) p)
    | ok x =>
      have ha := (assignable_decoded elem item x he (hn item (List.mem_cons_self _ _)) hd).2.2
      simp only [ha, if_true]
      cases hr : decodeElems (TfToGoValue elem) elem rest with
      | ok xs => exact fun h => by cases h
      | error e => exact fun h => by cases h
      | panic p =>
        intro h
        cases h
        exact hrest hr

theorem decodeEntries_no_panic (elem : GoType) (he : decodableType elem = true)
    (entries : List (GoString × TfValue))
    (ih : ∀ entry ∈ entries, ∀ w, TfToGoValue elem entry.2 ≠ .panic w)
    (out : List (GoString × GoValue)) (w : String) :
    decodeEntries (TfToGoValue elem) .string elem entries out ≠ .panic w := by
  induction entries generalizing out with
  | nil => rw [decodeEntries]; exact fun h => by cases h
  | cons entry rest ihr =>
    obtain ⟨key, tfElement⟩ := entry
    have hrest := ihr (fun i hi => ih i (List.mem_cons_of_mem _ hi))
    rw [decodeEntries]
    cases hd : TfToGoValue elem tfElement with
    | error e => exact fun h => by cases h
    | panic p => exact absurd hd (ih (key, tfElement) (List.mem_cons_self _ _) p)
    | ok x =>
      have hk : assignable .string (.string key) = true := rfl
      simp only [hk, if_true]
      by_cases hnull : tfElement.IsNull = true
      · rw [TfToGoValue_null elem tfElement hnull] at hd
        cases hd
        exact hrest _
      · have ha := assignable_decoded elem tfElement x he (by simpa using hnull) hd
        cases x with
        | nil => exact absurd rfl ha.1
        | _ =>
          simp only [ha.2.2, if_true]
          exact hrest _

mutual
theorem decode_no_panic : ∀ (t : GoType) (v : TfValue), decodableType t = true →
    storableValue t v = true → ∀ w, TfToGoValue t v ≠ .panic w
  | .string, v, _, _, w => by
      rw [TfToGoValue]
      split
      · exact fun h => by cases h
      · cases v <;> exact fun h => by cases h
  | .bool, v, _, _, w => by
      rw [TfToGoValue]
      split
      · exact fun h => by cases h
      · cases v <;> exact fun h => by cases h
  | .int, v, _, _, w => by
      rw [TfToGoValue]
      split
      · exact fun h => by cases h
      · cases v <;> exact fun h => by cases h
  | .ptr elem, v, ht, hv, w => by
      rw [decodableType] at ht
      by_cases hn : v.IsNull = true
      · rw [TfToGoValue_null _ v hn]
        exact fun h => by cases h
      · have hn' : v.IsNull = false := by simpa using hn
        rw [storableValue, hn', Bool.false_or] at hv
        have ih := decode_no_panic elem v ht hv
        rw [TfToGoValue_ptr, hn']
        simp only [Bool.false_eq_true, if_false]
        cases hd : TfToGoValue elem v with
        | error e => exact fun h => by cases h
        | panic p => exact absurd hd (ih p)
        | ok x =>
          have ha := assignable_decoded elem v x ht hn' hd
          simp only [ha.2.1]
          exact fun h => by cases h
  | .slice elem, v, ht, hv, w => by
      rw [decodableType] at ht
      rw [TfToGoValue]
      split
      · exact fun h => by cases h
      · cases v with
        | list et items =>
          rw [storableValue] at hv
          simp only [List.all_eq_true, Bool.and_eq_true, Bool.not_eq_true',
            ] at hv
          have := decodeElems_no_panic elem ht items
            (fun item hi => decode_no_panic elem item ht (hv item hi).2)
            (fun item hi => (hv item hi).1)
          simp only [asValues]
          cases hd : decodeElems (TfToGoValue elem) elem items with
          | ok xs => exact fun h => by cases h
          | error e => exact fun h => by cases h
          | panic p => exact absurd hd (this p)
        | _ => exact fun h => by cases h
  | .map key elem, v, ht, hv, w => by
      rw [decodableType, Bool.and_eq_true] at ht
      have hkey := (goTypeEq_iff key .string).1 ht.1
      subst hkey
      rw [TfToGoValue]
      split
      · exact fun h => by cases h
      · cases v with
        | map et entries =>
          rw [storableValue] at hv
          simp only [List.all_eq_true] at hv
          have := decodeEntries_no_panic elem ht.2 entries
            (fun entry hi => decode_no_panic elem entry.2 ht.2 (hv entry hi)) []
          simp only [asValueMap]
          cases hd : decodeEntries (TfToGoValue elem) .string elem entries [] with
          | ok xs => exact fun h => by cases h
          | error e => exact fun h => by cases h
          | panic p => exact absurd hd (this p)
        | object et entries =>
          rw [storableValue] at hv
          simp only [List.all_eq_true] at hv
          have := decodeEntries_no_panic elem ht.2 entries
            (fun entry hi => decode_no_panic elem entry.2 ht.2 (hv entry hi)) []
          simp only [asValueMap]
          cases hd : decodeEntries (TfToGoValue elem) .string elem entries [] with
          | ok xs => exact fun h => by cases h
          | error e => exact fun h => by cases h
          | panic p => exact absurd hd (this p)
        | _ => exact fun h => by cases h
  | .struct fields, v, ht, hv, w => by
      rw [decodableType] at ht
      by_cases hn : v.IsNull = true
      · rw [TfToGoValue_null _ v hn]
        exact fun h => by cases h
      · rw [TfToGoValue]
        simp only [hn, if_false]
        cases v with
        | map et entries =>
          rw [storableValue] at hv
          have := decodeFields_no_panic fields entries ht hv
          simp only [asValueMap]
          cases hd : decodeFields fields entries with
          | ok xs => exact fun h => by cases h
          | error e => exact fun h => by cases h
          | panic p => exact absurd hd (this p)
        | object et entries =>
          rw [storableValue] at hv
          have := decodeFields_no_panic fields entries ht hv
          simp only [asValueMap]
          cases hd : decodeFields fields entries with
          | ok xs => exact fun h => by cases h
          | error e => exact fun h => by cases h
          | panic p => exact absurd hd (this p)
        | null t => exact absurd rfl hn
        | untypedNull => exact absurd rfl hn
        | _ => exact fun h => by cases h
  | .float64, _, ht, _, _ => by simp [decodableType] at ht
  | .scalar _, _, ht, _, _ => by simp [decodableType] at ht
  | .array _ _, _, ht, _, _ => by simp [decodableType] at ht
  | .chan _, _, ht, _, _ => by simp [decodableType] at ht
  | .iface _, _, ht, _, _ => by simp [decodableType] at ht
  | .error, _, ht, _, _ => by simp [decodableType] at ht
  | .func _ _ _, _, ht, _, _ => by simp [decodableType] at ht
theorem decodeFields_no_panic : ∀ (fields : List (Field GoType))
    (entries : List (GoString × TfValue)), decodableFields fields = true →
    storableFields fields entries = true → ∀ w, decodeFields fields entries ≠ .panic w
  | [], _, _, _, w => by rw [decodeFields]; exact fun h => by cases h
  | field :: rest, entries, ht, hv, w => by
      rw [decodableFields] at ht
      simp only [Bool.and_eq_true] at ht
      obtain ⟨⟨⟨hex, hname⟩, hft⟩, hrest⟩ := ht
      obtain ⟨name, hn⟩ := getTfObjectGoFieldName_ok field hname
      rw [storableFields, hn, Bool.and_eq_true] at hv
      dsimp only at hv
      have ihr := decodeFields_no_panic rest entries hrest hv.2
      rw [decodeFields, hn]
      dsimp only
      cases hg : mapGet entries name with
      | none => exact fun h => by cases h
      | some tfElement =>
        have hv1 := hv.1
        rw [hg] at hv1
        simp only [Bool.and_eq_true, Bool.not_eq_true'] at hv1
        have ih := decode_no_panic field.Typ tfElement hft hv1.2
        dsimp only
        cases hd : TfToGoValue field.Typ tfElement with
        | error e => exact fun h => by cases h
        | panic p => exact absurd hd (ih p)
        | ok x =>
          have ha := (assignable_decoded field.Typ tfElement x hft hv1.1 hd).2.2
          simp only [hex, ha, Bool.and_self, if_true]
          cases hr : decodeFields rest entries with
          | ok xs => exact fun h => by cases h
          | error e => exact fun h => by cases h
          | panic p => exact absurd hr (ihr p)
end

theorem argsAssignable_append (pre : List GoType) (xs : List GoValue) (ts : List GoType)
    (vs : List GoValue) (h : argsAssignable pre xs = true) :
    argsAssignable (pre ++ ts) (xs ++ vs) = argsAssignable ts vs := by
  induction pre generalizing xs with
  | nil =>
    cases xs with
    | nil => rfl
    | cons x xs => simp [argsAssignable] at h
  | cons t pre ih =>
    cases xs with
    | nil => simp [argsAssignable] at h
    | cons x xs =>
      simp only [argsAssignable, Bool.and_eq_true] at h
      simp only [List.cons_append, argsAssignable, h.1, Bool.true_and]
      exact ih xs h.2

theorem argsAssignable_length (ts : List GoType) (xs : List GoValue)
    (h : argsAssignable ts xs = true) : xs.length = ts.length := by
  induction ts generalizing xs with
  | nil =>
    cases xs with
    | nil => rfl
    | cons x xs => simp [argsAssignable] at h
  | cons t ts ih =>
    cases xs with
    | nil => simp [argsAssignable] at h
    | cons x xs =>
      simp only [argsAssignable, Bool.and_eq_true] at h
      simp [ih xs h.2]

theorem slice_ne_elem (elem : GoType) : GoType.slice elem ≠ elem := by
  intro h
  have := congrArg sizeOf h
  simp at this

/-! ## Lemmas on the reference mapping -/

theorem utf8EncodeRune_ne (r : Nat) (tail : GoString) :
    utf8EncodeRune r ++ tail ≠ 0xEF :: 0xBF :: 0xBD :: 0x89 :: tail := by
  intro h'
  unfold utf8EncodeRune at h'
  split at h'
  · have := congrArg List.length h'
    simp at this
  · split at h'
    · have := congrArg List.length h'
      simp at this
    · split at h'
      · have := congrArg List.length h'
        simp at this
      · simp only [List.cons_append, List.cons.injEq] at h'
        omega

/-! ## Lemmas on declared types -/

theorem node_never_mapped : ∀ depth : Nat,
    GoTypeToTFTypeDeclared nodeDecls depth (.named (str "Node")) = none
  | 0 => rfl
  | 1 => rfl
  | 2 => rfl
  | depth + 3 => by
      have ih := node_never_mapped depth
      have h1 : GoTypeToTFTypeDeclared nodeDecls (depth + 1) (.ptr (.named (str "Node"))) = none := by
        rw [GoTypeToTFTypeDeclared]
        exact ih
      have h2 : GoTypeToTFTypeDeclared nodeDecls (depth + 2)
          (.struct [⟨str "Next", [], .ptr (.named (str "Node")), true⟩]) = none := by
        rw [GoTypeToTFTypeDeclared]
        simp only [declaredAttributeTypes, h1]
      rw [GoTypeToTFTypeDeclared]
      exact h2

theorem tree_never_mapped : ∀ depth : Nat,
    GoTypeToTFTypeDeclared treeDecls depth (.named (str "Tree")) = none
  | 0 => rfl
  | 1 => rfl
  | 2 => rfl
  | depth + 3 => by
      have ih := tree_never_mapped depth
      have h1 : GoTypeToTFTypeDeclared treeDecls (depth + 1) (.slice (.named (str "Tree"))) = none := by
        rw [GoTypeToTFTypeDeclared]
        simp only [ih]
      have h2 : GoTypeToTFTypeDeclared treeDecls (depth + 2)
          (.struct [⟨str "Kids", [], .slice (.named (str "Tree")), true⟩]) = none := by
        rw [GoTypeToTFTypeDeclared]
        simp only [declaredAttributeTypes, h1]
      rw [GoTypeToTFTypeDeclared]
      exact h2

theorem getTfObjectGoFieldName_typ (name tag : GoString) (t u : GoType) (exported : Bool) :
    getTfObjectGoFieldName ⟨name, tag, t, exported⟩ =
      getTfObjectGoFieldName ⟨name, tag, u, exported⟩ := rfl

mutual
theorem declared_agrees (decls : List (GoString × TypeExpr)) : ∀ (e : TypeExpr) (t : GoType),
    e.toGoType = some t →
    ∃ n, ∀ d, n ≤ d → GoTypeToTFTypeDeclared decls d e = some (GoTypeToTFType t)
  | .closed u, t, h => by
      rw [TypeExpr.toGoType] at h
      cases h
      refine ⟨1, fun d hd => ?_⟩
      obtain ⟨k, rfl⟩ : ∃ k, d = k + 1 := ⟨d - 1, by omega⟩
      rw [GoTypeToTFTypeDeclared]
  | .named _, t, h => by
      rw [TypeExpr.toGoType] at h
      cases h
  | .ptr elem, t, h => by
      rw [TypeExpr.toGoType] at h
      cases he : elem.toGoType with
      | none => rw [he] at h; cases h
      | some u =>
        rw [he] at h
        cases h
        obtain ⟨n, hn⟩ := declared_agrees decls elem u he
        refine ⟨n + 1, fun d hd => ?_⟩
        obtain ⟨k, rfl⟩ : ∃ k, d = k + 1 := ⟨d - 1, by omega⟩
        rw [GoTypeToTFTypeDeclared, GoTypeToTFType]
        exact hn k (by omega)
  | .slice elem, t, h => by
      rw [TypeExpr.toGoType] at h
      cases he : elem.toGoType with
      | none => rw [he] at h; cases h
      | some u =>
        rw [he] at h
        cases h
        obtain ⟨n, hn⟩ := declared_agrees decls elem u he
        refine ⟨n + 1, fun d hd => ?_⟩
        obtain ⟨k, rfl⟩ : ∃ k, d = k + 1 := ⟨d - 1, by omega⟩
        rw [GoTypeToTFTypeDeclared, GoTypeToTFType]
        simp only [hn k (by omega)]
        cases GoTypeToTFType u <;> rfl
  | .map key elem, t, h => by
      rw [TypeExpr.toGoType] at h
      cases he : elem.toGoType with
      | none => rw [he] at h; cases h
      | some u =>
        rw [he] at h
        cases h
        obtain ⟨n, hn⟩ := declared_agrees decls elem u he
        refine ⟨n + 1, fun d hd => ?_⟩
        obtain ⟨k, rfl⟩ : ∃ k, d = k + 1 := ⟨d - 1, by omega⟩
        rw [GoTypeToTFTypeDeclared, GoTypeToTFType]
        simp only [hn k (by omega)]
        split
        · rfl
        · cases GoTypeToTFType u <;> rfl
  | .struct fields, t, h => by
      rw [TypeExpr.toGoType] at h
      cases he : TypeExpr.toGoFields fields with
      | none => rw [he] at h; cases h
      | some gfs =>
        rw [he] at h
        cases h
        obtain ⟨n, hn⟩ := declaredFields_agree decls fields gfs he
        refine ⟨n + 1, fun d hd => ?_⟩
        obtain ⟨k, rfl⟩ : ∃ k, d = k + 1 := ⟨d - 1, by omega⟩
        rw [GoTypeToTFTypeDeclared, GoTypeToTFType]
        simp only [hn k (by omega) []]
        cases structAttributeTypes gfs [] <;> rfl
theorem declaredFields_agree (decls : List (GoString × TypeExpr)) :
    ∀ (fields : List (Field TypeExpr)) (gfs : List (Field GoType)),
    TypeExpr.toGoFields fields = some gfs →
    ∃ n, ∀ d, n ≤ d → ∀ acc,
      declaredAttributeTypes (GoTypeToTFTypeDeclared decls d) fields acc =
        some (structAttributeTypes gfs acc)
  | [], gfs, h => by
      rw [TypeExpr.toGoFields] at h
      cases h
      exact ⟨0, fun d _ acc => rfl⟩
  | field :: rest, gfs, h => by
      rw [TypeExpr.toGoFields] at h
      cases h1 : field.Typ.toGoType with
      | none => rw [h1] at h; cases h
      | some u =>
        cases h2 : TypeExpr.toGoFields rest with
        | none => rw [h1, h2] at h; cases h
        | some gr =>
          rw [h1, h2] at h
          cases h
          obtain ⟨n1, hn1⟩ := declared_agrees decls field.Typ u h1
          obtain ⟨n2, hn2⟩ := declaredFields_agree decls rest gr h2
          refine ⟨max n1 n2, fun d hd acc => ?_⟩
          rw [declaredAttributeTypes, structAttributeTypes,
            hn1 d (le_trans (le_max_left _ _) hd)]
          cases GoTypeToTFType u with
          | error e => rfl
          | panic w => rfl
          | ok ft =>
            dsimp only
            rw [getTfObjectGoFieldName_typ field.Name field.TfTag .string u field.Exported]
            cases getTfObjectGoFieldName ⟨field.Name, field.TfTag, u, field.Exported⟩ with
            | error e => rfl
            | panic w => rfl
            | ok name => exact hn2 d (le_trans (le_max_right _ _) hd) _
end

/-! ## The claims -/

/-- Claim C1, refuted as stated: a configure that fails does not leave the catalog
unchanged. After a successful configure with the source `echo`, `GetFunctions` reports
`echo`; a configure whose payload cannot be decoded then returns one diagnostic, and
`GetFunctions` no longer reports `echo`. -/
theorem failed_configure_drops_catalog :
    echoProvider.GetFunctions.lookup (str "echo") =
      some ⟨[⟨false, false, .string⟩], ⟨.string⟩⟩ ∧
    (∃ resp, (echoProvider.ConfigureProvider ⟨⟨[], []⟩⟩).2 = .done resp ∧
      resp.Diagnostics.length = 1) ∧
    (echoProvider.ConfigureProvider ⟨⟨[], []⟩⟩).1.GetFunctions.lookup (str "echo") = none :=
  ⟨rfl, ⟨_, rfl, rfl⟩, rfl⟩

/-- Claim C1, amended: for a provider whose `Configure` is the pipeline of `main`, a
`ConfigureProvider` that returns at least one diagnostic sets the dynamic catalog to nil,
so that `GetFunctions` afterwards reports exactly the descriptors of the static catalog.
This is what it reported before the call, name by name, if and only if every name of the
dynamic catalog from before the call was also in the static catalog with the same
descriptor; in particular it is the result from before the call whenever the dynamic
catalog was nil or empty before it. -/
theorem failed_configure_resets_catalog (lib : Lib) (f : FunctionProvider)
    (req : ConfigureProviderRequest) (resp : ConfigureProviderResponse)
    (hc : f.Configure = Configure lib)
    (hr : (f.ConfigureProvider req).2 = .done resp) (hd : resp.Diagnostics ≠ []) :
    (f.ConfigureProvider req).1.dynamicFunctions = none ∧
    (f.ConfigureProvider req).1.StaticFunctions = f.StaticFunctions ∧
    (∀ name, (f.ConfigureProvider req).1.GetFunctions.lookup name =
      (f.StaticFunctions.lookup name).map (·.Function)) ∧
    (f.dynamicFunctions = none ∨ f.dynamicFunctions = some ∅ →
      (f.ConfigureProvider req).1.GetFunctions = f.GetFunctions) ∧
    ((∀ name, (f.ConfigureProvider req).1.GetFunctions.lookup name =
        f.GetFunctions.lookup name) ↔
      ∀ name fn, f.dynamicCatalog.lookup name = some fn →
        (f.StaticFunctions.lookup name).map (·.Function) = some fn.Function) := by
  unfold FunctionProvider.ConfigureProvider at hr ⊢
  cases hcfg : f.Configure req.Config with
  | panic w => rw [hcfg] at hr; cases hr
  | done r =>
    obtain ⟨funcs, diags⟩ := r
    rw [hcfg] at hr
    simp only [Run.done.injEq] at hr
    subst hr
    have hnone : funcs = none := configure_diags lib req.Config funcs diags (hc ▸ hcfg) hd
    subst hnone
    have hafter : ∀ name,
        ({ f with dynamicFunctions := none } : FunctionProvider).GetFunctions.lookup name =
          (f.StaticFunctions.lookup name).map (·.Function) := by
      intro name
      rw [getFunctions_lookup]
      simp [FunctionProvider.dynamicCatalog]
    refine ⟨rfl, rfl, hafter, ?_, ?_⟩
    · intro h
      rcases h with h | h <;> simp [FunctionProvider.GetFunctions, h]
    · constructor
      · intro h name fn hfn
        have := h name
        rw [hafter, getFunctions_lookup, hfn] at this
        exact this
      · intro h name
        rw [hafter, getFunctions_lookup]
        cases hfn : f.dynamicCatalog.lookup name with
        | none => rfl
        | some fn => exact h name fn hfn

/-- Witness of claim C1, amended: the provider configured with the source `echo`, then
reconfigured with a payload that cannot be decoded. -/
theorem failed_configure_resets_catalog_witness :
    echoProvider.Configure = Configure stubLib ∧
    (echoProvider.ConfigureProvider ⟨⟨[], []⟩⟩).2 =
      .done ⟨invalidPayload (.lib "DynamicValue.Unmarshal" "no payload")⟩ ∧
    (echoProvider.ConfigureProvider ⟨⟨[], []⟩⟩).1.dynamicFunctions = none :=
  ⟨rfl, rfl,
    (failed_configure_resets_catalog stubLib echoProvider ⟨⟨[], []⟩⟩ _ rfl rfl
      (by simp [invalidPayload])).1⟩

/-- Claim C2, refuted as stated: the codec does not round-trip every supported type.
A non-nil `*int` is not encoded (`expected number, got *int`); a `[]float64` is encoded
but its decoding panics, because a number decoded at kind float64 is an `int64`; a
`float64` comes back as an `int64`; a nil `*string` comes back as the nil interface; a
nil `[]string` comes back as an empty slice; a value of the defined type `time.Month`,
of kind int, is not encoded (`expected number, got time.Month`), and a number decoded at
`time.Month` is an `int`; and for the recursive type `type Tree struct { Kids []Tree }`,
built from a slice and a record, the type mapper does not return, whatever the bound on
the depth of its calls, so that there is no host type to encode against. -/
theorem codec_round_trip_fails :
    (GoTypeToTFType (.ptr .int) = .ok .number ∧
      GoToTfValue .number (.ptr .int (.int 5)) =
        .error (.withGoType (str "expected number, got ") (some (.ptr .int)) [])) ∧
    (GoTypeToTFType (.slice .float64) = .ok (.list .number) ∧
      GoToTfValue (.list .number) (.slice .float64 [.float64 (.fin 1 0)]) =
        .ok (.list .number [.number (.fin 1 0)]) ∧
      TfToGoValue (.slice .float64) (.list .number [.number (.fin 1 0)]) =
        .panic "reflect.Set: value is not assignable to the element type") ∧
    (GoTypeToTFType .float64 = .ok .number ∧
      GoToTfValue .number (.float64 (.fin 1 0)) = .ok (.number (.fin 1 0)) ∧
      TfToGoValue .float64 (.number (.fin 1 0)) = .ok (.int64 1)) ∧
    (GoTypeToTFType (.ptr .string) = .ok .string ∧
      GoToTfValue .string (.nilPtr .string) = .ok (.null .string) ∧
      TfToGoValue (.ptr .string) (.null .string) = .ok .nil) ∧
    (GoTypeToTFType (.slice .string) = .ok (.list .string) ∧
      GoToTfValue (.list .string) (.nilSlice .string) = .ok (.list .string []) ∧
      TfToGoValue (.slice .string) (.list .string []) = .ok (.slice .string [])) ∧
    (monthType.Kind = Kind.Int ∧ GoTypeToTFType monthType = .ok .number ∧
      typeOf (.other monthType 3) = some monthType ∧
      GoToTfValue .number (.other monthType 3) =
        .error (.withGoType (str "expected number, got ") (some monthType) []) ∧
      TfToGoValue monthType (.number (.fin 3 0)) = .ok (.int 3)) ∧
    (∀ depth, GoTypeToTFTypeDeclared treeDecls depth (.named (str "Tree")) = none) :=
  ⟨⟨rfl, rfl⟩, ⟨rfl, rfl, rfl⟩, ⟨rfl, rfl, rfl⟩, ⟨rfl, rfl, rfl⟩, ⟨rfl, rfl, rfl⟩,
    ⟨rfl, rfl, rfl, rfl, rfl⟩, tree_never_mapped⟩

/-- Claim C2, amended: for every type `t` built from the predeclared types string, bool
and int by slice, map with keys of type string and record with exported fields of
pairwise distinct attribute names (a type literal over these, so neither a defined type
nor a recursive one), and every value `v` of type `t` without nil slice or nil map, the
type mapper gives a host type, encoding `v` against it succeeds, and decoding the result
at `t` succeeds and yields `v`. -/
theorem codec_round_trip (t : GoType) (v : GoValue) (hp : plainType t = true)
    (hv : plainValue t v = true) :
    ∃ ht w, GoTypeToTFType t = .ok ht ∧ GoToTfValue ht v = .ok w ∧ TfToGoValue t w = .ok v := by
  obtain ⟨ht, hht⟩ := plainType_ok t hp
  obtain ⟨w, hen, hde⟩ := roundTrip_value v t ht hp hv hht
  exact ⟨ht, w, hht, hen, hde⟩

/-- Witness of claim C2, amended: a record with a tagged field, a slice and a map. -/
theorem codec_round_trip_witness :
    plainType personType = true ∧ plainValue personType personValue = true ∧
    ∃ ht w, GoTypeToTFType personType = .ok ht ∧ GoToTfValue ht personValue = .ok w ∧
      TfToGoValue personType w = .ok personValue :=
  ⟨by decide, by decide, codec_round_trip personType personValue (by decide) (by decide)⟩

/-- Claim C3: static beats dynamic on dispatch. When the name is a key of the static
catalog, `CallFunction` yields the outcome of the static entry's implementation on the
arguments of the request (its result and error in the response, with no plain error),
whatever the dynamic catalog holds under that name; the implementation of a dynamic entry
gives the outcome only when the name is not a key of the static catalog. -/
theorem callFunction_static_first (f : FunctionProvider) (req : CallFunctionRequest) :
    (∀ fn, f.StaticFunctions.lookup req.Name = some fn →
      f.CallFunction req = respond (fn.Impl req.Arguments) ∧
      ∀ ret err, fn.Impl req.Arguments = .done (ret, err) →
        f.CallFunction req = .ok { Result := ret, Error := err }) ∧
    (∀ fn, f.StaticFunctions.lookup req.Name = none →
      f.dynamicCatalog.lookup req.Name = some fn →
      f.CallFunction req = respond (fn.Impl req.Arguments)) := by
  constructor
  · intro fn h
    refine ⟨callFunction_of_static f req fn h, fun ret err hi => ?_⟩
    rw [callFunction_of_static f req fn h, hi]
    rfl
  · exact fun fn hs hd => callFunction_of_dynamic f req fn hs hd

/-- Witness of claim C3: the name `f` is in both catalogs, the dynamic entry would
panic, and the call returns what the static entry returns. -/
theorem callFunction_static_first_witness :
    collidingProvider.dynamicCatalog.lookup (str "f") = some panickingFunction ∧
    collidingProvider.CallFunction ⟨str "f", [⟨[1], []⟩]⟩ = .ok ⟨some ⟨[1], []⟩, none⟩ :=
  ⟨rfl, ((callFunction_static_first collidingProvider ⟨str "f", [⟨[1], []⟩]⟩).1
    echoFunction rfl).1⟩

/-- Claim C4, refuted as stated: on a collision `GetFunctions` does not report the
static descriptor. The provider has the static entry `echo`, which takes no argument,
returns a bool and panics when called, and after a configure with the source `echo` the
dynamic entry `echo`, which takes and returns a string: `GetFunctions` reports the
descriptor of the dynamic entry, and `CallFunction` runs the static entry. -/
theorem getFunctions_dynamic_wins :
    shadowedProvider.StaticFunctions.lookup (str "echo") = some panickingFunction ∧
    (∃ fn, shadowedProvider.dynamicCatalog.lookup (str "echo") = some fn) ∧
    shadowedProvider.GetFunctions.lookup (str "echo") =
      some ⟨[⟨false, false, .string⟩], ⟨.string⟩⟩ ∧
    panickingFunction.Function = ⟨[], ⟨.bool⟩⟩ ∧
    shadowedProvider.CallFunction ⟨str "echo", [⟨str "hi", []⟩]⟩ =
      .panic "implement interface\x7b\x7d" :=
  ⟨rfl, ⟨_, rfl⟩, rfl, rfl, rfl⟩

/-- Claim C4, amended: for every provider state and every name in both catalogs,
`GetFunctions` reports the descriptor of the dynamic entry (its second loop overwrites
the first), while `CallFunction` dispatches to the static entry; the two agree exactly
when the two entries have the same descriptor. In the provider that `main` builds the
static catalog is empty and stays so through every configure, so that no name is in both
catalogs there. -/
theorem getFunctions_collision (f : FunctionProvider) (req : CallFunctionRequest)
    (static dynamic : Function)
    (hs : f.StaticFunctions.lookup req.Name = some static)
    (hd : f.dynamicCatalog.lookup req.Name = some dynamic) :
    f.GetFunctions.lookup req.Name = some dynamic.Function ∧
    f.CallFunction req = respond (static.Impl req.Arguments) ∧
    (f.GetFunctions.lookup req.Name = some static.Function ↔
      static.Function = dynamic.Function) ∧
    (∀ lib reqs name,
      (List.foldl (fun p r => (FunctionProvider.ConfigureProvider p r).1) (mainProvider lib)
        reqs).StaticFunctions.lookup name = none) := by
  have hg : f.GetFunctions.lookup req.Name = some dynamic.Function := by
    rw [getFunctions_lookup, hd]
  refine ⟨hg, callFunction_of_static f req static hs, ?_, ?_⟩
  · rw [hg, Option.some.injEq]
    exact ⟨fun h => h.symm, fun h => h.symm⟩
  · intro lib reqs name
    rw [configureProvider_static_foldl]
    rfl

/-- Witness of claim C4, amended: with `f` in both catalogs under different descriptors,
`GetFunctions` reports the dynamic descriptor and `CallFunction` runs the static entry. -/
theorem getFunctions_collision_witness :
    collidingProvider.GetFunctions.lookup (str "f") = some panickingFunction.Function ∧
    collidingProvider.CallFunction ⟨str "f", [⟨[1], []⟩]⟩ = .ok ⟨some ⟨[1], []⟩, none⟩ ∧
    echoFunction.Function ≠ panickingFunction.Function :=
  ⟨(getFunctions_collision collidingProvider ⟨str "f", [⟨[1], []⟩]⟩ echoFunction
      panickingFunction rfl rfl).1,
   (getFunctions_collision collidingProvider ⟨str "f", [⟨[1], []⟩]⟩ echoFunction
      panickingFunction rfl rfl).2.1,
   by simp [echoFunction, panickingFunction]⟩

/-- Claim C5: `GetFunctions` is the union of the catalogs. A name is a key of its result
exactly when it is a key of the static or of the dynamic catalog (nil counting as empty),
and a name in exactly one catalog is mapped to the descriptor of that entry. -/
theorem getFunctions_union (f : FunctionProvider) (name : GoString) :
    (name ∈ f.GetFunctions ↔ name ∈ f.StaticFunctions ∨ name ∈ f.dynamicCatalog) ∧
    (∀ fn, f.StaticFunctions.lookup name = some fn → name ∉ f.dynamicCatalog →
      f.GetFunctions.lookup name = some fn.Function) ∧
    (∀ fn, f.dynamicCatalog.lookup name = some fn → name ∉ f.StaticFunctions →
      f.GetFunctions.lookup name = some fn.Function) := by
  have h := getFunctions_lookup f name
  refine ⟨?_, ?_, ?_⟩
  · rw [← AList.lookup_isSome, ← AList.lookup_isSome, ← AList.lookup_isSome, h]
    cases f.dynamicCatalog.lookup name <;> cases f.StaticFunctions.lookup name <;> simp
  · intro fn hs hd
    rw [← AList.lookup_eq_none] at hd
    rw [h, hd, hs]; rfl
  · intro fn hd _
    rw [h, hd]

/-- Witness of claim C5: after a configure with the source `echo`, the name `echo` is
in the dynamic catalog only, and `GetFunctions` maps it to the adapted descriptor. -/
theorem getFunctions_union_witness :
    str "echo" ∉ echoProvider.StaticFunctions ∧
    echoProvider.GetFunctions.lookup (str "echo") =
      some ⟨[⟨false, false, .string⟩], ⟨.string⟩⟩ :=
  ⟨by decide,
    (getFunctions_union echoProvider (str "echo")).2.2
      ((echoProvider.dynamicCatalog.lookup (str "echo")).get (by decide)) (by simp)
      (by decide)⟩

/-- Claim C6, refuted as stated: a name present in a catalog need not get a response.
After a configure with the source `any`, the name `f` is a key of the dynamic catalog,
and calling it with an argument that is not null panics in the decoder. -/
theorem callFunction_present_may_panic :
    str "f" ∈ anyProvider.dynamicCatalog ∧
    anyProvider.CallFunction ⟨str "f", [⟨str "a", []⟩]⟩ =
      .panic "implement interface\x7b\x7d" :=
  ⟨by decide, rfl⟩

/-- Claim C6, amended: for a name that is a key of neither catalog, and so for every
name on the provider that `main` builds before any configure, `CallFunction` returns
no response and the plain error `unknown function <name>`, whatever the entries are; for
a name present in a catalog it never returns a plain error: its outcome is that of the
implementation of the entry it dispatches to, a response whenever that implementation
returns. -/
theorem callFunction_unknown (f : FunctionProvider) (req : CallFunctionRequest) :
    (req.Name ∉ f.StaticFunctions → req.Name ∉ f.dynamicCatalog →
      f.CallFunction req = .error (.text (str "unknown function " ++ req.Name))) ∧
    (∀ lib, (mainProvider lib).CallFunction req =
      .error (.text (str "unknown function " ++ req.Name))) ∧
    (req.Name ∈ f.StaticFunctions ∨ req.Name ∈ f.dynamicCatalog →
      ∃ fn : Function,
        (f.StaticFunctions.lookup req.Name = some fn ∨
          f.StaticFunctions.lookup req.Name = none ∧
            f.dynamicCatalog.lookup req.Name = some fn) ∧
        f.CallFunction req = respond (fn.Impl req.Arguments) ∧
        (∀ e, f.CallFunction req ≠ .error e) ∧
        (∀ ret err, fn.Impl req.Arguments = .done (ret, err) →
          f.CallFunction req = .ok { Result := ret, Error := err })) := by
  refine ⟨callFunction_of_absent f req, fun lib => rfl, fun h => ?_⟩
  have key : ∀ fn : Function, f.CallFunction req = respond (fn.Impl req.Arguments) →
      (∀ e, f.CallFunction req ≠ .error e) ∧
      (∀ ret err, fn.Impl req.Arguments = .done (ret, err) →
        f.CallFunction req = .ok { Result := ret, Error := err }) := by
    intro fn hfn
    refine ⟨fun e => hfn ▸ respond_ne_error _ e, fun ret err hi => ?_⟩
    rw [hfn, hi]
    rfl
  cases hs : f.StaticFunctions.lookup req.Name with
  | some fn =>
    have hc := callFunction_of_static f req fn hs
    exact ⟨fn, Or.inl rfl, hc, key fn hc⟩
  | none =>
    have hd : req.Name ∈ f.dynamicCatalog := by
      rcases h with h | h
      · rw [← AList.lookup_isSome, hs] at h; simp at h
      · exact h
    rw [← AList.lookup_isSome, Option.isSome_iff_exists] at hd
    obtain ⟨fn, hfn⟩ := hd
    have hc := callFunction_of_dynamic f req fn hs hfn
    exact ⟨fn, Or.inr ⟨rfl, hfn⟩, hc, key fn hc⟩

/-- Witness of claim C6, amended: on the provider configured with the source `echo`,
the name `len` is unknown. -/
theorem callFunction_unknown_witness :
    echoProvider.CallFunction ⟨str "len", []⟩ =
      .error (.text (str "unknown function len")) :=
  (callFunction_unknown echoProvider ⟨str "len", []⟩).1 (by decide) (by decide)

/-- Claim C7, which the code breaks: `GoTypeToTFType` is not the reference mapping of
the specification on a record whose field has no `tf` tag and a name that starts with a
character outside ASCII. For `struct { Émile string }` the reference mapping gives the
attribute `nameOf(f)`, the name with its first character lowercased (`émile` when `É` is
lowercased to `é`), and the code gives the bytes `EF BF BD 89` followed by `mile`, which
is the name with its first character replaced by no character at all: whatever the
lower-case mapping of characters, the two results differ. -/
theorem type_map_record_non_ascii :
    GoTypeToTFType (.struct [⟨str "Émile", [], .string, true⟩]) =
      .ok (.object [([0xEF, 0xBF, 0xBD, 0x89] ++ str "mile", .string)]) ∧
    (∀ lower, etToHt lower (.struct [⟨str "Émile", [], .string, true⟩]) =
      some (.object [(utf8EncodeRune (lower 0xC9) ++ str "mile", .string)])) ∧
    utf8EncodeRune 0xE9 ++ str "mile" = str "émile" ∧
    (∀ lower, etToHt lower (.struct [⟨str "Émile", [], .string, true⟩]) ≠
      some (.object [([0xEF, 0xBF, 0xBD, 0x89] ++ str "mile", .string)])) := by
  refine ⟨rfl, fun lower => rfl, rfl, ?_⟩
  intro lower h
  have e1 : etToHt lower (.struct [⟨str "Émile", [], .string, true⟩]) =
      some (.object [(utf8EncodeRune (lower 0xC9) ++ str "mile", .string)]) := rfl
  rw [e1] at h
  simp only [Option.some.injEq, TfType.object.injEq, List.cons.injEq, Prod.mk.injEq,
    and_true] at h
  exact utf8EncodeRune_ne (lower 0xC9) (str "mile") h

/-- The rows of the type-map table as the code computes them. `GoTypeToTFType` maps
string to String, bool to Bool, int and float64 to Number, a pointer to the mapping of
its element, a slice to the List of the mapping of its element, a map with a key of kind
string to the Map of the mapping of its element, a record to the Object whose attributes
are the pairs of `fieldPairs`, with the attribute names of `getTfObjectGoFieldName`
(these pairs are the attribute list itself when the names are pairwise distinct), and
`interface{}` to DynamicPseudoType; it fails for every type of another kind, for every
other interface type, and for a map whose key is not of kind string. -/
theorem type_map_table :
    GoTypeToTFType .string = .ok .string ∧
    GoTypeToTFType .bool = .ok .bool ∧
    GoTypeToTFType .int = .ok .number ∧
    GoTypeToTFType .float64 = .ok .number ∧
    (∀ X, GoTypeToTFType (.ptr X) = GoTypeToTFType X) ∧
    (∀ X, GoTypeToTFType (.slice X) = (GoTypeToTFType X).map .list) ∧
    (∀ K X, K.Kind = .String → GoTypeToTFType (.map K X) = (GoTypeToTFType X).map .map) ∧
    (∀ fields, GoTypeToTFType (.struct fields) =
      (fieldPairs fields).map fun pairs => .object (mapOfPairs pairs)) ∧
    (∀ pairs : List (GoString × TfType), (mapKeys pairs).Nodup → mapOfPairs pairs = pairs) ∧
    GoTypeToTFType (.iface []) = .ok .dynamic ∧
    (∀ t, t.Kind ∉ tableKinds → ∃ e, GoTypeToTFType t = .error e) ∧
    (∀ t, t.Kind = .Interface → t ≠ .iface [] → ∃ e, GoTypeToTFType t = .error e) ∧
    (∀ K X, K.Kind ≠ .String → ∃ e, GoTypeToTFType (.map K X) = .error e) := by
  refine ⟨rfl, rfl, rfl, rfl, fun _ => by rw [GoTypeToTFType], ?_, ?_,
    GoTypeToTFType_struct, mapOfPairs_of_nodup, rfl, ?_, ?_, ?_⟩
  · intro X
    rw [GoTypeToTFType]
    cases GoTypeToTFType X <;> rfl
  · intro K X hK
    rw [GoTypeToTFType]
    simp only [hK, ne_eq, not_true_eq_false, if_false]
    cases GoTypeToTFType X <;> rfl
  · intro t ht
    cases t with
    | defined n u => cases u <;> simp [GoType.Kind, Basic.Kind, tableKinds] at ht
    | _ => simp [GoType.Kind, tableKinds] at ht <;> exact ⟨_, by rw [GoTypeToTFType]⟩
  · intro t hk hne
    cases t <;> simp [GoType.Kind] at hk
    case iface ms =>
      have hms : ms ≠ [] := fun h => hne (by rw [h])
      rw [GoTypeToTFType, if_neg hms]
      exact ⟨_, rfl⟩
    case error => exact ⟨_, by rw [GoTypeToTFType]⟩
    case scalar s => cases s <;> simp [Scalar.Kind] at hk
    case defined n u => cases u <;> simp [Basic.Kind] at hk
  · intro K X hK
    rw [GoTypeToTFType, if_pos hK]
    exact ⟨_, rfl⟩

/-- The rows of the table at a map of ints, at a record with a
tagged field, and at a channel. -/
theorem type_map_table_witness :
    GoTypeToTFType (.map .string .int) = .ok (.map .number) ∧
    GoTypeToTFType personType =
      .ok (.object [(str "first", .string), (str "age", .number),
        (str "tags", .list .string), (str "flags", .map .bool)]) ∧
    ∃ e, GoTypeToTFType (.chan .int) = .error e :=
  ⟨type_map_table.2.2.2.2.2.2.1 .string .int rfl,
    type_map_table.2.2.2.2.2.2.2.1 _,
    type_map_table.2.2.2.2.2.2.2.2.2.2.1 (.chan .int) (by decide)⟩

/-- Claim C8, refuted as stated: a type whose kind is in the supported set need not be
mapped. A slice of channels has kind slice and a pointer to a function has kind pointer,
and the type mapper fails on both. And on the recursive type
`type Node struct { Next *Node }`, of kind struct and built from supported kinds only,
the type mapper does not return: whatever the bound on the depth of its nested calls,
the bound is reached. -/
theorem type_map_fails_on_supported_kind :
    (GoType.slice (.chan .int)).Kind = Kind.Slice ∧
    GoTypeToTFType (.slice (.chan .int)) =
      .error (.withGoType (str "unsupported type ") (some (.chan .int)) []) ∧
    (GoType.ptr (.func [] [] false)).Kind = Kind.Pointer ∧
    GoTypeToTFType (.ptr (.func [] [] false)) =
      .error (.withGoType (str "unsupported type ") (some (.func [] [] false)) []) ∧
    (∀ depth, GoTypeToTFTypeDeclared nodeDecls depth (.named (str "Node")) = none) :=
  ⟨rfl, rfl, rfl, rfl, node_never_mapped⟩

/-- Claim C8, amended: for every type that is not recursive and is built only from the
supported kinds (string, bool, int, float64, pointer, slice, map with a key of kind
string, record whose fields have a `tf` tag or a name, `interface{}`), down to its
element and field types, `GoTypeToTFType` returns a host type without error. The types
of `GoType` are the types that are not recursive; on a program's type expression that
names no declared type, the type mapper with a bound on the depth of its calls returns
that host type for every bound that is large enough. -/
theorem type_map_total_on_supported (t : GoType) (h : supportedType t = true) :
    ∃ ht, GoTypeToTFType t = .ok ht ∧
      ∀ decls (e : TypeExpr), e.toGoType = some t →
        ∃ n, ∀ d, n ≤ d → GoTypeToTFTypeDeclared decls d e = some (.ok ht) := by
  obtain ⟨ht, hh⟩ := supportedType_ok t h
  refine ⟨ht, hh, fun decls e he => ?_⟩
  obtain ⟨n, hn⟩ := declared_agrees decls e t he
  exact ⟨n, fun d hd => by rw [hn d hd, hh]⟩

/-- Witness of claim C8, amended: a record with a pointer field and a map of slices. -/
theorem type_map_total_on_supported_witness :
    supportedType taggedType = true ∧
    ∃ ht, GoTypeToTFType taggedType = .ok ht ∧
      ∀ decls (e : TypeExpr), e.toGoType = some taggedType →
        ∃ n, ∀ d, n ≤ d → GoTypeToTFTypeDeclared decls d e = some (.ok ht) :=
  ⟨rfl, type_map_total_on_supported taggedType rfl⟩

/-- Claim C9, which the code breaks: `uncapitalize` lowercases the first byte of the
name, not its first character. For the field `Émile` without a `tf` tag the attribute
name is not `émile`: the first byte of `É` alone is not valid UTF-8 and becomes `U+FFFD`,
followed by the second byte of `É`; the one-letter name `É` fares the same. -/
theorem field_name_non_ascii :
    getTfObjectGoFieldName ⟨str "Émile", [], .string, true⟩ =
      .ok ([0xEF, 0xBF, 0xBD, 0x89] ++ str "mile") ∧
    str "Émile" = [0xC3, 0x89] ++ str "mile" ∧
    str "émile" = [0xC3, 0xA9] ++ str "mile" ∧
    getTfObjectGoFieldName ⟨str "É", [], .string, true⟩ = .ok [0xEF, 0xBF, 0xBD, 0x89] ∧
    str "é" = [0xC3, 0xA9] :=
  ⟨rfl, rfl, rfl, rfl, rfl⟩

/-- The part of claim C9 that holds: a `tf` tag that is not empty is the attribute name,
and otherwise a name whose first byte is ASCII gets that byte lowercased and the rest
unchanged. -/
theorem field_name_ascii (field : StructField) :
    (field.TfTag ≠ [] → getTfObjectGoFieldName field = .ok field.TfTag) ∧
    (∀ c rest, field.TfTag = [] → field.Name = c :: rest → c < 0x80 →
      getTfObjectGoFieldName field =
        .ok ((if 0x41 ≤ c ∧ c ≤ 0x5A then c + 0x20 else c) :: rest)) := by
  constructor
  · intro h
    rw [getTfObjectGoFieldName, if_pos h]
  · intro c rest ht hn hc
    rw [getTfObjectGoFieldName, if_neg (by simp [ht]), hn]
    cases rest <;> simp [uncapitalize, toLowerByte, hc] <;> split <;> rfl

/-- Claim C10, refuted as stated: for the type `interface{}`, which the type mapper
accepts, an empty payload gives the nil interface, a value without type. -/
theorem protoToGo_null_input_interface :
    GoTypeToTFType (.iface []) = .ok .dynamic ∧
    ProtoToGo stubLib .dynamic (.iface []) ⟨[], []⟩ = .ok .nil ∧
    typeOf .nil = none :=
  ⟨rfl, rfl, rfl⟩

/-- Claim C10, amended: the null input rule. For every type `T` whose kind is not
interface, every declared host type and every payload whose MsgPack and JSON bytes are
both empty, `ProtoToGo` returns without error the zero value of `T`, whose dynamic type
is `T` (for a pointer type, the nil pointer of that type), whatever the wire codec would
do with the payload. -/
theorem protoToGo_null_input (lib : Lib) (argumentTfType : TfType) (argumentGoType : GoType)
    (arg : DynamicValue) (hm : arg.MsgPack = []) (hj : arg.JSON = [])
    (hk : argumentGoType.Kind ≠ Kind.Interface) :
    ProtoToGo lib argumentTfType argumentGoType arg = .ok (zeroValue argumentGoType) ∧
    typeOf (zeroValue argumentGoType) = some argumentGoType ∧
    (∀ elem, argumentGoType = .ptr elem → zeroValue argumentGoType = .nilPtr elem) := by
  refine ⟨?_, zeroValue_typeOf _ hk, fun elem h => by rw [h, zeroValue]⟩
  simp [ProtoToGo, hm, hj]

/-- Witness of claim C10, amended: a `*string` parameter and a `string` parameter, with
a wire codec that panics whenever it is asked to decode. -/
theorem protoToGo_null_input_witness :
    ProtoToGo deafLib .string (.ptr .string) ⟨[], []⟩ = .ok (.nilPtr .string) ∧
    ProtoToGo deafLib .string .string ⟨[], []⟩ = .ok (.string []) ∧
    ProtoToGo deafLib .string .string ⟨[0xc0], []⟩ = .panic "Unmarshal was called" :=
  ⟨(protoToGo_null_input deafLib .string (.ptr .string) ⟨[], []⟩ rfl rfl (by decide)).1,
    (protoToGo_null_input deafLib .string .string ⟨[], []⟩ rfl rfl (by decide)).1, rfl⟩

/-- Claim C11, which the code breaks: decoding at a pointer type gives neither a null
pointer for a null nor always a pointer to that type. A null decoded at `*string` is the
nil interface, which has no type and is not assignable to a `*string`, while for the
empty payload `ProtoToGo` returns the nil `*string`, which is; so the payload of a null
(`0xc0`) for a `*string` parameter decodes to a value that `reflect.Value.Call` rejects.
A number decoded at `float64` is an `int64`, so decoding it at `*float64` gives a
`*int64`, not assignable to a `*float64`; and a number decoded at the defined type
`time.Month` is an `int`, so decoding it at `*time.Month` gives a `*int`. -/
theorem pointer_decode_fails :
    (TfToGoValue (.ptr .string) (.null .string) = .ok .nil ∧ typeOf .nil = none ∧
      assignable (.ptr .string) .nil = false ∧
      ProtoToGo wireLib .string (.ptr .string) ⟨[0xc0], []⟩ = .ok .nil ∧
      ProtoToGo wireLib .string (.ptr .string) ⟨[], []⟩ = .ok (.nilPtr .string) ∧
      assignable (.ptr .string) (.nilPtr .string) = true) ∧
    (TfToGoValue .float64 (.number (.fin 3 (-1))) = .ok (.int64 1) ∧
      TfToGoValue (.ptr .float64) (.number (.fin 3 (-1))) =
        .ok (.ptr (.scalar .int64) (.int64 1)) ∧
      typeOf (.ptr (.scalar .int64) (.int64 1)) = some (.ptr (.scalar .int64)) ∧
      assignable (.ptr .float64) (.ptr (.scalar .int64) (.int64 1)) = false) ∧
    (TfToGoValue (.ptr monthType) (.number (.fin 3 0)) = .ok (.ptr .int (.int 3)) ∧
      typeOf (.ptr .int (.int 3)) = some (.ptr .int) ∧
      assignable (.ptr monthType) (.ptr .int (.int 3)) = false) :=
  ⟨⟨rfl, rfl, rfl, rfl, rfl, rfl⟩, ⟨rfl, rfl, rfl, rfl⟩, ⟨rfl, rfl, rfl⟩⟩

/-- What `TfToGoValue` does at the type pointer-to-`X`: it returns the nil interface
when `v` is null; when `v` is not null and decoding `v` at `X` succeeds with `x`, it
returns a pointer that is not nil, whose pointee is `x` and whose type is the pointer to
the dynamic type of `x` (this is `X` unless `X` is `float64`, a defined type, or a chain
of pointers ending in one of these); and it fails exactly when decoding `v` at `X` fails,
with the same error or panic. -/
theorem pointer_decode (X : GoType) (v : TfValue) :
    (v.IsNull = true → TfToGoValue (.ptr X) v = .ok .nil) ∧
    (v.IsNull = false → ∀ x, TfToGoValue X v = .ok x →
      ∃ t, typeOf x = some t ∧ TfToGoValue (.ptr X) v = .ok (.ptr t x) ∧
        (decodesToOtherType X = false → t = X)) ∧
    (v.IsNull = false → ∀ e, TfToGoValue X v = .error e → TfToGoValue (.ptr X) v = .error e) ∧
    (v.IsNull = false → ∀ w, TfToGoValue X v = .panic w → TfToGoValue (.ptr X) v = .panic w) := by
  refine ⟨fun hn => ?_, fun hn x hx => ?_, fun hn e he => ?_, fun hn w hw => ?_⟩
  · rw [TfToGoValue_ptr, hn]; rfl
  · obtain ⟨⟨t, ht⟩, hX⟩ := typeOf_decoded X v x hn hx
    refine ⟨t, ht, ?_, fun hf => ?_⟩
    · rw [TfToGoValue_ptr, hn, hx]
      simp only [Bool.false_eq_true, if_false, ht]
    · have := hX hf
      rw [ht] at this
      exact Option.some.inj this
  · rw [TfToGoValue_ptr, hn, he]; rfl
  · rw [TfToGoValue_ptr, hn, hw]; rfl

/-- A string decoded at `*string` is a `*string`. -/
theorem pointer_decode_witness :
    TfToGoValue (.ptr .string) (.string (str "abc")) = .ok (.ptr .string (.string (str "abc"))) := by
  obtain ⟨t, ht, h, hX⟩ := (pointer_decode .string (.string (str "abc"))).2.1 rfl _ rfl
  rw [h, hX rfl]

/-- Claim C12: null encode. For every host type `t`, the dynamic type included, encoding
the nil interface against `t` succeeds and returns the null value of type `t`. -/
theorem null_encode (t : TfType) :
    GoToTfValue t .nil = .ok (.null t) ∧ (TfValue.null t).IsNull = true ∧
    (TfValue.null t).Typ = some t :=
  ⟨by rw [GoToTfValue], rfl, rfl⟩

/-- Claim C13, refuted as stated: decoding an object at a record type may panic where
the claim promises a record or the error of a missing field. With no attribute missing
and every field decoding, the field `P *string` of a null attribute decodes to the nil
interface, which `reflect.Value.Set` does not accept; the same panic comes before the
missing attribute `name` is looked at; and a `float64` field decodes to an `int64`, which
`Set` does not accept either. -/
theorem record_decode_panics :
    (TfToGoValue (.ptr .string) (.null .string) = .ok .nil ∧
      TfToGoValue (.struct [⟨str "P", str "p", .ptr .string, true⟩])
          (.object [(str "p", .string)] [(str "p", .null .string)]) =
        .panic "reflect.Set: field is not settable or value is not assignable") ∧
    (TfToGoValue (.struct [⟨str "P", str "p", .ptr .string, true⟩, ⟨str "Name", [], .string, true⟩])
          (.object [(str "p", .string)] [(str "p", .null .string)]) =
        .panic "reflect.Set: field is not settable or value is not assignable") ∧
    (TfToGoValue .float64 (.number (.fin 36 0)) = .ok (.int64 36) ∧
      TfToGoValue (.struct [⟨str "Age", [], .float64, true⟩, ⟨str "Name", [], .string, true⟩])
          (.object [(str "age", .number)] [(str "age", .number (.fin 36 0))]) =
        .panic "reflect.Set: field is not settable or value is not assignable") :=
  ⟨⟨rfl, rfl⟩, rfl, rfl, rfl⟩

/-- Claim C13, amended: for every record type and every object value that is not null,
`TfToGoValue` fails with the text `missing object field <name>` for the first field in
declaration order whose attribute the object lacks, provided each field before it is
exported and its attribute decodes to a value assignable to the field; when this holds
of every field, it returns the record whose i-th field is the decoding of the attribute
of the i-th field at that field's type; and attributes of the object that are the name
of no field are ignored. -/
theorem missing_record_field (fields : List StructField)
    (attributeTypes : List (GoString × TfType)) (tfMap : List (GoString × TfValue)) :
    (∀ pre field post vals name, fields = pre ++ field :: post →
      List.Forall₂ (fieldStored tfMap) pre vals →
      getTfObjectGoFieldName field = .ok name → mapGet tfMap name = none →
      TfToGoValue (.struct fields) (.object attributeTypes tfMap) =
        .error (.text (str "missing object field " ++ name))) ∧
    (∀ vals, List.Forall₂ (fieldStored tfMap) fields vals →
      TfToGoValue (.struct fields) (.object attributeTypes tfMap) = .ok (.struct fields vals)) ∧
    (∀ attributeTypes' tfMap',
      (∀ field ∈ fields, ∀ name, getTfObjectGoFieldName field = .ok name →
        mapGet tfMap' name = mapGet tfMap name) →
      TfToGoValue (.struct fields) (.object attributeTypes' tfMap') =
        TfToGoValue (.struct fields) (.object attributeTypes tfMap)) := by
  refine ⟨?_, ?_, ?_⟩
  · rintro pre field post vals name rfl hpre hname hget
    rw [TfToGoValue_struct_object, decodeFields_append_stored tfMap pre vals _ hpre,
      decodeFields_missing tfMap field post name hname hget]
    rfl
  · intro vals h
    have := decodeFields_append_stored tfMap fields vals [] h
    rw [List.append_nil] at this
    rw [TfToGoValue_struct_object, this]
    simp [decodeFields, Res.map]
  · intro attributeTypes' tfMap' h
    rw [TfToGoValue_struct_object, TfToGoValue_struct_object, decodeFields_congr tfMap tfMap' fields h]

/-- Witness of claim C13, amended: a record with the fields `first` and `age`, decoded
from an object with one attribute more, from one that lacks `first`, and from one that
lacks `age`. -/
theorem missing_record_field_witness :
    TfToGoValue (.struct greetType)
        (.object [] [(str "age", .number (.fin 36 0)), (str "first", .string (str "ada")),
          (str "extra", .bool true)]) =
      .ok (.struct greetType [.string (str "ada"), .int 36]) ∧
    TfToGoValue (.struct greetType) (.object [] [(str "age", .number (.fin 36 0))]) =
      .error (.text (str "missing object field first")) ∧
    TfToGoValue (.struct greetType) (.object [] [(str "first", .string (str "ada"))]) =
      .error (.text (str "missing object field age")) :=
  ⟨(missing_record_field greetType [] _).2.1 _
      (.cons ⟨rfl, _, _, rfl, rfl, rfl, rfl⟩ (.cons ⟨rfl, _, _, rfl, rfl, rfl, rfl⟩ .nil)),
    (missing_record_field greetType [] _).1 [] _ _ [] _ rfl .nil rfl rfl,
    (missing_record_field greetType [] _).1 [_] _ [] [_] _ rfl
      (.cons ⟨rfl, _, _, rfl, rfl, rfl, rfl⟩ .nil) rfl rfl⟩

/-- Claim C14: adapter output-arity validation. For a function whose input types all
map, `GoFunctionToTFFunction` returns no entry and the one `Error` diagnostic `Function
must return a value` when the function has no output, `Function must return at most two
values` when it has more than two, and `Second return value, if exists, must be an error`
when it has two and the second is not the type `error`; when it has one output, or two
with the second of type `error`, and the first output type maps, it returns an entry and
no diagnostic. -/
theorem adapter_output_arity (lib : Lib) (fn : Export) (ins outs : List GoType)
    (variadic : Bool) (hfn : fn.Typ = .func ins outs variadic)
    (hins : ∀ t ∈ ins, ∃ ht, GoTypeToTFType t = .ok ht) :
    (outs = [] → GoFunctionToTFFunction lib fn =
      .done (none, [errorDiagnostic (str "Function must return a value") (.text [])])) ∧
    (2 < outs.length → GoFunctionToTFFunction lib fn =
      .done (none, [errorDiagnostic (str "Function must return at most two values") (.text [])])) ∧
    (∀ first second, outs = [first, second] → second ≠ .error →
      GoFunctionToTFFunction lib fn =
        .done (none,
          [errorDiagnostic (str "Second return value, if exists, must be an error") (.text [])])) ∧
    (∀ first ht, outs = [first] ∨ outs = [first, .error] → GoTypeToTFType first = .ok ht →
      ∃ entry, GoFunctionToTFFunction lib fn = .done (some entry, [])) := by
  obtain ⟨parameters, hp⟩ := adaptParameters_ok ins 0 hins
  refine ⟨?_, ?_, ?_, ?_⟩
  · rintro rfl
    unfold GoFunctionToTFFunction
    rw [hfn]
    simp only [hp]
  · intro hlen
    unfold GoFunctionToTFFunction
    rw [hfn]
    simp only [hp]
    cases outs with
    | nil => simp at hlen
    | cons first more =>
      simp only [List.length_cons] at hlen
      simp only [if_pos (show more.length + 1 > 2 by omega)]
  · rintro first second rfl hne
    unfold GoFunctionToTFFunction
    rw [hfn]
    have hq : goTypeEq second .error ≠ true := fun hq => hne ((goTypeEq_iff _ _).1 hq)
    simp [hp, hq]
  · rintro first ht (rfl | rfl) hout
    · unfold GoFunctionToTFFunction
      rw [hfn]
      simp [hp, hout]
    · unfold GoFunctionToTFFunction
      rw [hfn]
      simp [hp, hout, goTypeEq_refl]

/-- Witness of claim C14: a function without output, a function `(string, int)`, and
`func Fail(i int) (string, error)`. -/
theorem adapter_output_arity_witness :
    GoFunctionToTFFunction stubLib ⟨.func [.string] [] false, fun _ => .done []⟩ =
      .done (none, [errorDiagnostic (str "Function must return a value") (.text [])]) ∧
    GoFunctionToTFFunction stubLib
        ⟨.func [.string] [.string, .int] false, fun _ => .done [.string [], .int 0]⟩ =
      .done (none,
        [errorDiagnostic (str "Second return value, if exists, must be an error") (.text [])]) ∧
    ∃ entry, GoFunctionToTFFunction stubLib failExport = .done (some entry, []) :=
  ⟨(adapter_output_arity stubLib ⟨.func [.string] [] false, fun _ => .done []⟩ [.string] []
      false rfl (by intro t ht; simp only [List.mem_singleton] at ht; subst ht; exact ⟨_, rfl⟩)).1
      rfl,
    (adapter_output_arity stubLib
      ⟨.func [.string] [.string, .int] false, fun _ => .done [.string [], .int 0]⟩ [.string]
      [.string, .int] false rfl
      (by intro t ht; simp only [List.mem_singleton] at ht; subst ht; exact ⟨_, rfl⟩)).2.2.1
      .string .int rfl (by simp),
    (adapter_output_arity stubLib failExport [.int] [.string, .error] false rfl
      (by intro t ht; simp only [List.mem_singleton] at ht; subst ht; exact ⟨_, rfl⟩)).2.2.2
      .string .string (Or.inr rfl) rfl⟩

/-- Claim C15: adapter descriptor. Whenever `GoFunctionToTFFunction` succeeds on a
function with the inputs `ins` and the outputs `outs`, the descriptor has as many
parameters as inputs, in the same order; the parameter of an input `t` has the host type
`GoTypeToTFType t`, allows null if and only if the kind of `t` is pointer, and does not
allow unknown values; and the return type is `GoTypeToTFType` of the first output. -/
theorem adapter_descriptor (lib : Lib) (fn : Export) (ins outs : List GoType)
    (variadic : Bool) (entry : Function) (diags : List Diagnostic)
    (hfn : fn.Typ = .func ins outs variadic)
    (h : GoFunctionToTFFunction lib fn = .done (some entry, diags)) :
    entry.Function.Parameters.length = ins.length ∧
    List.Forall₂ parameterOf ins entry.Function.Parameters ∧
    ∃ first rest, outs = first :: rest ∧
      GoTypeToTFType first = .ok entry.Function.Return.Typ := by
  obtain ⟨parameters, first, more, outputType, hp, ho, hout, _, rfl⟩ :=
    adapted_entry lib fn ins outs variadic entry diags hfn h
  have hf := adaptParameters_spec ins 0 parameters hp
  exact ⟨hf.length_eq.symm, hf, first, more, ho, hout⟩

/-- Witness of claim C15: the entry built for `func Fail(i int) (string, error)`. -/
theorem adapter_descriptor_witness :
    failEntry.Function.Parameters.length = 1 ∧
    List.Forall₂ parameterOf [.int] failEntry.Function.Parameters ∧
    ∃ first rest, [GoType.string, GoType.error] = first :: rest ∧
      GoTypeToTFType first = .ok failEntry.Function.Return.Typ :=
  adapter_descriptor wireLib failExport [.int] [.string, .error] false failEntry [] rfl rfl

/-- Claim C16, refuted as stated: the closure of an adapted entry does not always return
a result or a `FunctionError`. For `func Half(x float64) float64` the argument decodes
(to an `int64`) and `reflect.Value.Call` then panics; for `func Deref(p *string) string`
the payload of a null decodes to the nil interface and `Call` panics. In both cases the
argument list has the length of the descriptor. -/
theorem invoke_may_panic :
    (∃ entry, GoFunctionToTFFunction wireLib halfExport = .done (some entry, []) ∧
      entry.Function.Parameters.length = 1 ∧
      decodeArgs wireLib entry.Function.Parameters [.float64] [⟨str "hi", []⟩] =
        .ok [.int64 2] ∧
      entry.Impl [⟨str "hi", []⟩] = .panic "reflect: Call with mismatched arguments") ∧
    (∃ entry, GoFunctionToTFFunction wireLib derefExport = .done (some entry, []) ∧
      entry.Function.Parameters.length = 1 ∧
      decodeArgs wireLib entry.Function.Parameters [.ptr .string] [⟨[0xc0], []⟩] = .ok [.nil] ∧
      entry.Impl [⟨[0xc0], []⟩] = .panic "reflect: Call with mismatched arguments") :=
  ⟨⟨_, rfl, rfl, rfl, rfl⟩, ⟨_, rfl, rfl, rfl, rfl⟩⟩

/-- Claim C16, amended: for every adapted entry and every argument list, whenever the
closure returns it returns exactly one of a result and a `FunctionError`. If decoding the
arguments fails with an error, it returns a `FunctionError` with that text, whatever the
function does when called; if they decode and the call returns at least two outputs of
which the second is not nil, it returns a `FunctionError` with the text of that error and
no result; if the call returns one output, or a nil second output, it returns the
encoding of the first output against the return type of the descriptor, a
`FunctionError` if that encoding fails with an error, and it panics if the encoding
panics. The closure returns nothing and panics when decoding the arguments panics, when
the call panics, be it that `reflect.Value.Call` rejects the decoded arguments (for a
function that is not variadic: when some argument is not assignable to its input, or the
numbers differ) or that the function itself panics, and when the call returns no
output. -/
theorem invoke_outcome (lib : Lib) (fn : Export) (ins outs : List GoType) (variadic : Bool)
    (entry : Function) (diags : List Diagnostic) (args : List DynamicValue)
    (hfn : fn.Typ = .func ins outs variadic)
    (h : GoFunctionToTFFunction lib fn = .done (some entry, diags)) :
    (∀ r, entry.Impl args = .done r →
      (r.1.isSome = true ∧ r.2 = none) ∨ (r.1 = none ∧ r.2.isSome = true)) ∧
    (∀ err, decodeArgs lib entry.Function.Parameters ins args = .error err →
      entry.Impl args = .done (none, some { Text := err }) ∧
      ∀ call entry2 diags2,
        GoFunctionToTFFunction lib { fn with Call := call } = .done (some entry2, diags2) →
        entry2.Impl args = .done (none, some { Text := err })) ∧
    (∀ goArgs first second more,
      decodeArgs lib entry.Function.Parameters ins args = .ok goArgs →
      reflectCall fn goArgs = .done (first :: second :: more) → second ≠ .nil →
      entry.Impl args = .done (none, some { Text := lib.ErrorText second })) ∧
    (∀ goArgs first more,
      decodeArgs lib entry.Function.Parameters ins args = .ok goArgs →
      reflectCall fn goArgs = .done (first :: more) → (more = [] ∨ ∃ rest, more = .nil :: rest) →
      entry.Impl args =
        match GoToProto lib entry.Function.Return.Typ first with
        | .ok out => .done (some out, none)
        | .error err => .done (none, some { Text := err })
        | .panic w => .panic w) ∧
    (∀ w, decodeArgs lib entry.Function.Parameters ins args = .panic w →
      entry.Impl args = .panic w) ∧
    (∀ goArgs, decodeArgs lib entry.Function.Parameters ins args = .ok goArgs →
      (∀ w, reflectCall fn goArgs = .panic w → entry.Impl args = .panic w) ∧
      (reflectCall fn goArgs = .done [] → entry.Impl args = .panic "index out of range") ∧
      (variadic = false → argsAssignable ins goArgs = false →
        entry.Impl args = .panic "reflect: Call with mismatched arguments") ∧
      (variadic = false → argsAssignable ins goArgs = true →
        reflectCall fn goArgs = fn.Call goArgs)) := by
  obtain ⟨parameters, first, more, outputType, hp, _, _, _, rfl⟩ :=
    adapted_entry lib fn ins outs variadic entry diags hfn h
  refine ⟨?_, ?_, ?_, ?_, ?_, ?_⟩
  · exact fun r hr => adaptedImpl_returns lib fn parameters ins outputType args r hr
  · intro err he
    refine ⟨adaptedImpl_decode_error lib fn parameters ins outputType args err he, ?_⟩
    intro call entry2 diags2 h2
    obtain ⟨parameters2, _, _, outputType2, hp2, _, _, _, rfl⟩ :=
      adapted_entry lib { fn with Call := call } ins outs variadic entry2 diags2 hfn h2
    rw [hp] at hp2
    cases hp2
    exact adaptedImpl_decode_error lib _ parameters ins outputType2 args err he
  · intro goArgs first second more hd hc hs
    exact adaptedImpl_error_output lib fn parameters ins outputType args goArgs first second
      more hd hc hs
  · intro goArgs first more hd hc hs
    exact adaptedImpl_first_output lib fn parameters ins outputType args goArgs first more hd hc hs
  · exact fun w hw => adaptedImpl_decode_panic lib fn parameters ins outputType args w hw
  · intro goArgs hd
    refine ⟨fun w hc => adaptedImpl_call_panic lib fn parameters ins outputType args goArgs w hd hc,
      fun hc => adaptedImpl_no_output lib fn parameters ins outputType args goArgs hd hc,
      fun hv ha => ?_, fun hv ha => ?_⟩
    · subst hv
      refine adaptedImpl_call_panic lib fn parameters ins outputType args goArgs _ hd ?_
      rw [reflectCall_fixed fn ins outs goArgs hfn, ha]
      rfl
    · subst hv
      rw [reflectCall_fixed fn ins outs goArgs hfn, ha]
      rfl

/-- Witness of claim C16, amended: `Echo` returns its argument as the result, and
`Fail` returns the text of its error. -/
theorem invoke_outcome_witness :
    echoEntry.Impl [⟨str "hi", []⟩] = .done (some ⟨str "hi", []⟩, none) ∧
    failEntry.Impl [⟨str "hi", []⟩] = .done (none, some ⟨.text (str "div by zero")⟩) :=
  ⟨(invoke_outcome wireLib echoExport [.string] [.string] false echoEntry []
      [⟨str "hi", []⟩] rfl rfl).2.2.2.1 [.string (str "hi")] (.string (str "hi")) [] rfl rfl
      (Or.inl rfl),
    (invoke_outcome wireLib failExport [.int] [.string, .error] false failEntry []
      [⟨str "hi", []⟩] rfl rfl).2.2.1 [.int 2] (.string []) (.other .error 0) [] rfl rfl
      (by simp)⟩

/-- Claim C17: no partial adapt. Let the payload hold a source that evaluates to the
symbols `symbols`, each function symbol having a valid signature. If the adapter fails
for at least one function symbol, `Configure` returns no catalog together with the
diagnostics of such a failure, and after `ConfigureProvider` the dynamic catalog is nil,
so that every name outside the static catalog is unknown to `CallFunction`. If it fails
for none, `Configure` returns a catalog and no diagnostic; the catalog has an entry under
the lower-cased name of every function symbol, and every entry of the catalog is the
adapter's entry for a function symbol, under its lower-cased name. -/
theorem no_partial_adapt (lib : Lib) (config : DynamicValue) (res : TfValue)
    (cfg : List (GoString × TfValue)) (code : GoString) (symbols : List (GoString × Export))
    (hres : lib.Unmarshal config (.map .string) = .ok res) (hcfg : asValueMap res = .ok cfg)
    (hcode : asString ((mapGet cfg (str "go")).getD .untypedNull) = .ok code)
    (huse : lib.Use = none) (heval : lib.Eval code = .ok symbols)
    (hvalid : ∀ s ∈ symbols, validSignature s.2.Typ = true) :
    ((∃ s ∈ symbols, s.2.Typ.Kind = Kind.Func ∧ adaptFails lib s.2) →
      ∃ s ∈ symbols, s.2.Typ.Kind = Kind.Func ∧ ∃ diags, diags ≠ [] ∧
        GoFunctionToTFFunction lib s.2 = .done (none, diags) ∧
        Configure lib config = .done (none, diags) ∧
        ∀ f : FunctionProvider, f.Configure = Configure lib →
          (f.ConfigureProvider ⟨config⟩).1.dynamicFunctions = none ∧
          ∀ req : CallFunctionRequest, req.Name ∉ f.StaticFunctions →
            (f.ConfigureProvider ⟨config⟩).1.CallFunction req =
              .error (.text (str "unknown function " ++ req.Name))) ∧
    ((¬ ∃ s ∈ symbols, s.2.Typ.Kind = Kind.Func ∧ adaptFails lib s.2) →
      ∃ catalog, Configure lib config = .done (some catalog, []) ∧
        (∀ s ∈ symbols, s.2.Typ.Kind = Kind.Func →
          ∃ entry, catalog.lookup (GoNameToTFName lib s.1) = some entry) ∧
        (∀ key entry, catalog.lookup key = some entry →
          ∃ s ∈ symbols, s.2.Typ.Kind = Kind.Func ∧ key = GoNameToTFName lib s.1 ∧
            GoFunctionToTFFunction lib s.2 = .done (some entry, []))) := by
  have hc : Configure lib config = adaptExports lib symbols ∅ := by
    rw [configure_eq_evaluateSource lib config res cfg code hres hcfg hcode]
    unfold evaluateSource
    rw [huse]
    dsimp only
    rw [heval]
  constructor
  · intro hf
    obtain ⟨s, hs, hk, diags, hd, hg, ha⟩ := adaptExports_fail lib symbols ∅ hvalid hf
    refine ⟨s, hs, hk, diags, hd, hg, hc.trans ha, ?_⟩
    intro f hfc
    have hp : f.ConfigureProvider ⟨config⟩ =
        ({ f with dynamicFunctions := none }, .done { Diagnostics := diags }) := by
      unfold FunctionProvider.ConfigureProvider
      rw [hfc, hc, ha]
    rw [hp]
    refine ⟨rfl, ?_⟩
    intro req hreq
    exact callFunction_of_absent _ req hreq (AList.not_mem_empty _)
  · intro hnf
    have hall : ∀ s ∈ symbols, s.2.Typ.Kind = Kind.Func →
        ∃ entry, GoFunctionToTFFunction lib s.2 = .done (some entry, []) := by
      intro s hs hk
      rcases adapt_outcome lib s.2 hk (hvalid s hs) with h | h
      · exact h
      · exact absurd ⟨s, hs, hk, h⟩ hnf
    obtain ⟨catalog, ha, _, hin, honly⟩ := adaptExports_ok lib symbols ∅ hall
    refine ⟨catalog, hc.trans ha, ?_, ?_⟩
    · intro s hs hk
      have := hin s hs hk
      rw [← AList.lookup_isSome] at this
      exact Option.isSome_iff_exists.1 this
    · intro key entry hl
      rcases honly key entry hl with h | h
      · rw [AList.lookup_empty] at h
        cases h
      · exact h

/-- Witness of claim C17: the source `mixed` exports `Echo`, the string `Version` and
`NoReturn`, which has no output; the source `echo` exports `Version` and `Echo`. -/
theorem no_partial_adapt_witness :
    (∃ diags, diags ≠ [] ∧ Configure wireLib ⟨str "mixed", []⟩ = .done (none, diags)) ∧
    (∃ catalog, Configure wireLib ⟨str "echo", []⟩ = .done (some catalog, []) ∧
      ∃ entry, catalog.lookup (str "echo") = some entry) := by
  constructor
  · obtain ⟨_, _, _, diags, hd, _, hc, _⟩ :=
      (no_partial_adapt wireLib ⟨str "mixed", []⟩ _ _ (str "mixed") _ rfl rfl rfl rfl rfl
        (by
          intro s hs
          simp only [List.mem_cons, List.mem_singleton, List.not_mem_nil, or_false] at hs
          rcases hs with rfl | rfl | rfl <;> rfl)).1
        ⟨(str "NoReturn", ⟨.func [] [] false, fun _ => .done []⟩),
          by simp, rfl, _, by simp, rfl⟩
    exact ⟨diags, hd, hc⟩
  · obtain ⟨catalog, hc, hin, _⟩ :=
      (no_partial_adapt wireLib ⟨str "echo", []⟩ _ _ (str "echo") _ rfl rfl rfl rfl rfl
        (by
          intro s hs
          simp only [List.mem_cons, List.mem_singleton, List.not_mem_nil, or_false] at hs
          rcases hs with rfl | rfl <;> rfl)).2
        (by
          rintro ⟨s, hs, hk, diags, hd, hg⟩
          simp only [List.mem_cons, List.mem_singleton, List.not_mem_nil, or_false] at hs
          rcases hs with rfl | rfl
          · cases hk
          · cases hg)
    exact ⟨catalog, hc, hin (str "Echo", echoExport) (by simp [echoExport]) rfl⟩

/-- Claim C18, refuted as stated: a payload that decodes to a map without the entry
`go` is not rejected. The missing entry reads as the empty source, which is evaluated:
with an interpreter that accepts it, `Configure` returns an empty catalog and no
diagnostic; with one that rejects it, the diagnostic is `Failed to evaluate Go code`. -/
theorem missing_source_attribute_fails :
    wireLib.Unmarshal ⟨[0x80], []⟩ (.map .string) = .ok (.map .string []) ∧
    mapGet ([] : List (GoString × TfValue)) (str "go") = none ∧
    Configure wireLib ⟨[0x80], []⟩ = .done (some ∅, []) ∧
    Configure strictLib ⟨[0x80], []⟩ =
      .done (none, [errorDiagnostic (str "Failed to evaluate Go code")
        (.lib "interp.Eval" "rejected")]) :=
  ⟨rfl, rfl, rfl, rfl⟩

/-- Claim C18, amended: for every payload that decodes as a map, if the entry `go` is
present, not null and not a string, `Configure` returns no catalog and the one `Error`
diagnostic `Invalid configure payload`, whatever the interpreter would do, so without
evaluating any source; if the entry `go` is missing or null, `Configure` does what it
does for the empty source. -/
theorem invalid_source_attribute (lib : Lib) (config : DynamicValue) (res : TfValue)
    (cfg : List (GoString × TfValue))
    (hres : lib.Unmarshal config (.map .string) = .ok res) (hcfg : asValueMap res = .ok cfg) :
    (∀ v, mapGet cfg (str "go") = some v → v.IsNull = false → (∀ s, v ≠ .string s) →
      ∃ err, asString v = .error err ∧
        Configure lib config = .done (none, invalidPayload err) ∧
        ∀ use eval, Configure { lib with Use := use, Eval := eval } config =
          .done (none, invalidPayload err)) ∧
    (mapGet cfg (str "go") = none → Configure lib config = evaluateSource lib []) ∧
    (∀ v, mapGet cfg (str "go") = some v → v.IsNull = true →
      Configure lib config = evaluateSource lib []) := by
  refine ⟨?_, ?_, ?_⟩
  · intro v hv hn hs
    have : ∃ err, asString v = .error err := by
      cases v with
      | string s => exact absurd rfl (hs s)
      | null t => cases hn
      | untypedNull => cases hn
      | _ => exact ⟨_, rfl⟩
    obtain ⟨err, he⟩ := this
    have hcode : asString ((mapGet cfg (str "go")).getD .untypedNull) = .error err := by
      rw [hv]; exact he
    exact ⟨err, he, configure_invalid_entry lib config res cfg err hres hcfg hcode,
      fun use eval => configure_invalid_entry _ config res cfg err hres hcfg hcode⟩
  · intro hv
    exact configure_eq_evaluateSource lib config res cfg [] hres hcfg (by rw [hv]; rfl)
  · intro v hv hn
    refine configure_eq_evaluateSource lib config res cfg [] hres hcfg ?_
    rw [hv]
    cases v with
    | null t => rfl
    | untypedNull => rfl
    | _ => cases hn

/-- Witness of claim C18, amended: a payload whose entry `go` is an unknown value. -/
theorem invalid_source_attribute_witness :
    Configure unknownLib ⟨str "echo", []⟩ =
      .done (none, invalidPayload (.lib "tftypes.Value.As" "unknown value")) := by
  obtain ⟨err, he, hc, _⟩ :=
    (invalid_source_attribute unknownLib ⟨str "echo", []⟩ _ _ rfl rfl).1
      (.unknown .string) rfl rfl (by simp)
  cases he
  exact hc

/-- Claim C19, refuted as stated: a `float64` does not always encode. On a NaN,
`big.NewFloat` panics. -/
theorem number_encode_nan :
    GoToTfValue .number (.float64 .nan) = .panic "big.NewFloat(NaN)" := rfl

/-- Claim C19, amended: for every value `v` that is not the nil interface, encoding
`v` against the number type succeeds with the number equal to `v` when `v` is an `int`
or a `float64` other than NaN, and it succeeds only then; for every value that is neither
an `int` nor a `float64`, a pointer to an `int` or to a `float64` included, it fails with
the error `expected number, got <type>`. -/
theorem number_encode (v : GoValue) (hv : v ≠ .nil) :
    (∀ i, v = .int i → GoToTfValue .number v = .ok (.number (.fin i 0))) ∧
    (∀ f n, v = .float64 f → f.toBigFloat = some n → GoToTfValue .number v = .ok (.number n)) ∧
    ((∃ w, GoToTfValue .number v = .ok w) ↔
      (∃ i, v = .int i) ∨ (∃ f, v = .float64 f ∧ f ≠ .nan)) ∧
    ((∀ i, v ≠ .int i) → (∀ f, v ≠ .float64 f) →
      GoToTfValue .number v =
        .error (.withGoType (str "expected number, got ") (typeOf v) [])) ∧
    (∀ elem target, v = .ptr elem target →
      GoToTfValue .number v =
        .error (.withGoType (str "expected number, got ") (some (.ptr elem)) [])) := by
  rw [GoToTfValue_number]
  refine ⟨?_, ?_, ?_, ?_, ?_⟩
  · rintro i rfl; rfl
  · rintro f n rfl hn
    cases f <;> simp [F64.toBigFloat] at hn <;> subst hn <;> rfl
  · cases v <;> simp [newFloatValue] at hv ⊢
    case float64 f => cases f <;> simp [newFloatValue]
  · intro hi hf
    cases v <;> simp at hv hi hf ⊢
  · rintro elem target rfl; rfl

/-- Witness of claim C19, amended: a pointer to an `int`, whose type maps to the number
type, and a `float64`. -/
theorem number_encode_witness :
    GoTypeToTFType (.ptr .int) = .ok .number ∧
    GoToTfValue .number (.ptr .int (.int 5)) =
      .error (.withGoType (str "expected number, got ") (some (.ptr .int)) []) ∧
    GoToTfValue .number (.float64 (.fin 3 (-1))) = .ok (.number (.fin 3 (-1))) :=
  ⟨rfl, (number_encode (.ptr .int (.int 5)) (by simp)).2.2.2.2 _ _ rfl,
    (number_encode (.float64 (.fin 3 (-1))) (by simp)).2.1 _ _ rfl rfl⟩

/-- Claim C20, refuted as stated: encoding a record against an object type follows the
fields of the record, not the attributes of the type. For the record type `twinType`,
whose fields `A string` and `B int` share the attribute name `x`, the record's own object
type has the one attribute `x` of type number, and encoding a value against it fails on
the field `A`; for an
object type with an attribute that is the name of no field, and for one that lacks the
name of a field, the encoding panics. -/
theorem object_encode_fails :
    (GoTypeToTFType (.struct twinType) = .ok (.object [(str "x", .number)]) ∧
      GoToTfValue (.object [(str "x", .number)])
          (.struct twinType [.string (str "s"), .int 1]) =
        .error (.withGoType (str "expected number, got ") (some .string) [])) ∧
    GoToTfValue (.object [(str "first", .string), (str "age", .number), (str "city", .string)])
        (.struct greetType [.string (str "ada"), .int 36]) =
      .panic "tftypes.NewValue: attributes do not match the object type" ∧
    GoToTfValue (.object [(str "first", .string)])
        (.struct greetType [.string (str "ada"), .int 36]) =
      .panic "method call on the nil tftypes.Type" :=
  ⟨⟨rfl, rfl⟩, rfl, rfl⟩

/-- Claim C20, amended: for every object type and every record value, if every field is
exported, the object type declares an attribute under the name of the field, and the
value of the field encodes against the type of that attribute, and if every attribute of
the object type is the name of some field (which holds when the object type is
`GoTypeToTFType` of the record's own type), then `GoToTfValue` produces an object of that
type whose attribute names are exactly those of the type, the attribute `a` being the
encoding of the last field named `a`. -/
theorem object_encode (attributeTypes : List (GoString × TfType)) (fields : List StructField)
    (vals : List GoValue) (pairs : List (GoString × TfValue))
    (henc : List.Forall₂ (fieldEncoded attributeTypes) (fields.zip vals) pairs)
    (hall : (∀ a ∈ mapKeys attributeTypes, a ∈ mapKeys pairs) ∨
      (fields.length = vals.length ∧
        GoTypeToTFType (.struct fields) = .ok (.object attributeTypes))) :
    GoToTfValue (.object attributeTypes) (.struct fields vals) =
      .ok (.object attributeTypes (mapOfPairs pairs)) ∧
    (∀ a, a ∈ mapKeys (mapOfPairs pairs) ↔ a ∈ mapKeys attributeTypes) ∧
    (∀ a, mapGet (mapOfPairs pairs) a = mapGet pairs.reverse a) := by
  have hsub : ∀ a ∈ mapKeys pairs, a ∈ mapKeys attributeTypes :=
    mapGet_of_encoded attributeTypes _ pairs henc
  have hall' : ∀ a ∈ mapKeys attributeTypes, a ∈ mapKeys pairs := by
    rcases hall with hall | ⟨hlen, hown⟩
    · exact hall
    · intro a ha
      have := mapKeys_of_own_type fields attributeTypes hown a ha
      rw [fieldNames_of_encoded attributeTypes fields vals pairs hlen henc] at this
      obtain ⟨b, hb, hab⟩ := List.mem_map.1 this
      cases hab
      exact hb
  have hkeys : ∀ a, a ∈ mapKeys (mapOfPairs pairs) ↔ a ∈ mapKeys attributeTypes := by
    intro a
    unfold mapOfPairs
    rw [mem_mapKeys_foldl]
    constructor
    · rintro (h | h)
      · exact hsub a h
      · cases h
    · intro h; exact Or.inl (hall' a h)
  refine ⟨?_, hkeys, mapGet_mapOfPairs pairs⟩
  rw [GoToTfValue]
  simp only [encodeFields_of_encoded attributeTypes fields vals pairs [] henc]
  unfold newObjectValue
  rw [if_pos]
  · rfl
  · rw [Bool.and_eq_true, List.all_eq_true, List.all_eq_true]
    constructor
    · intro k hk
      rw [mapGet_isSome]
      exact (hkeys k).2 hk
    · intro k hk
      rw [mapGet_isSome]
      exact (hkeys k).1 hk

/-- Witness of claim C20, amended: a record with the fields `first` and `age`, and a
record whose two `int` fields share the attribute name `x`, each against its own object
type. -/
theorem object_encode_witness :
    GoToTfValue (.object [(str "first", .string), (str "age", .number)])
        (.struct greetType [.string (str "ada"), .int 36]) =
      .ok (.object [(str "first", .string), (str "age", .number)]
        [(str "first", .string (str "ada")), (str "age", .number (.fin 36 0))]) ∧
    GoToTfValue (.object [(str "x", .number)])
        (.struct [⟨str "A", str "x", .int, true⟩, ⟨str "B", str "x", .int, true⟩]
          [.int 1, .int 2]) =
      .ok (.object [(str "x", .number)] [(str "x", .number (.fin 2 0))]) :=
  ⟨(object_encode [(str "first", .string), (str "age", .number)] greetType
      [.string (str "ada"), .int 36]
      [(str "first", .string (str "ada")), (str "age", .number (.fin 36 0))]
      (.cons ⟨rfl, rfl, _, rfl, rfl⟩ (.cons ⟨rfl, rfl, _, rfl, rfl⟩ .nil))
      (Or.inr ⟨rfl, rfl⟩)).1,
    (object_encode [(str "x", .number)]
      [⟨str "A", str "x", .int, true⟩, ⟨str "B", str "x", .int, true⟩] [.int 1, .int 2]
      [(str "x", .number (.fin 1 0)), (str "x", .number (.fin 2 0))]
      (.cons ⟨rfl, rfl, _, rfl, rfl⟩ (.cons ⟨rfl, rfl, _, rfl, rfl⟩ .nil))
      (Or.inr ⟨rfl, rfl⟩)).1⟩

/-- Claim C21: number decode truncates. For every host number `n`, decoding at `int`
and decoding at `float64` succeed with the same integer `t`, held in an `int` in the
first case and in an `int64` in the second. For `n = m * 2 ^ e`, `t` is the truncation of
`n` toward zero whenever that integer fits in 64 bits, the lower bound of `int64` when it
lies below the range and the upper bound when it lies above; an infinity gives the bound
on its side. The type `int` is 64 bits wide, as on every 64-bit platform. -/
theorem number_decode_truncates (n : BigFloat) :
    ∃ t : Int, TfToGoValue .int (.number n) = .ok (.int t) ∧
      TfToGoValue .float64 (.number n) = .ok (.int64 t) ∧
      (∀ m e, n = .fin m e →
        (minInt64 ≤ truncate (finValue m e) → truncate (finValue m e) ≤ maxInt64 →
          t = truncate (finValue m e)) ∧
        (truncate (finValue m e) < minInt64 → t = minInt64) ∧
        (maxInt64 < truncate (finValue m e) → t = maxInt64)) ∧
      (n = .inf true → t = minInt64) ∧ (n = .inf false → t = maxInt64) := by
  refine ⟨n.Int64, rfl, rfl, ?_, ?_, ?_⟩
  · rintro m e rfl
    rw [truncate_finValue]
    unfold BigFloat.Int64
    dsimp only
    refine ⟨fun h1 h2 => ?_, fun h => ?_, fun h => ?_⟩
    · rw [if_neg (not_lt.2 h1), if_neg (not_lt.2 h2)]
    · rw [if_pos h]
    · have : ¬ (if 0 ≤ e then m * 2 ^ e.toNat else Int.tdiv m (2 ^ (-e).toNat)) < minInt64 := by
        have : minInt64 ≤ maxInt64 := by decide
        omega
      rw [if_neg this, if_pos h]
  · rintro rfl; rfl
  · rintro rfl; rfl

/-- Claim C22, refuted as stated: decoding is neither type-preserving nor free of panics
on the types and values of the claim. At `float64` a number decodes to an `int64`, which
is not assignable to a `float64` slot, so decoding at `map[string]float64` panics in
`SetMapIndex`; at `[]*string` a null element, which stands at a pointer position, decodes
to the nil interface and `Set` panics, and so does a null attribute of a field of type
`*string`; and `Set` panics on a field that is not exported. At the defined type
`time.Month`, of kind int, a number decodes to an `int`, which is not assignable to a
`time.Month`, so that decoding at `[]time.Month` panics; and at a map whose key type is a
defined type of kind string, `SetMapIndex` panics on the `string` key. Each host value
has the type that `GoTypeToTFType` gives for the Go type. And a value of exactly the type of its
slot is not always accepted by the call of the invoke closure: for the variadic
`func Join(parts ...string) string` the argument decodes to a `[]string`, the type of the
one input, and `reflect.Value.Call` rejects it. -/
theorem decode_not_type_preserving :
    (GoTypeToTFType .float64 = .ok .number ∧
      TfToGoValue .float64 (.number (.fin 3 (-1))) = .ok (.int64 1) ∧
      typeOf (.int64 1) = some (.scalar .int64) ∧ assignable .float64 (.int64 1) = false) ∧
    (GoTypeToTFType (.map .string .float64) = .ok (.map .number) ∧
      TfToGoValue (.map .string .float64) (.map .number [(str "a", .number (.fin 1 0))]) =
        .panic "reflect.SetMapIndex: value is not assignable to the element type") ∧
    (GoTypeToTFType (.slice (.ptr .string)) = .ok (.list .string) ∧
      TfToGoValue (.slice (.ptr .string)) (.list .string [.null .string]) =
        .panic "reflect.Set: value is not assignable to the element type") ∧
    (GoTypeToTFType (.struct [⟨str "Nick", [], .ptr .string, true⟩]) =
        .ok (.object [(str "nick", .string)]) ∧
      TfToGoValue (.struct [⟨str "Nick", [], .ptr .string, true⟩])
          (.object [(str "nick", .string)] [(str "nick", .null .string)]) =
        .panic "reflect.Set: field is not settable or value is not assignable") ∧
    (GoTypeToTFType (.struct [⟨str "nick", [], .string, false⟩]) =
        .ok (.object [(str "nick", .string)]) ∧
      TfToGoValue (.struct [⟨str "nick", [], .string, false⟩])
          (.object [(str "nick", .string)] [(str "nick", .string (str "a"))]) =
        .panic "reflect.Set: field is not settable or value is not assignable") ∧
    (GoTypeToTFType monthType = .ok .number ∧
      TfToGoValue monthType (.number (.fin 3 0)) = .ok (.int 3) ∧
      assignable monthType (.int 3) = false ∧
      TfToGoValue (.slice monthType) (.list .number [.number (.fin 3 0)]) =
        .panic "reflect.Set: value is not assignable to the element type") ∧
    (GoTypeToTFType (.map (.defined (str "Key") .string) .string) = .ok (.map .string) ∧
      TfToGoValue (.map (.defined (str "Key") .string) .string)
          (.map .string [(str "a", .string (str "b"))]) =
        .panic "reflect.SetMapIndex: key is not assignable to the key type") ∧
    (∃ entry, GoFunctionToTFFunction listLib joinExport = .done (some entry, []) ∧
      TfToGoValue (.slice .string) (.list .string [.string (str "a")]) =
        .ok (.slice .string [.string (str "a")]) ∧
      decodeArgs listLib entry.Function.Parameters [.slice .string] [⟨[0x91], []⟩] =
        .ok [.slice .string [.string (str "a")]] ∧
      entry.Impl [⟨[0x91], []⟩] = .panic "reflect: Call with mismatched arguments") :=
  ⟨⟨rfl, rfl, rfl, rfl⟩, ⟨rfl, rfl⟩, ⟨rfl, rfl⟩, ⟨rfl, rfl⟩, ⟨rfl, rfl⟩,
    ⟨rfl, rfl, rfl, rfl⟩, ⟨rfl, rfl⟩, ⟨_, rfl, rfl, rfl, rfl⟩⟩

/-- Claim C22, amended: for every type `t` built from the predeclared types string, bool
and int by pointer, slice, map with keys of type string and record with exported fields
(a type literal over these, so neither a defined type nor a recursive one, and no
`float64`), and every host value `v`, of the mapped type or not, in which a null occurs
only as the whole value or as the element of a map, `TfToGoValue t v` returns without a
panic; the result is the nil interface exactly when `v` is null; and a result that is
not nil has exactly the type `t`, so that it is assignable to a slot of type `t`, and
`reflect.Value.Call` accepts it at an input `t` of a function that is not variadic, the
other arguments being accepted. At the last input `t = []elem` of a variadic function
`Call` rejects it. -/
theorem decode_type_preserving (t : GoType) (v : TfValue) (ht : decodableType t = true)
    (hv : storableValue t v = true) :
    ((∃ x, TfToGoValue t v = .ok x) ∨ (∃ e, TfToGoValue t v = .error e)) ∧
    (∀ x, TfToGoValue t v = .ok x → (x = .nil ↔ v.IsNull = true)) ∧
    (∀ x, TfToGoValue t v = .ok x → x ≠ .nil →
      typeOf x = some t ∧ assignable t x = true ∧
      (∀ (fn : Export) pre post outs xs ys, fn.Typ = .func (pre ++ t :: post) outs false →
        argsAssignable pre xs = true → argsAssignable post ys = true →
        reflectCall fn (xs ++ x :: ys) = fn.Call (xs ++ x :: ys)) ∧
      (∀ (fn : Export) pre elem outs xs, fn.Typ = .func (pre ++ [t]) outs true →
        t = .slice elem → xs.length = pre.length →
        reflectCall fn (xs ++ [x]) = .panic "reflect: Call with mismatched arguments")) := by
  have hnp := decode_no_panic t v ht hv
  refine ⟨?_, ?_, ?_⟩
  · cases h : TfToGoValue t v with
    | ok x => exact Or.inl ⟨x, rfl⟩
    | error e => exact Or.inr ⟨e, rfl⟩
    | panic w => exact absurd h (hnp w)
  · intro x hx
    by_cases hn : v.IsNull = true
    · rw [TfToGoValue_null t v hn] at hx
      cases hx
      simp [hn]
    · have := (assignable_decoded t v x ht (by simpa using hn) hx).1
      simp [hn, this]
  · intro x hx hnil
    have hn : v.IsNull = false := by
      by_contra hn
      rw [TfToGoValue_null t v (by simpa using hn)] at hx
      cases hx
      exact hnil rfl
    obtain ⟨_, hty, has⟩ := assignable_decoded t v x ht hn hx
    refine ⟨hty, has, ?_, ?_⟩
    · intro fn pre post outs xs ys hfn hpre hpost
      rw [reflectCall_fixed fn _ outs _ hfn, argsAssignable_append pre xs _ _ hpre]
      simp only [argsAssignable, has, hpost, Bool.and_self, if_true]
    · intro fn pre elem outs xs hfn ht' hlen
      subst ht'
      have hdec : decodableType elem = true := by
        rw [decodableType] at ht
        exact ht
      have hne : goTypeEq (.slice elem) elem = false := by
        cases hq : goTypeEq (.slice elem) elem with
        | false => rfl
        | true => exact absurd ((goTypeEq_iff _ _).1 hq) (slice_ne_elem elem)
      have hna : assignable elem x = false := by
        unfold assignable
        rw [hty]
        dsimp only
        rw [hne, Bool.false_or]
        cases elem <;> first | rfl | (simp [decodableType] at hdec)
      unfold reflectCall
      rw [hfn]
      simp [hlen, List.all_cons, hna]

/-- Witness of claim C22, amended: a record with a pointer field and a map of slices,
decoded from an object whose map has a null element. -/
theorem decode_type_preserving_witness :
    decodableType taggedType = true ∧ storableValue taggedType taggedObject = true ∧
    TfToGoValue taggedType taggedObject =
      .ok (.struct [⟨str "FirstName", str "first", .ptr .string, true⟩,
          ⟨str "Tags", [], .map .string (.slice .int), true⟩]
        [.ptr .string (.string (str "ada")),
          .map .string (.slice .int) [(str "a", .slice .int [.int 1])]]) ∧
    typeOf (.struct [⟨str "FirstName", str "first", .ptr .string, true⟩,
          ⟨str "Tags", [], .map .string (.slice .int), true⟩]
        [.ptr .string (.string (str "ada")),
          .map .string (.slice .int) [(str "a", .slice .int [.int 1])]]) = some taggedType :=
  ⟨rfl, rfl, rfl,
    ((decode_type_preserving taggedType taggedObject rfl rfl).2.2 _ rfl (by simp)).1⟩

end TfGo
